import Mathlib

/-!
# Label placement engine (`src/core/pal/pal.cpp`): registry, extraction, solving

A shallow embedding of `pal::Pal`.

Conventions of the embedding

* Pointers are natural numbers, `0` being `nullptr`.
* `int` members are `Int`, `std::size_t` values are `Nat`; the `static_cast<int>` of a
  container size is the exact inclusion of `Nat` in `Int` (a feature list would need
  more than `2^31` candidates for the cast to wrap).
* The accumulator `nbOverlaps`, a sum that grows with the square of the number of
  candidates, is a 32-bit value: each addition to it is reduced with `wrapInt32`.
* `double` coordinates and costs are carried as integers in some fixed unit; only their
  order and equality are ever used. The priority of a feature and its inactive cost, on
  which `Pal::extract` computes, are binary64 values counted in units of `2^-1074` (see
  the section on binary64 arithmetic).
* `QHash`, `std::list`, `std::vector`, `QList` and the R-trees are lists; an R-tree
  range query visits the entries whose box overlaps the query box, in list order.
* Code that is not part of `pal.cpp` (GEOS predicates, `Layer`, `FeaturePart`,
  `LabelPosition`, `CostCalculator`, `Problem` methods) is a field of `Collaborators`
  or of the object it belongs to.
-/

namespace pal

/-! ## Data model -/

/-- Axis-aligned bounding box (`amin[2]`, `amax[2]`). -/
structure Box where
  xmin : Int
  ymin : Int
  xmax : Int
  ymax : Int
deriving DecidableEq, Repr

/-- Modelled from the spec: the R-tree (`rtree.hpp`) is not under `src/`; it is a
"bounding-box index supporting insert and range-query-with-callback over 2D axis-aligned
boxes". Two boxes overlap unless one lies strictly beyond the other along some axis. -/
def Box.overlaps (a b : Box) : Bool :=
  !(decide (a.xmin > b.xmax) || decide (b.xmin > a.xmax)) &&
  !(decide (a.ymin > b.ymax) || decide (b.ymin > a.ymax))

/-- Modelled from the spec: range query of an R-tree holding `entries`, each stored with
the box `box` reports; the entries whose box overlaps the query box are visited. -/
def rtreeSearch {α : Type} (box : α → Box) (entries : List α) (query : Box) : List α :=
  entries.filter (fun e => (box e).overlaps query)

/-- Values of `getGeosType()` that `Pal::extract` distinguishes; `other` is any
type id that is none of `GEOS_POINT`, `GEOS_LINESTRING`, `GEOS_POLYGON`. -/
inductive GeosType where
  | point
  | linestring
  | polygon
  | other
deriving DecidableEq, Repr

/-- Modelled from the spec: the part of a `LabelPosition` (not under `src/`) that is
fixed when the candidate is created, "position, rotation, width/height", kept as the
bounding box `getBoundingBox` reports and the rotation. -/
structure LabelGeom where
  bbox : Box
  alpha : Int
deriving DecidableEq, Repr

/-- Modelled from the spec: `LabelPosition` is not under `src/`; it is "a scored
placement: position, rotation, width/height, a feature/problem id pair, an overlap
counter, and a cost". `addr` is the address of the object (the R-tree of candidates
stores addresses), `probFeat` and `id` the pair written by `setProblemIds`. -/
structure LabelPosition where
  addr : Nat
  geom : LabelGeom
  cost : Int
  probFeat : Int
  id : Int
  nbOverlap : Int
deriving DecidableEq, Repr

/-- What `setProblemIds( probFeat, id )` does to a candidate. -/
def LabelPosition.setProblemIds (lp : LabelPosition) (probFeat id : Int) : LabelPosition :=
  { lp with probFeat := probFeat, id := id }

/-- What `resetNumOverlaps()` does to a candidate. -/
def LabelPosition.resetNumOverlaps (lp : LabelPosition) : LabelPosition :=
  { lp with nbOverlap := 0 }

/-- A `FeaturePart *` held by an obstacle index: its address and `getBoundingBox`. -/
structure Obstacle where
  addr : Nat
  bbox : Box
deriving DecidableEq, Repr

/-- The part of `feature->layer()` that `Pal::extract` reads through a feature part. -/
structure LayerRef where
  maximumPointLabelCandidates : Nat
  maximumLineLabelCandidates : Nat
  maximumPolygonLabelCandidates : Nat
deriving DecidableEq, Repr

/-- One labelable geometry: `createCandidates` is the list `createCandidates()`
returns, `calculatePriority` the value of `calculatePriority()`,
`createCandidatePointOnSurface` the (possibly null) result of
`createCandidatePointOnSurface( this )`. -/
structure FeaturePart where
  bbox : Box
  getGeosType : GeosType
  layer : LayerRef
  selfObstacles : List Obstacle
  createCandidates : List LabelPosition
  calculatePriority : Int
  createCandidatePointOnSurface : Option LabelPosition
deriving DecidableEq, Repr

/-- Registered layer. `addr` is the address of the `Layer` object. -/
structure Layer where
  addr : Nat
  provider : Nat
  name : String
  arrangement : Nat
  defaultPriority : Int
  active : Bool
  toLabel : Bool
  displayAll : Bool
  mergeConnectedLines : Bool
  mFeatureIndex : List FeaturePart
  mObstacleIndex : List Obstacle
deriving DecidableEq, Repr

/-- The engine: `mLayers` is the `QHash` from provider to layer, kept as an
association list; the other members are the tunables. -/
structure Pal where
  mLayers : List (Nat × Layer)
  mMaxPointCandidates : Int
  mMaxLineCandidates : Int
  mMaxPolyCandidates : Int
  mTabuMinIt : Int
  mTabuMaxIt : Int
  mPopmusicR : Int
  mEjChainDeg : Int
  mTenure : Int
  mCandListSize : Int
  mShowPartialLabels : Bool
  mPlacementVersion : Nat
deriving DecidableEq, Repr

/-! ## Tunables -/

def Pal.setMaximumNumberOfPointCandidates (p : Pal) (candidates : Int) : Pal :=
  if candidates > 0 then { p with mMaxPointCandidates := candidates } else p

def Pal.setMaximumNumberOfLineCandidates (p : Pal) (line_p : Int) : Pal :=
  if line_p > 0 then { p with mMaxLineCandidates := line_p } else p

def Pal.setMaximumNumberOfPolygonCandidates (p : Pal) (poly_p : Int) : Pal :=
  if poly_p > 0 then { p with mMaxPolyCandidates := poly_p } else p

def Pal.setMinIt (p : Pal) (min_it : Int) : Pal :=
  if min_it >= 0 then { p with mTabuMinIt := min_it } else p

def Pal.setMaxIt (p : Pal) (max_it : Int) : Pal :=
  if max_it > 0 then { p with mTabuMaxIt := max_it } else p

def Pal.setPopmusicR (p : Pal) (r : Int) : Pal :=
  if r > 0 then { p with mPopmusicR := r } else p

def Pal.setEjChainDeg (p : Pal) (degree : Int) : Pal :=
  { p with mEjChainDeg := degree }

def Pal.setTenure (p : Pal) (tenure : Int) : Pal :=
  { p with mTenure := tenure }

def Pal.setCandListSize (p : Pal) (fact : Int) : Pal :=
  { p with mCandListSize := fact }

def Pal.setShowPartialLabels (p : Pal) (show_ : Bool) : Pal :=
  { p with mShowPartialLabels := show_ }

def Pal.maximumNumberOfPointCandidates (p : Pal) : Int := p.mMaxPointCandidates

def Pal.maximumNumberOfLineCandidates (p : Pal) : Int := p.mMaxLineCandidates

def Pal.maximumNumberOfPolygonCandidates (p : Pal) : Int := p.mMaxPolyCandidates

def Pal.placementVersion (p : Pal) : Nat := p.mPlacementVersion

def Pal.setPlacementVersion (p : Pal) (placementVersion : Nat) : Pal :=
  { p with mPlacementVersion := placementVersion }

/-- Getter `Pal::getMinIt` as written: it returns `mTabuMaxIt`. -/
def Pal.getMinIt (p : Pal) : Int := p.mTabuMaxIt

/-- Getter `Pal::getMaxIt` as written: it returns `mTabuMinIt`. -/
def Pal.getMaxIt (p : Pal) : Int := p.mTabuMinIt

def Pal.showPartialLabels (p : Pal) : Bool := p.mShowPartialLabels

/-- An engine with no layer and small tunables, used for concrete evaluations. -/
def samplePal : Pal :=
  { mLayers := [], mMaxPointCandidates := 16, mMaxLineCandidates := 50,
    mMaxPolyCandidates := 30, mTabuMinIt := 3, mTabuMaxIt := 4, mPopmusicR := 30,
    mEjChainDeg := 50, mTenure := 10, mCandListSize := 2, mShowPartialLabels := false,
    mPlacementVersion := 0 }

/-! ## Engine registry -/

/-- Method `QHash::contains( key )`. -/
def hashContains (m : List (Nat × Layer)) (key : Nat) : Bool :=
  m.any (fun e => e.1 == key)

/-- Method `QHash::key( value, defaultKey )`: the first key mapped to the layer at address
`value`, and `defaultKey` when no entry holds it. -/
def hashKey (m : List (Nat × Layer)) (value : Nat) (defaultKey : Nat) : Nat :=
  match m.find? (fun e => e.2.addr == value) with
  | some e => e.1
  | none => defaultKey

/-- Method `QHash::remove( key )`. -/
def hashRemove (m : List (Nat × Layer)) (key : Nat) : List (Nat × Layer) :=
  m.filter (fun e => e.1 != key)

/-- Method `QHash::insert( key, value )`: the value of a key already present is replaced. -/
def hashInsert (m : List (Nat × Layer)) (key : Nat) (value : Layer) : List (Nat × Layer) :=
  if hashContains m key then m.map (fun e => if e.1 == key then (key, value) else e)
  else m ++ [(key, value)]

/-- Method `Pal::removeLayer`. The deleted `Layer` object simply disappears from the model. -/
def Pal.removeLayer (p : Pal) (layer : Nat) : Pal :=
  if layer = 0 then p
  else
    let key := hashKey p.mLayers layer 0
    if key ≠ 0 then { p with mLayers := hashRemove p.mLayers key } else p

/-- Method `Pal::addLayer`. `newAddr` is the address `new Layer( ... )` returns. The result is
`none` when `Q_ASSERT( !mLayers.contains( provider ) )` fails. -/
def Pal.addLayer (p : Pal) (provider : Nat) (layerName : String) (arrangement : Nat)
    (defaultPriority : Int) (active toLabel displayAll : Bool) (newAddr : Nat) :
    Option (Layer × Pal) :=
  if hashContains p.mLayers provider then none
  else
    let layer : Layer :=
      { addr := newAddr, provider := provider, name := layerName, arrangement := arrangement,
        defaultPriority := defaultPriority, active := active, toLabel := toLabel,
        displayAll := displayAll, mergeConnectedLines := false, mFeatureIndex := [],
        mObstacleIndex := [] }
    some (layer, { p with mLayers := hashInsert p.mLayers provider layer })

/-- One call on the registry. -/
inductive RegistryCall where
  | addLayer (provider : Nat) (layerName : String) (arrangement : Nat) (defaultPriority : Int)
      (active toLabel displayAll : Bool) (newAddr : Nat)
  | removeLayer (layer : Nat)
deriving DecidableEq, Repr

/-- Runs one registry call; `none` is the failed assertion of `addLayer`. -/
def Pal.call (p : Pal) : RegistryCall → Option Pal
  | .addLayer provider layerName arrangement defaultPriority active toLabel displayAll newAddr =>
    (p.addLayer provider layerName arrangement defaultPriority active toLabel displayAll
      newAddr).map Prod.snd
  | .removeLayer layer => some (p.removeLayer layer)

/-- Runs a sequence of registry calls, first to last. -/
def Pal.calls (p : Pal) : List RegistryCall → Option Pal
  | [] => some p
  | c :: cs =>
    match p.call c with
    | some q => q.calls cs
    | none => none

/-- A call the registry can receive in state `p`: `addLayer` comes with a provider that
is not registered, and `new` hands out a non-null address that no registered layer
occupies. -/
def Pal.admits (p : Pal) : RegistryCall → Bool
  | .addLayer provider _ _ _ _ _ _ newAddr =>
    !hashContains p.mLayers provider && decide (newAddr ≠ 0) &&
      !p.mLayers.any (fun e => e.2.addr == newAddr)
  | .removeLayer _ => true

/-- Every call of the sequence is admitted by the state it meets. -/
def Pal.admitsAll (p : Pal) : List RegistryCall → Bool
  | [] => true
  | c :: cs =>
    p.admits c &&
      match p.call c with
      | some q => q.admitsAll cs
      | none => false

/-- Registry invariant: provider keys pairwise distinct, layer addresses pairwise
distinct, no null layer. -/
def Pal.registryOk (p : Pal) : Prop :=
  (p.mLayers.map Prod.fst).Nodup ∧ (p.mLayers.map (fun e => e.2.addr)).Nodup ∧
    ∀ e ∈ p.mLayers, e.2.addr ≠ 0

instance (p : Pal) : Decidable p.registryOk := by
  unfold Pal.registryOk
  exact inferInstance

/-! ## Binary64 arithmetic

A finite `double` is an integer multiple of `2^-1074`, its smallest positive value, and
is carried as that integer: `1.0` is `2^1074`. The two infinities are carried as
`2^2098` and `-2^2098`, that is, as `2^1024` and `-2^1024`, the first values past the
largest finite `double`. There is no NaN, and the two zeros are one value. Arithmetic is
the exact operation on the integers followed by `roundDouble`, the rounding to nearest
with ties to even of IEEE 754 that C++ uses for `double` on the targets of QGIS. -/

/-- Number of low bits of `n` that do not fit a significand of 53 bits: the least `s`
with `n / 2^s < 2^53`, found by halving `n` at most `fuel` times. -/
def shiftOf : Nat → Nat → Nat
  | 0, _ => 0
  | fuel + 1, n => if n < 2 ^ 53 then 0 else shiftOf fuel (n / 2) + 1

/-- Rounding of the natural number `n` to 53 significant bits, to nearest, ties to the
even significand, with no bound on the exponent. -/
def roundNat (n : Nat) : Nat :=
  let ulp := 1 <<< shiftOf n n
  let q := n / ulp
  let r := n % ulp
  if 2 * r < ulp ∨ (2 * r = ulp ∧ q % 2 = 0) then q * ulp else (q + 1) * ulp

/-- Positive infinity: `2^1024` in units of `2^-1074`. -/
def dblInfinity : Nat := 1 <<< 2098

/-- The `double` that an exact result `x` rounds to; a result that rounds to `2^1024` or
beyond overflows to infinity. -/
def roundDouble (x : Int) : Int :=
  if 0 ≤ x then ((min (roundNat x.toNat) dblInfinity : Nat) : Int)
  else -((min (roundNat (-x).toNat) dblInfinity : Nat) : Int)

/-- The `double` an `int` constant `k` converts to; the conversion is exact. -/
def dbl (k : Int) : Int := k * ((1 <<< 1074 : Nat) : Int)

/-- The product `k * x` of the nonzero `int` constant `k` and the `double` `x`. -/
def mulIntDouble (k x : Int) : Int := roundDouble (k * x)

/-- The difference `k - x` of the `int` constant `k` and the `double` `x`. -/
def subIntDouble (k x : Int) : Int := roundDouble (dbl k - x)

/-! ## Extraction -/

/-- The prepared map boundary, as the answers GEOS gives for a candidate geometry:
`within` is `candidate->within( mapBoundary )`, `intersects` is
`candidate->intersects( mapBoundary )`. -/
structure MapBoundary where
  within : LabelGeom → Bool
  intersects : LabelGeom → Bool

/-- Transient record binding a feature part to its candidates (`shape` is always null). -/
structure Feats where
  feature : FeaturePart
  candidates : List LabelPosition
  priority : Int
deriving DecidableEq, Repr

/-- Code called by `Pal::extract` that lives outside `pal.cpp`.
`obstacleCost o lp` is the cost of `lp` after `LabelPosition::pruneCallback` ran on it for
obstacle `o`; `finalizeCandidatesCosts feat max_p obstacles bb` returns the feature record
as `CostCalculator::finalizeCandidatesCosts` leaves it together with its return value;
`pow2 y` is `std::pow( 2, y )`, the one call of `std::pow`; `validateCost` is the cost
after `validateCost()`; `isInConflict` is `LabelPosition::isInConflict`; `isCanceled n` is
the answer of the registered cancellation predicate the `n`-th time it is polled. -/
structure Collaborators where
  joinConnectedFeatures : Layer → Layer
  chopFeaturesAtRepeatDistance : Layer → Layer
  obstacleCost : Obstacle → LabelPosition → Int
  finalizeCandidatesCosts : Feats → Nat → List Obstacle → Box → Feats × Nat
  pow2 : Int → Int
  validateCost : Int → Int
  isInConflict : LabelPosition → LabelPosition → Bool
  isCanceled : Nat → Bool

/-- Modelled from the spec: `CostCalculator::candidateSortGrow` is not under `src/`; the
candidates are "sort[ed] ascending by cost (cheapest/best first)". -/
def sortGrow (candidates : List LabelPosition) : List LabelPosition :=
  candidates.insertionSort (fun c1 c2 => c1.cost ≤ c2.cost)

/-- The objects the callbacks of `Pal::extract` write to. `FeatCallBackCtx` and
`ObstacleCallBackCtx` both point at the one obstacle R-tree `obstacles`. -/
structure CallBackCtx where
  features : List Feats
  obstacleIndex : List Obstacle
  candidateIndex : List Nat
  positionsWithNoCandidates : List LabelPosition
  obstacleCount : Int
deriving DecidableEq, Repr

/-- The `erase( remove_if( ... ) )` of `extractFeatCallback`: a candidate is removed when
the lambda returns true. -/
def purgeCandidates (pal : Pal) (mapBoundary : MapBoundary)
    (candidates : List LabelPosition) : List LabelPosition :=
  candidates.filter (fun candidate =>
    !(if pal.showPartialLabels then !mapBoundary.intersects candidate.geom
      else !mapBoundary.within candidate.geom))

/-- Callback `extractFeatCallback` (it always returns true, so the query goes on). -/
def extractFeatCallback (pal : Pal) (mapBoundary : MapBoundary) (featurePart : FeaturePart)
    (context : CallBackCtx) : CallBackCtx :=
  let context := { context with
    obstacleIndex := context.obstacleIndex ++ featurePart.selfObstacles }
  let candidates := purgeCandidates pal mapBoundary featurePart.createCandidates
  if !candidates.isEmpty then
    { context with
      candidateIndex := context.candidateIndex ++ candidates.map (fun c => c.addr),
      features := context.features ++
        [{ feature := featurePart, candidates := sortGrow candidates,
           priority := featurePart.calculatePriority }] }
  else
    match featurePart.createCandidatePointOnSurface with
    | some unplacedPosition =>
      { context with
        positionsWithNoCandidates := context.positionsWithNoCandidates ++ [unplacedPosition] }
    | none => context

/-- Callback `extractObstaclesCallback`. -/
def extractObstaclesCallback (ft_ptr : Obstacle) (context : CallBackCtx) : CallBackCtx :=
  { context with
    obstacleIndex := context.obstacleIndex ++ [ft_ptr],
    obstacleCount := context.obstacleCount + 1 }

/-- Variables of the layer loop of `Pal::extract`. -/
structure LayerLoop where
  context : CallBackCtx
  previousFeatureCount : Nat
  previousObstacleCount : Int
  layersWithFeaturesInBBox : List String
deriving DecidableEq, Repr

/-- Body of the layer loop of `Pal::extract` for one registered layer. The registry of
the model holds no null layer, so the test `if ( !layer )` has no counterpart. -/
def extractLayer (env : Collaborators) (pal : Pal) (extent : Box) (mapBoundary : MapBoundary)
    (st : LayerLoop) (layer : Layer) : LayerLoop :=
  if !layer.active then st
  else
    let layer := if layer.mergeConnectedLines then env.joinConnectedFeatures layer else layer
    let layer := env.chopFeaturesAtRepeatDistance layer
    let context := (rtreeSearch FeaturePart.bbox layer.mFeatureIndex extent).foldl
      (fun ctx featurePart => extractFeatCallback pal mapBoundary featurePart ctx) st.context
    let context := (rtreeSearch Obstacle.bbox layer.mObstacleIndex extent).foldl
      (fun ctx ft_ptr => extractObstaclesCallback ft_ptr ctx) context
    { context := context,
      layersWithFeaturesInBBox :=
        if decide (context.features.length - st.previousFeatureCount > 0) ||
            decide (context.obstacleCount > st.previousObstacleCount) then
          st.layersWithFeaturesInBBox ++ [layer.name]
        else st.layersWithFeaturesInBBox,
      previousFeatureCount := context.features.length,
      previousObstacleCount := context.obstacleCount }

/-- State of the layer loop before the first layer. -/
def LayerLoop.init : LayerLoop :=
  { context := { features := [], obstacleIndex := [], candidateIndex := [],
                 positionsWithNoCandidates := [], obstacleCount := 0 },
    previousFeatureCount := 0, previousObstacleCount := 0, layersWithFeaturesInBBox := [] }

/-- First step of `Pal::extract`: the loop over `mLayers`. -/
def extractLayers (env : Collaborators) (pal : Pal) (extent : Box) (mapBoundary : MapBoundary) :
    LayerLoop :=
  pal.mLayers.foldl (fun st e => extractLayer env pal extent mapBoundary st e.2) LayerLoop.init

/-- Modelled from the spec: `LabelPosition::pruneCallback` is not under `src/`; the scan
of the obstacles may "discard or down-rank candidates that conflict with" an obstacle,
and it reaches a candidate only through its pointer: the obstacle changes the cost of
the candidate. -/
def pruneCallback (env : Collaborators) (obstacle : Obstacle) (lp : LabelPosition) :
    LabelPosition :=
  { lp with cost := env.obstacleCost obstacle lp }

/-- The query `cdtsIndex->Search( amin, amax, LabelPosition::pruneCallback, ... )` of
`filteringCallback`: `pruneCallback` runs on every candidate of the index whose box
overlaps the box of the obstacle. The candidates live in the feature records. -/
def pruneFeatures (env : Collaborators) (candidateIndex : List Nat) (obstacle : Obstacle)
    (features : List Feats) : List Feats :=
  features.map (fun ft => { ft with
    candidates := ft.candidates.map (fun lp =>
      if candidateIndex.contains lp.addr && lp.geom.bbox.overlaps obstacle.bbox then
        pruneCallback env obstacle lp
      else lp) })

/-- Callback `filteringCallback`, called when `polls` polls have been made: it polls the
cancellation predicate and returns false without touching anything when the answer is
true; otherwise it prunes and returns true. -/
def filteringCallback (env : Collaborators) (candidateIndex : List Nat) (polls : Nat)
    (featurePart : Obstacle) (features : List Feats) : Bool × List Feats :=
  if env.isCanceled polls then (false, features)
  else (true, pruneFeatures env candidateIndex featurePart features)

/-- The unbounded query `obstacles.Search( ..., filteringCallback, ... )`: the obstacles
are visited in turn until `filteringCallback` returns false. `polls` counts the polls
made so far. -/
def filterObstacles (env : Collaborators) (candidateIndex : List Nat) :
    List Obstacle → Nat → List Feats → List Feats × Nat
  | [], polls, features => (features, polls)
  | obstacle :: rest, polls, features =>
    match filteringCallback env candidateIndex polls obstacle features with
    | (false, features) => (features, polls + 1)
    | (true, features) => filterObstacles env candidateIndex rest (polls + 1) features

/-- The loop `while ( feat->candidates.size() > max_p )`: the last candidate leaves the
index and the vector. The first argument bounds the number of iterations. -/
def popExcess (max_p : Nat) : Nat → List LabelPosition → List Nat → List LabelPosition × List Nat
  | 0, candidates, index => (candidates, index)
  | fuel + 1, candidates, index =>
    if candidates.length > max_p then
      match candidates.getLast? with
      | some back => popExcess max_p fuel candidates.dropLast (index.erase back.addr)
      | none => (candidates, index)
    else (candidates, index)

/-- The loop `for ( j = 0; j < size; j++, idlp++ ) setProblemIds( i, idlp )`; it
returns the candidates and the final `idlp`. -/
def assignProblemIds (i : Int) : Int → List LabelPosition → List LabelPosition × Int
  | idlp, [] => ([], idlp)
  | idlp, lp :: rest =>
    let r := assignProblemIds i (idlp + 1) rest
    (lp.setProblemIds i idlp :: r.1, r.2)

/-- Variables of the per-feature loop of `Pal::extract`. The arrays `mFeatStartId`,
`mInactiveCost`, `mFeatNbLp` are written at index `0, 1, 2, ...` in turn, so each is the
list of the values written so far. -/
structure FeatureLoop where
  features : List Feats
  candidateIndex : List Nat
  max_p : Nat
  idlp : Int
  mFeatStartId : List Int
  mInactiveCost : List Int
  mFeatNbLp : List Int
  mTotalCandidates : Int
deriving DecidableEq, Repr

/-- The value `std::pow( 2, 10 - 10 * feat->priority )` stored in `mInactiveCost[i]`: the
product and the difference are `double` operations, each rounded. -/
def inactiveCost (env : Collaborators) (priority : Int) : Int :=
  env.pow2 (subIntDouble 10 (mulIntDouble 10 priority))

/-- Body of the per-feature loop for feature number `i`, once `feat` has been popped
from the front of the list. The `switch` has no default branch. -/
def extractFeature (env : Collaborators) (obstacles : List Obstacle) (bb : Box) (i : Nat)
    (st : FeatureLoop) (feat : Feats) : FeatureLoop :=
  let max_p :=
    match feat.feature.getGeosType with
    | .point => feat.feature.layer.maximumPointLabelCandidates
    | .linestring => feat.feature.layer.maximumLineLabelCandidates
    | .polygon => feat.feature.layer.maximumPolygonLabelCandidates
    | .other => st.max_p
  let finalized := env.finalizeCandidatesCosts feat max_p obstacles bb
  let max_p := finalized.2
  let popped := popExcess max_p finalized.1.candidates.length finalized.1.candidates
    st.candidateIndex
  let assigned := assignProblemIds (i : Int) st.idlp popped.1
  { features := st.features ++ [{ finalized.1 with candidates := assigned.1 }],
    candidateIndex := popped.2,
    max_p := max_p,
    idlp := assigned.2,
    mFeatStartId := st.mFeatStartId ++ [st.idlp],
    mInactiveCost := st.mInactiveCost ++ [inactiveCost env feat.priority],
    mFeatNbLp := st.mFeatNbLp ++ [(popped.1.length : Int)],
    mTotalCandidates := st.mTotalCandidates + (popped.1.length : Int) }

/-- The loop `for ( i = 0; i < mFeatureCount; i++ )`: `count` iterations are left and
the next one is number `i`. -/
def featureLoop (env : Collaborators) (obstacles : List Obstacle) (bb : Box) :
    Nat → Nat → FeatureLoop → FeatureLoop
  | 0, _, st => st
  | count + 1, i, st =>
    match st.features with
    | [] => st
    | feat :: rest =>
      featureLoop env obstacles bb count (i + 1)
        (extractFeature env obstacles bb i { st with features := rest } feat)

/-- The query `mCandidatesIndex->Search( ..., countOverlapCallback, lp )`: every address of
the index whose candidate overlaps the box of `lp` is visited, and the counter of `lp`
goes up for each visited candidate that `isInConflict` reports (the callback
`LabelPosition::countOverlapCallback` is not under `src/`). `alive` lists the candidates
the addresses point to. -/
def countOverlaps (env : Collaborators) (candidateIndex : List Nat) (alive : List LabelPosition)
    (lp : LabelPosition) : LabelPosition :=
  let found := candidateIndex.filterMap (fun a => alive.find? (fun c => c.addr == a))
  let hits := found.filter (fun c => c.geom.bbox.overlaps lp.geom.bbox && env.isInConflict lp c)
  { lp with nbOverlap := lp.nbOverlap + (hits.length : Int) }

/-- Value of a 32-bit `int` holding the result `x` of an addition: `x` itself when it
lies between `INT_MIN` and `INT_MAX`. Beyond that range the addition overflows, which
C++ leaves undefined; the model wraps around as two's complement hardware does. -/
def wrapInt32 (x : Int) : Int :=
  (x + 2147483648) % 4294967296 - 2147483648

/-- The loop over the candidates of one feature in the overlap pass. `done` is the list
of candidates already handed to the problem, `later` the candidates of the features
still waiting; the result is the new `done` and the new `nbOverlaps`, a 32-bit `int`. -/
def overlapCandidates (env : Collaborators) (candidateIndex : List Nat)
    (later : List LabelPosition) :
    List LabelPosition → List LabelPosition → Int → List LabelPosition × Int
  | [], done, nbOverlaps => (done, nbOverlaps)
  | candidate :: rest, done, nbOverlaps =>
    let lp := candidate.resetNumOverlaps
    let lp := { lp with cost := env.validateCost lp.cost }
    let lp := countOverlaps env candidateIndex (done ++ lp :: rest ++ later) lp
    overlapCandidates env candidateIndex later rest (done ++ [lp])
      (wrapInt32 (nbOverlaps + lp.nbOverlap))

/-- The loop `while ( !features.empty() )`: one poll per feature; `none` is the
`return nullptr` of a cancelled run. The second component counts the polls. -/
def overlapLoop (env : Collaborators) (candidateIndex : List Nat) :
    List Feats → Nat → List LabelPosition × Int → Option (List LabelPosition × Int) × Nat
  | [], polls, acc => (some acc, polls)
  | feat :: rest, polls, acc =>
    if env.isCanceled polls then (none, polls + 1)
    else overlapLoop env candidateIndex rest (polls + 1)
      (overlapCandidates env candidateIndex (rest.flatMap (fun f => f.candidates))
        feat.candidates acc.1 acc.2)

/-- The problem handed to the solver. `mAllNblp` and `mNbOverlap` keep the value `0` of a
fresh problem when no feature has a candidate. -/
structure Problem where
  mMapExtentBounds : Box
  mLayerCount : Nat
  labelledLayersName : List String
  mFeatureCount : Nat
  mTotalCandidates : Int
  mAllNblp : Int
  mNbOverlap : Int
  mFeatNbLp : List Int
  mFeatStartId : List Int
  mInactiveCost : List Int
  mCandidatesIndex : List Nat
  mLabelPositions : List LabelPosition
  mPositionsWithNoCandidates : List LabelPosition
deriving DecidableEq, Repr

/-- Second step of `Pal::extract`, reached when some feature has a candidate: the scan
of the obstacles with `filteringCallback`. The result is the feature list after pruning
and the number of polls made inside `filteringCallback`. -/
def Pal.filterStage (pal : Pal) (env : Collaborators) (extent : Box)
    (mapBoundary : MapBoundary) : List Feats × Nat :=
  let layers := extractLayers env pal extent mapBoundary
  filterObstacles env layers.context.candidateIndex layers.context.obstacleIndex 0
    layers.context.features

/-- Number of polls made inside `filteringCallback` during a run of `Pal::extract`; the
checkpoint that follows the obstacle scan is the poll with this number. -/
def Pal.filterPolls (pal : Pal) (env : Collaborators) (extent : Box)
    (mapBoundary : MapBoundary) : Nat :=
  (pal.filterStage env extent mapBoundary).2

/-- Third step of `Pal::extract`: the per-feature loop, run `mFeatureCount` times from
`idlp = 0` and `max_p = 0`. -/
def Pal.featureStage (pal : Pal) (env : Collaborators) (extent : Box)
    (mapBoundary : MapBoundary) : FeatureLoop :=
  let layers := extractLayers env pal extent mapBoundary
  featureLoop env layers.context.obstacleIndex extent layers.context.features.length 0
    { features := (pal.filterStage env extent mapBoundary).1,
      candidateIndex := layers.context.candidateIndex, max_p := 0, idlp := 0,
      mFeatStartId := [], mInactiveCost := [], mFeatNbLp := [], mTotalCandidates := 0 }

/-- Method `Pal::extract`, with the number of times the cancellation predicate was polled.
`none` is `nullptr`. -/
def Pal.extractPolled (pal : Pal) (env : Collaborators) (extent : Box)
    (mapBoundary : MapBoundary) : Option Problem × Nat :=
  let layers := extractLayers env pal extent mapBoundary
  let features := layers.context.features
  let prob : Problem :=
    { mMapExtentBounds := extent,
      mLayerCount := layers.layersWithFeaturesInBBox.length,
      labelledLayersName := layers.layersWithFeaturesInBBox,
      mFeatureCount := features.length,
      mTotalCandidates := 0, mAllNblp := 0, mNbOverlap := 0,
      mFeatNbLp := [], mFeatStartId := [], mInactiveCost := [],
      mCandidatesIndex := layers.context.candidateIndex,
      mLabelPositions := [],
      mPositionsWithNoCandidates := layers.context.positionsWithNoCandidates }
  if !features.isEmpty then
    let polls := pal.filterPolls env extent mapBoundary
    if env.isCanceled polls then (none, polls + 1)
    else
      let st := pal.featureStage env extent mapBoundary
      match overlapLoop env st.candidateIndex st.features (polls + 1) ([], 0) with
      | (none, polls) => (none, polls)
      | (some (positions, nbOverlaps), polls) =>
        (some { prob with
            mFeatNbLp := st.mFeatNbLp, mFeatStartId := st.mFeatStartId,
            mInactiveCost := st.mInactiveCost, mCandidatesIndex := st.candidateIndex,
            mTotalCandidates := st.mTotalCandidates, mAllNblp := st.mTotalCandidates,
            mNbOverlap := Int.tdiv nbOverlaps 2, mLabelPositions := positions }, polls)
  else (some prob, 0)

/-- Method `Pal::extract`. -/
def Pal.extract (pal : Pal) (env : Collaborators) (extent : Box) (mapBoundary : MapBoundary) :
    Option Problem :=
  (pal.extractPolled env extent mapBoundary).1

/-! ## Solving -/

/-- Exceptions of the solver: `Empty` is `InternalException::Empty`, `other` any other. -/
inductive InternalException where
  | Empty
  | other (code : Nat)
deriving DecidableEq, Repr

/-- Methods of `Problem` that `Pal::solveProblem` calls; they live outside `pal.cpp`.
`getSolution prob displayAll unlabeled` returns the list and the `unlabeled` list as the
call leaves it (`none` is a null `unlabeled` pointer). -/
structure ProblemMethods where
  reduce : Problem → Problem
  chain_search : Problem → Except InternalException Problem
  getSolution : Problem → Bool → Option (List LabelPosition) →
    List LabelPosition × Option (List LabelPosition)

/-- Names of the `Problem` methods. -/
inductive SolverCall where
  | reduce
  | chain_search
  | getSolution
deriving DecidableEq, Repr

/-- What a call of `Pal::solveProblem` leaves behind: the returned list, the `unlabeled`
list after the call, and the `Problem` methods it invoked, in order. -/
structure Solved where
  placed : List LabelPosition
  unlabeled : Option (List LabelPosition)
  invoked : List SolverCall
deriving DecidableEq, Repr

/-- Method `Pal::solveProblem`; `prob = none` is a null problem. An exception that is not
`InternalException::Empty` is not caught. -/
def Pal.solveProblem (_pal : Pal) (m : ProblemMethods) (prob : Option Problem) (displayAll : Bool)
    (unlabeled : Option (List LabelPosition)) : Except InternalException Solved :=
  match prob with
  | none => .ok { placed := [], unlabeled := unlabeled, invoked := [] }
  | some prob =>
    let prob := m.reduce prob
    match m.chain_search prob with
    | .error .Empty =>
      .ok { placed := [], unlabeled := unlabeled, invoked := [.reduce, .chain_search] }
    | .error e => .error e
    | .ok prob =>
      let r := m.getSolution prob displayAll unlabeled
      .ok { placed := r.1, unlabeled := r.2, invoked := [.reduce, .chain_search, .getSolution] }

/-! ## Bookkeeping of the per-feature loop -/

/-- The pair written by `setProblemIds`. -/
def LabelPosition.problemIds (lp : LabelPosition) : Int × Int := (lp.probFeat, lp.id)

/-- The pairs `(i, mFeatStartId[i] + j)` for the first `count` features `i` and
`j < mFeatNbLp[i]`, feature by feature. -/
def idsByFeature (mFeatStartId mFeatNbLp : List Int) (count : Nat) : List (Int × Int) :=
  (List.range count).flatMap (fun (i : Nat) =>
    (List.range (mFeatNbLp.getD i 0).toNat).map (fun (j : Nat) =>
      ((i : Int), mFeatStartId.getD i 0 + (j : Int))))

/-- State of the per-feature loop once the features `done` have been processed: one
count and one start offset per feature, `idlp` and the total equal to the sum of the
counts, each start offset the sum of the earlier counts, and the ids of the candidates
laid out feature by feature from `0` on. -/
def FeatureLoop.consistent (st : FeatureLoop) (done : List Feats) : Prop :=
  st.mFeatNbLp.length = done.length ∧ st.mFeatStartId.length = done.length ∧
    st.idlp = st.mFeatNbLp.sum ∧ st.mTotalCandidates = st.mFeatNbLp.sum ∧ 0 ≤ st.idlp ∧
    (∀ i, i < done.length → st.mFeatStartId.getD i 0 = (st.mFeatNbLp.take i).sum) ∧
    done.flatMap (fun f => f.candidates.map LabelPosition.problemIds) =
      idsByFeature st.mFeatStartId st.mFeatNbLp done.length ∧
    done.flatMap (fun f => f.candidates.map (fun lp => lp.id)) =
      (List.range st.idlp.toNat).map (fun (k : Nat) => (k : Int))

/-- The count `n` does not exceed the maximum the layer of the part configures for the
geometry type of the part; nothing is required of a part of another type. -/
def FeaturePart.respectsMaximum (part : FeaturePart) (n : Int) : Prop :=
  (part.getGeosType = .point → n ≤ (part.layer.maximumPointLabelCandidates : Int)) ∧
    (part.getGeosType = .linestring → n ≤ (part.layer.maximumLineLabelCandidates : Int)) ∧
    (part.getGeosType = .polygon → n ≤ (part.layer.maximumPolygonLabelCandidates : Int))

/-- Modelled from the spec: `CostCalculator::finalizeCandidatesCosts` is not under `src/`.
The spec has the cost calculator "finalize costs and truncate to that maximum": the limit
it returns never exceeds the maximum it was given. -/
def Collaborators.finalizeWithinLimit (env : Collaborators) : Prop :=
  ∀ (feat : Feats) (max_p : Nat) (obstacles : List Obstacle) (bb : Box),
    (env.finalizeCandidatesCosts feat max_p obstacles bb).2 ≤ max_p

/-- Modelled from the spec: `CostCalculator::finalizeCandidatesCosts` is not under `src/`.
The spec has the cost calculator "assign a finalized scalar cost to each candidate":
every candidate it leaves in the record has the geometry of a candidate it was given. -/
def Collaborators.finalizeKeepsGeometry (env : Collaborators) : Prop :=
  ∀ (feat : Feats) (max_p : Nat) (obstacles : List Obstacle) (bb : Box),
    ∀ c ∈ (env.finalizeCandidatesCosts feat max_p obstacles bb).1.candidates,
      ∃ c0 ∈ feat.candidates, c.geom = c0.geom

/-- The boundary test a candidate has to pass under the current partial-label setting. -/
def Pal.admitsGeometry (pal : Pal) (mapBoundary : MapBoundary) (g : LabelGeom) : Bool :=
  if pal.showPartialLabels then mapBoundary.intersects g else mapBoundary.within g

/-! ## Sample data -/

/-- A stand-in for `std::pow( 2, y )` used for concrete evaluations: exact where `y` is an
integer, constant between two integers, `0` below the exponent `-1074` and infinite from
the exponent `1024` on. -/
def samplePow2 (y : Int) : Int :=
  let k := y / ((1 <<< 1074 : Nat) : Int)
  if k < -1074 then 0
  else if 1024 ≤ k then (dblInfinity : Int)
  else ((1 <<< (k + 1074).toNat : Nat) : Int)

/-- Collaborators used for concrete evaluations: the cost calculator keeps the list and
caps the limit by its length, the predicate never cancels. -/
def sampleEnv : Collaborators :=
  { joinConnectedFeatures := fun l => l,
    chopFeaturesAtRepeatDistance := fun l => l,
    obstacleCost := fun _ lp => lp.cost + 1,
    finalizeCandidatesCosts := fun feat max_p _ _ => (feat, min max_p feat.candidates.length),
    pow2 := samplePow2,
    validateCost := fun c => c,
    isInConflict := fun a b => a.probFeat != b.probFeat,
    isCanceled := fun _ => false }


/-- Methods of a problem used for concrete evaluations: the search signals an empty
problem when there is no feature, the solution is the first candidate. -/
def sampleMethods : ProblemMethods :=
  { reduce := fun prob => prob,
    chain_search := fun prob => if prob.mFeatureCount = 0 then .error .Empty else .ok prob,
    getSolution := fun prob _ unlabeled => (prob.mLabelPositions.take 1, unlabeled) }

/-- Map extent of the sample. -/
def sampleExtent : Box := { xmin := 0, ymin := 0, xmax := 100, ymax := 100 }

/-- Map boundary of the sample: the extent itself. -/
def sampleBoundary : MapBoundary :=
  { within := fun g =>
      decide (0 ≤ g.bbox.xmin) && decide (0 ≤ g.bbox.ymin) && decide (g.bbox.xmax ≤ 100) &&
        decide (g.bbox.ymax ≤ 100),
    intersects := fun g => g.bbox.overlaps sampleExtent }

/-- A candidate at address `addr` with the given box and cost. -/
def sampleCandidate (addr : Nat) (xmin ymin xmax ymax cost : Int) : LabelPosition :=
  { addr := addr, geom := { bbox := { xmin := xmin, ymin := ymin, xmax := xmax, ymax := ymax },
                            alpha := 0 },
    cost := cost, probFeat := -1, id := -1, nbOverlap := 0 }

/-- Limits of the sample layer. -/
def sampleLimits : LayerRef :=
  { maximumPointLabelCandidates := 1, maximumLineLabelCandidates := 2,
    maximumPolygonLabelCandidates := 3 }

/-- A point with three candidates, one of them across the boundary. -/
def samplePoint : FeaturePart :=
  { bbox := { xmin := 10, ymin := 10, xmax := 10, ymax := 10 }, getGeosType := .point,
    layer := sampleLimits, selfObstacles := [],
    createCandidates := [sampleCandidate 101 10 10 20 20 5, sampleCandidate 102 90 90 110 110 3,
      sampleCandidate 103 30 30 40 40 1],
    calculatePriority := dbl 1,
    createCandidatePointOnSurface := some (sampleCandidate 109 10 10 10 10 0) }

/-- A line with one candidate. -/
def sampleLine : FeaturePart :=
  { bbox := { xmin := 15, ymin := 15, xmax := 60, ymax := 25 }, getGeosType := .linestring,
    layer := sampleLimits, selfObstacles := [],
    createCandidates := [sampleCandidate 104 15 15 25 25 2],
    calculatePriority := 0,
    createCandidatePointOnSurface := some (sampleCandidate 119 20 20 20 20 0) }

/-- A polygon on the edge of the extent whose only candidate lies outside the boundary. -/
def samplePolygon : FeaturePart :=
  { bbox := { xmin := 95, ymin := 95, xmax := 120, ymax := 120 }, getGeosType := .polygon,
    layer := sampleLimits, selfObstacles := [{ addr := 202, bbox := { xmin := 96, ymin := 96, xmax := 98, ymax := 98 } }],
    createCandidates := [sampleCandidate 105 105 105 115 115 4],
    calculatePriority := 0,
    createCandidatePointOnSurface := some (sampleCandidate 129 99 99 99 99 0) }

/-- A feature part without candidates for which no point on surface can be computed. -/
def sampleDegenerate : FeaturePart :=
  { bbox := { xmin := 50, ymin := 50, xmax := 50, ymax := 50 }, getGeosType := .point,
    layer := sampleLimits, selfObstacles := [], createCandidates := [],
    calculatePriority := 0, createCandidatePointOnSurface := none }

/-- The layer of the sample, registered for provider 3 at address 7. -/
def sampleLayer : Layer :=
  { addr := 7, provider := 3, name := "roads", arrangement := 0, defaultPriority := 0,
    active := true, toLabel := true, displayAll := false, mergeConnectedLines := false,
    mFeatureIndex := [samplePoint, sampleLine, samplePolygon],
    mObstacleIndex := [{ addr := 201, bbox := { xmin := 0, ymin := 0, xmax := 50, ymax := 50 } }] }

/-- An engine holding the sample layer. -/
def sampleEngine : Pal := { samplePal with mLayers := [(3, sampleLayer)] }

/-- Collaborators whose cancellation predicate answers true at its first poll only. -/
def blinkingEnv : Collaborators := { sampleEnv with isCanceled := fun n => n == 0 }

/-- Collaborators whose cancellation predicate answers true from its second poll on. -/
def latchingEnv : Collaborators := { sampleEnv with isCanceled := fun n => decide (1 ≤ n) }

/-- The feature record `extractFeatCallback` builds for the sample point. -/
def samplePointFeats : Feats :=
  { feature := samplePoint,
    candidates := [sampleCandidate 103 30 30 40 40 1, sampleCandidate 101 10 10 20 20 5],
    priority := dbl 1 }

/-- The problem `Pal::extract` returns for the sample engine. -/
def sampleProblem : Problem :=
  { mMapExtentBounds := sampleExtent, mLayerCount := 1, labelledLayersName := ["roads"],
    mFeatureCount := 2, mTotalCandidates := 2, mAllNblp := 2, mNbOverlap := 0,
    mFeatNbLp := [1, 1], mFeatStartId := [0, 1], mInactiveCost := [dbl 1, dbl 1024],
    mCandidatesIndex := [103, 104],
    mLabelPositions :=
      [{ sampleCandidate 103 30 30 40 40 2 with probFeat := 0, id := 0 },
       { sampleCandidate 104 15 15 25 25 3 with probFeat := 1, id := 1 }],
    mPositionsWithNoCandidates := [sampleCandidate 129 99 99 99 99 0] }

/-- A problem without any feature. -/
def emptyProblem : Problem :=
  { mMapExtentBounds := sampleExtent, mLayerCount := 0, labelledLayersName := [],
    mFeatureCount := 0, mTotalCandidates := 0, mAllNblp := 0, mNbOverlap := 0,
    mFeatNbLp := [], mFeatStartId := [], mInactiveCost := [], mCandidatesIndex := [],
    mLabelPositions := [], mPositionsWithNoCandidates := [] }

/-! ## Layer tracking and the per-feature limit -/

/-- The layer as the two calls at the top of the body of the layer loop leave it:
`joinConnectedFeatures()` when the layer merges connected lines, then
`chopFeaturesAtRepeatDistance()`. -/
def Collaborators.prepareLayer (env : Collaborators) (layer : Layer) : Layer :=
  env.chopFeaturesAtRepeatDistance
    (if layer.mergeConnectedLines then env.joinConnectedFeatures layer else layer)

/-- The layer adds a feature record or an indexed obstacle: one of its feature parts
overlapping the extent keeps a candidate after the boundary filter, so that a record
joins the feature list, or an entry of its own obstacle index overlaps the extent. -/
def Layer.addsRecordOrIndexedObstacle (layer : Layer) (env : Collaborators) (pal : Pal)
    (extent : Box) (mapBoundary : MapBoundary) : Bool :=
  (rtreeSearch FeaturePart.bbox (env.prepareLayer layer).mFeatureIndex extent).any
      (fun part => !(purgeCandidates pal mapBoundary part.createCandidates).isEmpty) ||
    !(rtreeSearch Obstacle.bbox (env.prepareLayer layer).mObstacleIndex extent).isEmpty

/-- The obstacles that a run over `extent` takes from the layer into its obstacle index:
the holes of the feature parts the range query visits, which `extractFeatCallback`
inserts, and the entries of the obstacle index of the layer the range query visits,
which `extractObstaclesCallback` inserts. -/
def Layer.obstaclesInserted (layer : Layer) (env : Collaborators) (extent : Box) :
    List Obstacle :=
  (rtreeSearch FeaturePart.bbox (env.prepareLayer layer).mFeatureIndex extent).flatMap
      (fun part => part.selfObstacles) ++
    rtreeSearch Obstacle.bbox (env.prepareLayer layer).mObstacleIndex extent

/-- Contribution in the words of the specification, "contributed at least one feature or
at least one obstacle inside the extent": a feature part of the layer overlaps the
extent, or an obstacle the run takes from the layer overlaps the extent. -/
def Layer.contributes (layer : Layer) (env : Collaborators) (extent : Box) : Bool :=
  !(rtreeSearch FeaturePart.bbox (env.prepareLayer layer).mFeatureIndex extent).isEmpty ||
    (layer.obstaclesInserted env extent).any (fun obstacle => obstacle.bbox.overlaps extent)

/-- Value of `max_p` after the `switch` of the per-feature loop, that is, the limit passed
to `finalizeCandidatesCosts` for `feat` when the loop variables are `st`. -/
def FeatureLoop.limitFor (st : FeatureLoop) (feat : Feats) : Nat :=
  match feat.feature.getGeosType with
  | .point => feat.feature.layer.maximumPointLabelCandidates
  | .linestring => feat.feature.layer.maximumLineLabelCandidates
  | .polygon => feat.feature.layer.maximumPolygonLabelCandidates
  | .other => st.max_p

/-- Variables of the per-feature loop of a run of `Pal::extract` when iteration `k`
begins, for `k` up to `mFeatureCount`: the feature processed by iteration `k` is the
front of the list. -/
def Pal.featureStateAt (pal : Pal) (env : Collaborators) (extent : Box)
    (mapBoundary : MapBoundary) (k : Nat) : FeatureLoop :=
  let layers := extractLayers env pal extent mapBoundary
  featureLoop env layers.context.obstacleIndex extent k 0
    { features := (pal.filterStage env extent mapBoundary).1,
      candidateIndex := layers.context.candidateIndex, max_p := 0, idlp := 0,
      mFeatStartId := [], mInactiveCost := [], mFeatNbLp := [], mTotalCandidates := 0 }

/-- An inactive layer holding the sample line and an obstacle inside the extent. -/
def sleepingLayer : Layer :=
  { addr := 8, provider := 4, name := "rivers", arrangement := 0, defaultPriority := 0,
    active := false, toLabel := true, displayAll := false, mergeConnectedLines := false,
    mFeatureIndex := [sampleLine],
    mObstacleIndex := [{ addr := 203, bbox := { xmin := 1, ymin := 1, xmax := 2, ymax := 2 } }] }

/-- An active layer whose only feature part and only obstacle lie outside the extent. -/
def remoteLayer : Layer :=
  { addr := 9, provider := 5, name := "lakes", arrangement := 0, defaultPriority := 0,
    active := true, toLabel := true, displayAll := false, mergeConnectedLines := true,
    mFeatureIndex := [{ samplePoint with bbox := { xmin := 500, ymin := 500, xmax := 500, ymax := 500 } }],
    mObstacleIndex := [{ addr := 204, bbox := { xmin := 400, ymin := 400, xmax := 410, ymax := 410 } }] }

/-- An engine holding an inactive layer, the sample layer and a layer outside the extent. -/
def threeLayerEngine : Pal :=
  { samplePal with mLayers := [(4, sleepingLayer), (3, sampleLayer), (5, remoteLayer)] }

/-- A feature part whose GEOS type is none of point, line string, polygon. -/
def sampleCurve : FeaturePart :=
  { bbox := { xmin := 60, ymin := 60, xmax := 70, ymax := 70 }, getGeosType := .other,
    layer := sampleLimits, selfObstacles := [],
    createCandidates := [sampleCandidate 106 60 60 65 65 2, sampleCandidate 107 66 66 70 70 1],
    calculatePriority := 0,
    createCandidatePointOnSurface := none }

/-- The feature record of the sample curve. -/
def sampleCurveFeats : Feats :=
  { feature := sampleCurve,
    candidates := [sampleCandidate 107 66 66 70 70 1, sampleCandidate 106 60 60 65 65 2],
    priority := 0 }

/-- An engine whose layer holds the sample curve first and the sample point second. -/
def curveFirstEngine : Pal :=
  { samplePal with
    mLayers := [(3, { sampleLayer with mFeatureIndex := [sampleCurve, samplePoint],
                                       mObstacleIndex := [] })] }

/-- An engine whose layer holds the sample point first and the sample curve second. -/
def curveSecondEngine : Pal :=
  { samplePal with
    mLayers := [(3, { sampleLayer with mFeatureIndex := [samplePoint, sampleCurve],
                                       mObstacleIndex := [] })] }

/-! ## Overlap accounting -/

/-- The candidate with its cost and its overlap counter blanked: what stays fixed during
the overlap pass. -/
def LabelPosition.frame (lp : LabelPosition) : LabelPosition :=
  { lp with cost := 0, nbOverlap := 0 }

/-- The test the overlap query makes for `lp` on a candidate `c` of the index: the
boxes overlap and `lp->isInConflict( c )` holds. -/
def conflictsWith (env : Collaborators) (lp c : LabelPosition) : Bool :=
  c.geom.bbox.overlaps lp.geom.bbox && env.isInConflict lp c

/-- Modelled from the spec: `LabelPosition::isInConflict`, which decides whether
`LabelPosition::countOverlapCallback` counts a candidate, is not under `src/`. The spec
has "each pair counted from both sides": the test is symmetric, it never reports a
candidate against itself, and its answer does not depend on the cost or on the overlap
counter of a candidate. -/
def Collaborators.conflictIsPairwise (env : Collaborators) : Prop :=
  (∀ a b, env.isInConflict a b = env.isInConflict b a) ∧
    (∀ a, env.isInConflict a a = false) ∧
    (∀ (a b : LabelPosition) (c n : Int),
      env.isInConflict { a with cost := c, nbOverlap := n } b = env.isInConflict a b)

/-- Modelled from the spec: `CostCalculator::finalizeCandidatesCosts` is not under `src/`.
The spec has the cost calculator "finalize costs" of the candidates of a feature: the
candidates it leaves in the record are the candidate objects it was given, in some
order. -/
def Collaborators.finalizeKeepsCandidates (env : Collaborators) : Prop :=
  ∀ (feat : Feats) (max_p : Nat) (obstacles : List Obstacle) (bb : Box),
    List.Perm ((env.finalizeCandidatesCosts feat max_p obstacles bb).1.candidates.map
      (fun lp => lp.addr)) (feat.candidates.map (fun lp => lp.addr))

/-- A point whose only candidate overlaps the candidate of the sample line. -/
def sampleTown : FeaturePart :=
  { bbox := { xmin := 20, ymin := 20, xmax := 20, ymax := 20 }, getGeosType := .point,
    layer := sampleLimits, selfObstacles := [],
    createCandidates := [sampleCandidate 111 20 20 30 30 1],
    calculatePriority := dbl 1,
    createCandidatePointOnSurface := none }

/-- An engine whose layer holds the town and the sample line, and no obstacle. -/
def crowdedEngine : Pal :=
  { samplePal with
    mLayers := [(3, { sampleLayer with mFeatureIndex := [sampleTown, sampleLine],
                                       mObstacleIndex := [] })] }

/-- The problem `Pal::extract` returns for the crowded engine. -/
def crowdedProblem : Problem :=
  { mMapExtentBounds := sampleExtent, mLayerCount := 1, labelledLayersName := ["roads"],
    mFeatureCount := 2, mTotalCandidates := 2, mAllNblp := 2, mNbOverlap := 1,
    mFeatNbLp := [1, 1], mFeatStartId := [0, 1], mInactiveCost := [dbl 1, dbl 1024],
    mCandidatesIndex := [111, 104],
    mLabelPositions :=
      [{ sampleCandidate 111 20 20 30 30 1 with probFeat := 0, id := 0, nbOverlap := 1 },
       { sampleCandidate 104 15 15 25 25 2 with probFeat := 1, id := 1, nbOverlap := 1 }],
    mPositionsWithNoCandidates := [] }

/-- An engine whose layer holds the sample line only. -/
def lonelyEngine : Pal :=
  { samplePal with
    mLayers := [(3, { sampleLayer with mFeatureIndex := [sampleLine], mObstacleIndex := [] })] }

/-- Collaborators whose conflict test reports every candidate, a candidate itself
included. -/
def selfConflictEnv : Collaborators := { sampleEnv with isInConflict := fun _ _ => true }

/-- An active layer holding the town only. -/
def townLayer : Layer :=
  { addr := 10, provider := 6, name := "towns", arrangement := 0, defaultPriority := 0,
    active := true, toLabel := true, displayAll := false, mergeConnectedLines := false,
    mFeatureIndex := [sampleTown], mObstacleIndex := [] }

/-- An active layer holding the sample polygon only: the polygon overlaps the extent, its
hole lies inside the extent, its only candidate lies outside the boundary, and the
obstacle index of the layer is empty. -/
def parkLayer : Layer :=
  { addr := 11, provider := 7, name := "parks", arrangement := 0, defaultPriority := 0,
    active := true, toLabel := true, displayAll := false, mergeConnectedLines := false,
    mFeatureIndex := [samplePolygon], mObstacleIndex := [] }

/-- An engine holding the town layer and the park layer. -/
def parkEngine : Pal :=
  { samplePal with mLayers := [(6, townLayer), (7, parkLayer)] }

/-- The problem `Pal::extract` returns for the park engine. -/
def parkProblem : Problem :=
  { mMapExtentBounds := sampleExtent, mLayerCount := 1, labelledLayersName := ["towns"],
    mFeatureCount := 1, mTotalCandidates := 1, mAllNblp := 1, mNbOverlap := 0,
    mFeatNbLp := [1], mFeatStartId := [0], mInactiveCost := [dbl 1],
    mCandidatesIndex := [111],
    mLabelPositions := [{ sampleCandidate 111 20 20 30 30 1 with probFeat := 0, id := 0 }],
    mPositionsWithNoCandidates := [sampleCandidate 129 99 99 99 99 0] }

/-! ## Inactive costs -/

/-- Modelled from the spec: `std::pow` belongs to the C library and is not under `src/`.
The spec has the inactive cost be "`2^(10 - 10*priority)`", "priority `1.0` → inactive
cost `1`; priority `0.0` → inactive cost `1024` (`2^10`)": `std::pow( 2, y )` is the
power of two, exact at the exponents 0 and 10, and it does not decrease when the exponent
grows. -/
def Collaborators.powIsExactAndMonotone (env : Collaborators) : Prop :=
  env.pow2 0 = dbl 1 ∧ env.pow2 (dbl 10) = dbl 1024 ∧
    ∀ x y : Int, x ≤ y → env.pow2 x ≤ env.pow2 y

/-- The `double` nearest to `0.3`, which lies below it: `5404319552844595 * 2^-54`. -/
def threeTenths : Int := 5404319552844595 * ((1 <<< 1020 : Nat) : Int)

/-- The `double` that follows `threeTenths`, written `0.30000000000000004`:
`5404319552844596 * 2^-54`. -/
def threeTenthsNext : Int := 5404319552844596 * ((1 <<< 1020 : Nat) : Int)

/-- An engine whose layer holds the town with priority `threeTenths` and the sample line
with priority `threeTenthsNext`. -/
def tieEngine : Pal :=
  { samplePal with
    mLayers := [(3, { sampleLayer with
      mFeatureIndex := [{ sampleTown with calculatePriority := threeTenths },
                        { sampleLine with calculatePriority := threeTenthsNext }],
      mObstacleIndex := [] })] }
/-! ## Theorems -/

-- Evaluating the rounding of a binary64 value halves an integer of some two thousand bits
-- down to 53 bits, one recursive call per bit.
set_option maxRecDepth 100000

/-! ### Registry lemmas -/

theorem find_of_nodup_map {α : Type} (f : α → Nat) :
    ∀ (l : List α) (x : α), x ∈ l → (l.map f).Nodup →
      l.find? (fun e => f e == f x) = some x := by
  intro l
  induction l with
  | nil => intro x hx; simp at hx
  | cons a t ih =>
    intro x hx hnd
    rw [List.map_cons, List.nodup_cons] at hnd
    rcases List.mem_cons.mp hx with rfl | hxt
    · simp
    · have hne : f a ≠ f x := by
        intro h
        exact hnd.1 (h ▸ List.mem_map_of_mem f hxt)
      rw [List.find?_cons_of_neg _ (by simpa using hne)]
      exact ih x hxt hnd.2

theorem hashContains_false_iff (m : List (Nat × Layer)) (key : Nat) :
    hashContains m key = false ↔ key ∉ m.map Prod.fst := by
  unfold hashContains
  induction m with
  | nil => simp
  | cons a t ih =>
    simp only [List.any_cons, Bool.or_eq_false_iff, ih, List.map_cons, List.mem_cons, not_or]
    constructor
    · rintro ⟨h1, h2⟩
      exact ⟨fun h => by simp [h] at h1, h2⟩
    · rintro ⟨h1, h2⟩
      exact ⟨by simpa using fun h => h1 h.symm, h2⟩

theorem registryOk_removeLayer (p : Pal) (layer : Nat) (h : p.registryOk) :
    (p.removeLayer layer).registryOk := by
  unfold Pal.removeLayer
  split
  · exact h
  · simp only []
    split
    · obtain ⟨h1, h2, h3⟩ := h
      refine ⟨?_, ?_, ?_⟩
      · exact h1.sublist (List.Sublist.map _ (List.filter_sublist _))
      · exact h2.sublist (List.Sublist.map _ (List.filter_sublist _))
      · intro e he
        exact h3 e (List.mem_of_mem_filter he)
    · exact h

theorem registryOk_call (p : Pal) (c : RegistryCall) (h : p.registryOk)
    (hc : p.admits c = true) : ∃ q, p.call c = some q ∧ q.registryOk := by
  cases c with
  | removeLayer layer => exact ⟨_, rfl, registryOk_removeLayer p layer h⟩
  | addLayer provider layerName arrangement defaultPriority active toLabel displayAll newAddr =>
    simp only [Pal.admits, Bool.and_eq_true, Bool.not_eq_true', decide_eq_true_eq] at hc
    obtain ⟨⟨hk, hn⟩, ha⟩ := hc
    obtain ⟨h1, h2, h3⟩ := h
    have hkey := (hashContains_false_iff _ _).mp hk
    have haddr : newAddr ∉ p.mLayers.map (fun e => e.2.addr) := by
      intro hmem
      obtain ⟨e, he, hea⟩ := List.mem_map.mp hmem
      have : (p.mLayers.any fun e => e.2.addr == newAddr) = true :=
        List.any_eq_true.mpr ⟨e, he, by simp [hea]⟩
      rw [ha] at this
      exact Bool.false_ne_true this
    have hcall : p.call (.addLayer provider layerName arrangement defaultPriority active toLabel
        displayAll newAddr) = some { p with mLayers := p.mLayers ++ [(provider,
          { addr := newAddr, provider := provider, name := layerName, arrangement := arrangement,
            defaultPriority := defaultPriority, active := active, toLabel := toLabel,
            displayAll := displayAll, mergeConnectedLines := false, mFeatureIndex := [],
            mObstacleIndex := [] })] } := by
      simp [Pal.call, Pal.addLayer, hashInsert, hk]
    refine ⟨_, hcall, ?_⟩
    refine ⟨?_, ?_, ?_⟩
    · simp only [List.map_append, List.map_cons, List.map_nil]
      exact List.Nodup.append h1 (List.nodup_singleton _) (by simpa using hkey)
    · simp only [List.map_append, List.map_cons, List.map_nil]
      exact List.Nodup.append h2 (List.nodup_singleton _) (by simpa using haddr)
    · intro e he
      rcases List.mem_append.mp he with he | he
      · exact h3 e he
      · simp only [List.mem_singleton] at he
        subst he
        exact hn

theorem registryOk_calls : ∀ (cs : List RegistryCall) (p : Pal), p.registryOk →
    p.admitsAll cs = true → ∃ q, p.calls cs = some q ∧ q.registryOk := by
  intro cs
  induction cs with
  | nil => intro p h _; exact ⟨p, rfl, h⟩
  | cons c cs ih =>
    intro p h hall
    simp only [Pal.admitsAll, Bool.and_eq_true] at hall
    obtain ⟨q, hq, hqok⟩ := registryOk_call p c h hall.1
    rw [hq] at hall
    obtain ⟨r, hr, hrok⟩ := ih q hqok hall.2
    exact ⟨r, by simp [Pal.calls, hq, hr], hrok⟩

theorem removeLayer_registered (p : Pal) (h : p.registryOk) (provider : Nat) (layer : Layer)
    (hmem : (provider, layer) ∈ p.mLayers) (hprov : provider ≠ 0) :
    (p.removeLayer layer.addr).mLayers =
      p.mLayers.filter (fun e => decide (e ≠ (provider, layer))) := by
  obtain ⟨h1, h2, h3⟩ := h
  have hl : layer.addr ≠ 0 := h3 _ hmem
  have hfind := find_of_nodup_map (fun e : Nat × Layer => e.2.addr) p.mLayers _ hmem h2
  have hkey : hashKey p.mLayers layer.addr 0 = provider := by
    unfold hashKey
    simp only [] at hfind
    rw [hfind]
  unfold Pal.removeLayer
  rw [if_neg hl]
  simp only [hkey, hprov, ne_eq, not_false_eq_true, if_true]
  unfold hashRemove
  apply List.filter_congr
  intro e he
  have hiff : e.1 = provider ↔ e = (provider, layer) := by
    constructor
    · intro hk
      have hf := find_of_nodup_map (fun e : Nat × Layer => e.1) p.mLayers _ hmem h1
      have hf2 := find_of_nodup_map (fun e : Nat × Layer => e.1) p.mLayers _ he h1
      simp only [hk] at hf2
      simp only [] at hf
      rw [hf] at hf2
      exact (Option.some.inj hf2).symm
    · intro hk; rw [hk]
  by_cases hk : e.1 = provider
  · simp [hk, hiff.mp hk]
  · have : e ≠ (provider, layer) := fun hh => hk (hiff.mpr hh)
    simp [hk, this]

theorem removeLayer_unregistered (p : Pal) (layer : Nat)
    (hno : ∀ e ∈ p.mLayers, e.2.addr ≠ layer) : p.removeLayer layer = p := by
  unfold Pal.removeLayer
  split
  · rfl
  · have hfind : p.mLayers.find? (fun e => e.2.addr == layer) = none := by
      rw [List.find?_eq_none]
      intro e he
      simpa using hno e he
    simp [hashKey, hfind]

/-! ### Tunables and solving -/

/-- Claim C3. After `setMaximumNumberOfPointCandidates( n )` the getter returns `n` when
`n > 0` and the value it returned before the call otherwise; the line and polygon
pairs behave the same way. -/
theorem maximumNumberOfCandidates_after_set (p : Pal) (n : Int) :
    (p.setMaximumNumberOfPointCandidates n).maximumNumberOfPointCandidates =
        (if n > 0 then n else p.maximumNumberOfPointCandidates) ∧
      (p.setMaximumNumberOfLineCandidates n).maximumNumberOfLineCandidates =
        (if n > 0 then n else p.maximumNumberOfLineCandidates) ∧
      (p.setMaximumNumberOfPolygonCandidates n).maximumNumberOfPolygonCandidates =
        (if n > 0 then n else p.maximumNumberOfPolygonCandidates) := by
  refine ⟨?_, ?_, ?_⟩
  · unfold Pal.setMaximumNumberOfPointCandidates Pal.maximumNumberOfPointCandidates
    split <;> rfl
  · unfold Pal.setMaximumNumberOfLineCandidates Pal.maximumNumberOfLineCandidates
    split <;> rfl
  · unfold Pal.setMaximumNumberOfPolygonCandidates Pal.maximumNumberOfPolygonCandidates
    split <;> rfl

/-- The getters of the tabu iteration bounds read the other member: whatever is passed
to `setMinIt`, `getMinIt` answers with the unchanged `mTabuMaxIt`, and whatever is passed
to `setMaxIt`, `getMaxIt` answers with the unchanged `mTabuMinIt`. -/
theorem tabu_getters_read_other_member (p : Pal) (v : Int) :
    (p.setMinIt v).getMinIt = p.mTabuMaxIt ∧ (p.setMaxIt v).getMaxIt = p.mTabuMinIt := by
  constructor
  · unfold Pal.setMinIt Pal.getMinIt
    split <;> rfl
  · unfold Pal.setMaxIt Pal.getMaxIt
    split <;> rfl

/-- Claim C4, evaluated on the code. On an engine whose `mTabuMinIt` is 3 and whose
`mTabuMaxIt` is 4, `getMinIt()` after `setMinIt( 7 )` is 4 and `getMaxIt()` after
`setMaxIt( 9 )` is 3, although both values were accepted and stored. -/
theorem tabu_getters_swapped_on_sample :
    (samplePal.setMinIt 7).getMinIt = 4 ∧ (samplePal.setMinIt 7).mTabuMinIt = 7 ∧
      (samplePal.setMaxIt 9).getMaxIt = 3 ∧ (samplePal.setMaxIt 9).mTabuMaxIt = 9 := by
  decide

/-- Claim C7. `solveProblem` on a null problem returns an empty list, leaves `unlabeled`
alone and calls no `Problem` method; when `chain_search` raises
`InternalException::Empty` it returns an empty list, leaves `unlabeled` alone and has
called `reduce` and `chain_search` only; when `chain_search` completes, the result is
that of `getSolution( displayAll, unlabeled )` on the problem left by `reduce` and then
`chain_search`. -/
theorem solveProblem_cases (pal : Pal) (m : ProblemMethods) (displayAll : Bool)
    (unlabeled : Option (List LabelPosition)) :
    pal.solveProblem m none displayAll unlabeled =
        .ok { placed := [], unlabeled := unlabeled, invoked := [] } ∧
      (∀ prob, m.chain_search (m.reduce prob) = .error .Empty →
        pal.solveProblem m (some prob) displayAll unlabeled =
          .ok { placed := [], unlabeled := unlabeled, invoked := [.reduce, .chain_search] }) ∧
      (∀ prob searched, m.chain_search (m.reduce prob) = .ok searched →
        pal.solveProblem m (some prob) displayAll unlabeled =
          .ok { placed := (m.getSolution searched displayAll unlabeled).1,
                unlabeled := (m.getSolution searched displayAll unlabeled).2,
                invoked := [.reduce, .chain_search, .getSolution] }) := by
  refine ⟨rfl, ?_, ?_⟩
  · intro prob h
    simp [Pal.solveProblem, h]
  · intro prob searched h
    simp [Pal.solveProblem, h]

/-! ### Registry, solving and the feature callback -/

/-- Claim C10 as stated fails for a layer registered under the null provider:
`addLayer( nullptr, ... )` registers the layer at address 7, and `removeLayer` of that
layer finds the key `nullptr`, takes it for "no key" and leaves the registry as it was. -/
theorem removeLayer_keeps_layer_of_null_provider :
    samplePal.admitsAll [.addLayer 0 "roads" 0 0 true true false 7] = true ∧
      ((samplePal.calls [.addLayer 0 "roads" 0 0 true true false 7]).map
        (fun p => p.mLayers.map (fun e => (e.1, e.2.addr)))) = some [(0, 7)] ∧
      ((samplePal.calls [.addLayer 0 "roads" 0 0 true true false 7, .removeLayer 7]).map
        (fun p => p.mLayers.map (fun e => (e.1, e.2.addr)))) = some [(0, 7)] := by
  decide

/-- Claim C10, amended. From a registry whose provider keys and layer addresses are
pairwise distinct, every sequence of `addLayer` calls (each with a provider that is not
registered) and `removeLayer` calls runs to a registry with the same property;
`removeLayer` of a layer registered under a non-null provider removes exactly the entry
of that layer and keeps the others in place; `removeLayer( nullptr )` and `removeLayer` of
a layer that is not registered leave the engine unchanged. -/
theorem registry_invariant (p : Pal) (h : p.registryOk) :
    (∀ cs, p.admitsAll cs = true → ∃ q, p.calls cs = some q ∧ q.registryOk) ∧
      (∀ provider layer, (provider, layer) ∈ p.mLayers → provider ≠ 0 →
        (p.removeLayer layer.addr).mLayers =
          p.mLayers.filter (fun e => decide (e ≠ (provider, layer)))) ∧
      p.removeLayer 0 = p ∧
      (∀ layer, (∀ e ∈ p.mLayers, e.2.addr ≠ layer) → p.removeLayer layer = p) :=
  ⟨fun cs hcs => registryOk_calls cs p h hcs,
   fun provider layer hmem hprov => removeLayer_registered p h provider layer hmem hprov,
   by simp [Pal.removeLayer],
   fun layer hno => removeLayer_unregistered p layer hno⟩

/-- Claim C10, amended, on the sample engine: a sequence that adds two layers and removes
one keeps the invariant, removing the sample layer empties the registry, and removing a
null or an unknown layer changes nothing. -/
theorem registry_invariant_witness :
    sampleEngine.registryOk ∧
      (∃ q, sampleEngine.calls [.addLayer 4 "rivers" 0 0 true true false 8, .removeLayer 7,
          .addLayer 3 "roads" 0 0 true true false 9] = some q ∧ q.registryOk) ∧
      (sampleEngine.removeLayer sampleLayer.addr).mLayers =
        sampleEngine.mLayers.filter (fun e => decide (e ≠ (3, sampleLayer))) ∧
      sampleEngine.removeLayer 0 = sampleEngine ∧
      sampleEngine.removeLayer 8 = sampleEngine :=
  ⟨by decide,
   (registry_invariant sampleEngine (by decide)).1 _ (by decide),
   (registry_invariant sampleEngine (by decide)).2.1 3 sampleLayer (by decide) (by decide),
   (registry_invariant sampleEngine (by decide)).2.2.1,
   (registry_invariant sampleEngine (by decide)).2.2.2 8 (by decide)⟩

/-- Claim C7 on the sample methods: a problem without feature makes the search raise
`Empty`, and the sample problem goes through to `getSolution`. -/
theorem solveProblem_cases_witness :
    samplePal.solveProblem sampleMethods none true (some []) =
        .ok { placed := [], unlabeled := some [], invoked := [] } ∧
      (sampleMethods.chain_search (sampleMethods.reduce emptyProblem) = .error .Empty ∧
        samplePal.solveProblem sampleMethods (some emptyProblem) true (some []) =
          .ok { placed := [], unlabeled := some [], invoked := [.reduce, .chain_search] }) ∧
      (sampleMethods.chain_search (sampleMethods.reduce sampleProblem) = .ok sampleProblem ∧
        samplePal.solveProblem sampleMethods (some sampleProblem) true (some []) =
          .ok { placed := (sampleMethods.getSolution sampleProblem true (some [])).1,
                unlabeled := (sampleMethods.getSolution sampleProblem true (some [])).2,
                invoked := [.reduce, .chain_search, .getSolution] }) :=
  ⟨(solveProblem_cases samplePal sampleMethods true (some [])).1,
   ⟨rfl, (solveProblem_cases samplePal sampleMethods true (some [])).2.1 _ rfl⟩,
   ⟨rfl, (solveProblem_cases samplePal sampleMethods true (some [])).2.2 _ _ rfl⟩⟩

/-- Claim C9 as stated fails when no point on surface can be computed: the feature part
has no candidate, and `extractFeatCallback` records it neither as a feature nor as an
unplaced position. -/
theorem extractFeatCallback_records_nothing :
    purgeCandidates samplePal sampleBoundary sampleDegenerate.createCandidates = [] ∧
      (extractFeatCallback samplePal sampleBoundary sampleDegenerate
        LayerLoop.init.context).features = [] ∧
      (extractFeatCallback samplePal sampleBoundary sampleDegenerate
        LayerLoop.init.context).positionsWithNoCandidates = [] := by
  decide

/-- Claim C9, amended. When no candidate of the feature part passes the boundary filter,
`extractFeatCallback` adds no feature record and appends the position returned by
`createCandidatePointOnSurface` to the unplaced list, or nothing when that position is
null; when some candidate passes, the unplaced list is left alone and exactly one
feature record is appended, holding the part, its sorted candidates and its priority. -/
theorem extractFeatCallback_bookkeeping (pal : Pal) (mapBoundary : MapBoundary)
    (featurePart : FeaturePart) (context : CallBackCtx) :
    (purgeCandidates pal mapBoundary featurePart.createCandidates = [] →
        (extractFeatCallback pal mapBoundary featurePart context).features = context.features ∧
        (extractFeatCallback pal mapBoundary featurePart context).positionsWithNoCandidates =
          context.positionsWithNoCandidates ++
            featurePart.createCandidatePointOnSurface.toList) ∧
      (purgeCandidates pal mapBoundary featurePart.createCandidates ≠ [] →
        (extractFeatCallback pal mapBoundary featurePart context).positionsWithNoCandidates =
          context.positionsWithNoCandidates ∧
        (extractFeatCallback pal mapBoundary featurePart context).features =
          context.features ++
            [{ feature := featurePart,
               candidates := sortGrow (purgeCandidates pal mapBoundary
                 featurePart.createCandidates),
               priority := featurePart.calculatePriority }]) := by
  constructor
  · intro h
    unfold extractFeatCallback
    simp only [h, List.isEmpty_nil, Bool.not_true, Bool.false_eq_true, if_false]
    cases featurePart.createCandidatePointOnSurface <;> simp
  · intro h
    have hne : (purgeCandidates pal mapBoundary featurePart.createCandidates).isEmpty = false := by
      cases hp : purgeCandidates pal mapBoundary featurePart.createCandidates with
      | nil => exact absurd hp h
      | cons a t => rfl
    unfold extractFeatCallback
    simp [hne]

/-- Claim C9, amended, on the sample: the polygon keeps no candidate and is recorded
once as unplaced, the point keeps two candidates and is recorded once as a feature. -/
theorem extractFeatCallback_bookkeeping_witness :
    ((extractFeatCallback samplePal sampleBoundary samplePolygon LayerLoop.init.context).features
        = [] ∧
      (extractFeatCallback samplePal sampleBoundary samplePolygon
        LayerLoop.init.context).positionsWithNoCandidates =
          [] ++ samplePolygon.createCandidatePointOnSurface.toList) ∧
      ((extractFeatCallback samplePal sampleBoundary samplePoint
        LayerLoop.init.context).positionsWithNoCandidates = [] ∧
      (extractFeatCallback samplePal sampleBoundary samplePoint LayerLoop.init.context).features
        = [] ++ [{ feature := samplePoint,
                   candidates := sortGrow (purgeCandidates samplePal sampleBoundary
                     samplePoint.createCandidates),
                   priority := samplePoint.calculatePriority }]) :=
  ⟨(extractFeatCallback_bookkeeping samplePal sampleBoundary samplePolygon
      LayerLoop.init.context).1 (by decide),
   (extractFeatCallback_bookkeeping samplePal sampleBoundary samplePoint
      LayerLoop.init.context).2 (by decide)⟩

/-! ### Cancellation of extraction -/

theorem overlapLoop_some_polls (env : Collaborators) (candidateIndex : List Nat) :
    ∀ (features : List Feats) (polls : Nat) (acc : List LabelPosition × Int)
      (r : List LabelPosition × Int) (last : Nat),
      overlapLoop env candidateIndex features polls acc = (some r, last) →
        polls ≤ last ∧ ∀ k, polls ≤ k → k < last → env.isCanceled k = false := by
  intro features
  induction features with
  | nil =>
    intro polls acc r last h
    simp only [overlapLoop, Prod.mk.injEq] at h
    refine ⟨by omega, ?_⟩
    intro k h1 h2
    omega
  | cons feat rest ih =>
    intro polls acc r last h
    unfold overlapLoop at h
    by_cases hc : env.isCanceled polls = true
    · simp [hc] at h
    · simp only [hc, Bool.false_eq_true, if_false] at h
      obtain ⟨hle, hall⟩ := ih _ _ _ _ h
      refine ⟨by omega, ?_⟩
      intro k h1 h2
      by_cases hk : k = polls
      · subst hk
        simpa using hc
      · exact hall k (by omega) h2

theorem overlapLoop_polls_ge (env : Collaborators) (candidateIndex : List Nat) :
    ∀ (features : List Feats) (polls : Nat) (acc : List LabelPosition × Int),
      polls ≤ (overlapLoop env candidateIndex features polls acc).2 := by
  intro features
  induction features with
  | nil => intro polls acc; simp [overlapLoop]
  | cons feat rest ih =>
    intro polls acc
    unfold overlapLoop
    split
    · simp
    · exact Nat.le_trans (Nat.le_succ _) (ih _ _)

theorem filterObstacles_polls (env : Collaborators) (candidateIndex : List Nat) :
    ∀ (obstacles : List Obstacle) (polls : Nat) (features : List Feats),
      polls ≤ (filterObstacles env candidateIndex obstacles polls features).2 := by
  intro obstacles
  induction obstacles with
  | nil => intro polls features; simp [filterObstacles]
  | cons o rest ih =>
    intro polls features
    unfold filterObstacles
    split
    · simp
    · exact Nat.le_trans (Nat.le_succ _) (ih _ _)

theorem extract_some_shape (pal : Pal) (env : Collaborators) (extent : Box)
    (mapBoundary : MapBoundary) (prob : Problem)
    (h : pal.extract env extent mapBoundary = some prob)
    (hne : (extractLayers env pal extent mapBoundary).context.features.isEmpty = false) :
    env.isCanceled (pal.filterPolls env extent mapBoundary) = false ∧
      ∃ positions nbOverlaps,
        overlapLoop env (pal.featureStage env extent mapBoundary).candidateIndex
          (pal.featureStage env extent mapBoundary).features
          (pal.filterPolls env extent mapBoundary + 1) ([], 0) =
            (some (positions, nbOverlaps), (pal.extractPolled env extent mapBoundary).2) ∧
        prob.mFeatureCount = (extractLayers env pal extent mapBoundary).context.features.length ∧
        prob.mFeatNbLp = (pal.featureStage env extent mapBoundary).mFeatNbLp ∧
        prob.mFeatStartId = (pal.featureStage env extent mapBoundary).mFeatStartId ∧
        prob.mTotalCandidates = (pal.featureStage env extent mapBoundary).mTotalCandidates ∧
        prob.mAllNblp = (pal.featureStage env extent mapBoundary).mTotalCandidates ∧
        prob.mNbOverlap = Int.tdiv nbOverlaps 2 ∧
        prob.mLabelPositions = positions := by
  unfold Pal.extract at h
  unfold Pal.extractPolled at h ⊢
  simp only [hne, Bool.not_false, if_true] at h ⊢
  split at h
  · simp at h
  · rename_i hpost
    simp only [hpost, Bool.false_eq_true, if_false]
    refine ⟨by simp [hpost], ?_⟩
    split at h
    · simp at h
    · rename_i positions nbOverlaps polls heq
      simp only [Option.some.injEq] at h
      subst h
      refine ⟨positions, nbOverlaps, ?_, rfl, rfl, rfl, rfl, rfl, rfl, rfl⟩
      rw [heq]

theorem extract_polls_of_empty (pal : Pal) (env : Collaborators) (extent : Box)
    (mapBoundary : MapBoundary)
    (hne : (extractLayers env pal extent mapBoundary).context.features.isEmpty = true) :
    (pal.extractPolled env extent mapBoundary).2 = 0 := by
  unfold Pal.extractPolled
  simp [hne]

theorem extract_checkpoint_decides (pal : Pal) (env : Collaborators) (extent : Box)
    (mapBoundary : MapBoundary) (prob : Problem)
    (h : pal.extract env extent mapBoundary = some prob) :
    ∀ k, pal.filterPolls env extent mapBoundary ≤ k →
      k < (pal.extractPolled env extent mapBoundary).2 → env.isCanceled k = false := by
  intro k h1 h2
  cases hne : (extractLayers env pal extent mapBoundary).context.features.isEmpty with
  | true =>
    rw [extract_polls_of_empty pal env extent mapBoundary hne] at h2
    omega
  | false =>
    obtain ⟨hpost, positions, nbOverlaps, hloop, _⟩ :=
      extract_some_shape pal env extent mapBoundary prob h hne
    obtain ⟨_, hall⟩ := overlapLoop_some_polls _ _ _ _ _ _ _ hloop
    by_cases hk : k = pal.filterPolls env extent mapBoundary
    · rw [hk]; exact hpost
    · exact hall k (by omega) h2

theorem filterPolls_lt_polls (pal : Pal) (env : Collaborators) (extent : Box)
    (mapBoundary : MapBoundary) (h : 0 < (pal.extractPolled env extent mapBoundary).2) :
    pal.filterPolls env extent mapBoundary < (pal.extractPolled env extent mapBoundary).2 := by
  cases hne : (extractLayers env pal extent mapBoundary).context.features.isEmpty with
  | true =>
    rw [extract_polls_of_empty pal env extent mapBoundary hne] at h
    omega
  | false =>
    have hge := overlapLoop_polls_ge env (pal.featureStage env extent mapBoundary).candidateIndex
      (pal.featureStage env extent mapBoundary).features
      (pal.filterPolls env extent mapBoundary + 1) ([], 0)
    unfold Pal.extractPolled
    simp only [hne, Bool.not_false, if_true]
    split
    · simp
    · split
      · rename_i heq
        rw [heq] at hge
        simp only [] at hge ⊢
        omega
      · rename_i heq
        rw [heq] at hge
        simp only [] at hge ⊢
        omega

/-- Claim C6 as stated fails for a predicate that answers true once and false afterwards:
on the sample engine the first poll, made inside `filteringCallback`, answers true, four
polls are made in all, and `extract` still returns a problem with both candidates. -/
theorem extract_survives_blinking_predicate :
    blinkingEnv.isCanceled 0 = true ∧
      (sampleEngine.extractPolled blinkingEnv sampleExtent sampleBoundary).2 = 4 ∧
      (sampleEngine.extract blinkingEnv sampleExtent sampleBoundary).map
        (fun prob => prob.mLabelPositions.map (fun lp => lp.addr)) = some [103, 104] := by
  decide

/-- Claim C6, amended. In every run of `Pal::extract`, a true answer of the cancellation
predicate at the checkpoint that follows the obstacle scan or at a per-feature
checkpoint of the overlap pass makes `extract` return no problem; a true answer inside
`filteringCallback` stops the obstacle scan only. Hence, for a predicate that stays true
once it has answered true, a true answer at any poll of the run makes `extract` return
no problem. -/
theorem extract_cancelled (pal : Pal) (env : Collaborators) (extent : Box)
    (mapBoundary : MapBoundary) :
    (∀ k, pal.filterPolls env extent mapBoundary ≤ k →
        k < (pal.extractPolled env extent mapBoundary).2 → env.isCanceled k = true →
        pal.extract env extent mapBoundary = none) ∧
      ((∀ i j, i ≤ j → env.isCanceled i = true → env.isCanceled j = true) →
        ∀ k, k < (pal.extractPolled env extent mapBoundary).2 → env.isCanceled k = true →
          pal.extract env extent mapBoundary = none) := by
  have key : ∀ k, pal.filterPolls env extent mapBoundary ≤ k →
      k < (pal.extractPolled env extent mapBoundary).2 → env.isCanceled k = true →
      pal.extract env extent mapBoundary = none := by
    intro k h1 h2 h3
    cases hx : pal.extract env extent mapBoundary with
    | none => rfl
    | some prob =>
      have := extract_checkpoint_decides pal env extent mapBoundary prob hx k h1 h2
      rw [h3] at this
      exact absurd this (by decide)
  refine ⟨key, ?_⟩
  intro hlatch k h2 h3
  by_cases hk : pal.filterPolls env extent mapBoundary ≤ k
  · exact key k hk h2 h3
  · have hlt := filterPolls_lt_polls pal env extent mapBoundary (by omega)
    exact key _ (Nat.le_refl _) hlt (hlatch k _ (by omega) h3)

/-- Claim C6, amended, on the sample engine: the predicate answers false once and true
ever after; its second poll, made inside `filteringCallback`, is a true answer, and
`extract` returns no problem. -/
theorem extract_cancelled_witness :
    (sampleEngine.filterPolls latchingEnv sampleExtent sampleBoundary ≤ 2 ∧
        2 < (sampleEngine.extractPolled latchingEnv sampleExtent sampleBoundary).2 ∧
        latchingEnv.isCanceled 2 = true ∧
        sampleEngine.extract latchingEnv sampleExtent sampleBoundary = none) ∧
      (∀ i j, i ≤ j → latchingEnv.isCanceled i = true → latchingEnv.isCanceled j = true) ∧
      1 < (sampleEngine.extractPolled latchingEnv sampleExtent sampleBoundary).2 ∧
      latchingEnv.isCanceled 1 = true ∧
      sampleEngine.extract latchingEnv sampleExtent sampleBoundary = none :=
  ⟨⟨by decide, by decide, by decide,
    (extract_cancelled sampleEngine latchingEnv sampleExtent sampleBoundary).1 2
      (by decide) (by decide) (by decide)⟩,
   fun i j hij hi => by
      simp only [latchingEnv, decide_eq_true_eq] at hi ⊢
      omega,
   by decide, by decide,
   (extract_cancelled sampleEngine latchingEnv sampleExtent sampleBoundary).2
     (fun i j hij hi => by
        simp only [latchingEnv, decide_eq_true_eq] at hi ⊢
        omega)
     1 (by decide) (by decide)⟩

theorem overlapLoop_returns (env : Collaborators) (candidateIndex : List Nat)
    (hno : ∀ k, env.isCanceled k = false) :
    ∀ (features : List Feats) (polls : Nat) (acc : List LabelPosition × Int),
      ∃ r last, overlapLoop env candidateIndex features polls acc = (some r, last) := by
  intro features
  induction features with
  | nil => intro polls acc; exact ⟨acc, polls, rfl⟩
  | cons feat rest ih =>
    intro polls acc
    unfold overlapLoop
    simp only [hno, Bool.false_eq_true, if_false]
    exact ih _ _

/-- A run of `Pal::extract` during which the cancellation predicate never answers true
returns a problem. -/
theorem extract_returns (pal : Pal) (env : Collaborators) (extent : Box)
    (mapBoundary : MapBoundary) (hno : ∀ k, env.isCanceled k = false) :
    ∃ prob, pal.extract env extent mapBoundary = some prob := by
  unfold Pal.extract Pal.extractPolled
  simp only [hno, Bool.false_eq_true, if_false]
  split
  · obtain ⟨r, last, hr⟩ := overlapLoop_returns env
      (pal.featureStage env extent mapBoundary).candidateIndex hno
      (pal.featureStage env extent mapBoundary).features
      (pal.filterPolls env extent mapBoundary + 1) ([], 0)
    rw [hr]
    exact ⟨_, rfl⟩
  · exact ⟨_, rfl⟩

/-! ### Candidate ids and counts -/

theorem popExcess_fst (max_p : Nat) :
    ∀ (fuel : Nat) (candidates : List LabelPosition) (index : List Nat),
      candidates.length ≤ fuel →
        (popExcess max_p fuel candidates index).1 = candidates.take max_p := by
  intro fuel
  induction fuel with
  | zero =>
    intro candidates index h
    have : candidates = [] := List.eq_nil_of_length_eq_zero (by omega)
    subst this
    simp [popExcess]
  | succ fuel ih =>
    intro candidates index h
    unfold popExcess
    by_cases hgt : candidates.length > max_p
    · rw [if_pos hgt]
      cases hl : candidates.getLast? with
      | none =>
        have : candidates = [] := List.getLast?_eq_none_iff.mp hl
        subst this
        simp at hgt
      | some back =>
        simp only []
        rw [ih candidates.dropLast _ (by rw [List.length_dropLast]; omega)]
        rw [List.dropLast_eq_take, List.take_take]
        congr 1
        omega
    · rw [if_neg hgt]
      show candidates = candidates.take max_p
      exact (List.take_of_length_le (by omega)).symm

theorem assignProblemIds_spec (i : Int) :
    ∀ (candidates : List LabelPosition) (idlp : Int),
      (assignProblemIds i idlp candidates).1.map LabelPosition.problemIds =
          (List.range candidates.length).map (fun (j : Nat) => (i, idlp + (j : Int))) ∧
        (assignProblemIds i idlp candidates).2 = idlp + (candidates.length : Int) ∧
        (assignProblemIds i idlp candidates).1.map (fun lp => lp.geom) =
          candidates.map (fun lp => lp.geom) := by
  intro candidates
  induction candidates with
  | nil => intro idlp; simp [assignProblemIds]
  | cons lp rest ih =>
    intro idlp
    obtain ⟨h1, h2, h3⟩ := ih (idlp + 1)
    refine ⟨?_, ?_, ?_⟩
    · simp only [assignProblemIds, List.map_cons, List.length_cons, List.range_succ_eq_map,
        List.map_map, h1]
      congr 1
      · simp [LabelPosition.problemIds, LabelPosition.setProblemIds]
      · apply List.map_congr_left
        intro j _
        simp only [Function.comp, Nat.succ_eq_add_one, Nat.cast_add, Nat.cast_one]
        congr 1
        omega
    · simp only [assignProblemIds, h2, List.length_cons, Nat.cast_add, Nat.cast_one]
      omega
    · simp only [assignProblemIds, List.map_cons, h3]
      rfl

theorem assignProblemIds_length (i : Int) (candidates : List LabelPosition) (idlp : Int) :
    (assignProblemIds i idlp candidates).1.length = candidates.length := by
  have h := congrArg List.length (assignProblemIds_spec i candidates idlp).2.2
  simpa using h

theorem idsByFeature_snoc (starts nbs : List Int) (s n : Int) (count : Nat)
    (h1 : starts.length = count) (h2 : nbs.length = count) :
    idsByFeature (starts ++ [s]) (nbs ++ [n]) (count + 1) =
      idsByFeature starts nbs count ++
        (List.range n.toNat).map (fun (j : Nat) => ((count : Int), s + (j : Int))) := by
  unfold idsByFeature
  rw [List.range_succ, List.flatMap_append, List.flatMap_singleton]
  congr 1
  · apply List.flatMap_congr
    intro i hi
    have hi' : i < count := List.mem_range.mp hi
    rw [List.getD_append _ _ _ _ (by omega), List.getD_append _ _ _ _ (by omega)]
  · rw [List.getD_append_right _ _ _ _ (by omega), List.getD_append_right _ _ _ _ (by omega)]
    simp [h1, h2]

theorem consistent_snoc (st st' : FeatureLoop) (done : List Feats) (f' : Feats) (n : Nat)
    (hinv : st.consistent done)
    (hidlp : st'.idlp = st.idlp + (n : Int))
    (hstart : st'.mFeatStartId = st.mFeatStartId ++ [st.idlp])
    (hnb : st'.mFeatNbLp = st.mFeatNbLp ++ [(n : Int)])
    (htot : st'.mTotalCandidates = st.mTotalCandidates + (n : Int))
    (hids : f'.candidates.map LabelPosition.problemIds =
      (List.range n).map (fun (j : Nat) => ((done.length : Int), st.idlp + (j : Int)))) :
    st'.consistent (done ++ [f']) := by
  obtain ⟨a1, a2, a3, a4, a5, a6, a7, a8⟩ := hinv
  refine ⟨?_, ?_, ?_, ?_, ?_, ?_, ?_, ?_⟩
  · simp [hnb, a1]
  · simp [hstart, a2]
  · rw [hidlp, hnb, List.sum_append, a3]; simp
  · rw [htot, hnb, List.sum_append, a4]; simp
  · rw [hidlp]; omega
  · intro i hi
    rw [List.length_append, List.length_singleton] at hi
    rw [hstart, hnb]
    by_cases hlt : i < done.length
    · rw [List.getD_append _ _ _ _ (by omega), List.take_append_of_le_length (by omega)]
      exact a6 i hlt
    · have hi' : i = done.length := by omega
      subst hi'
      rw [List.getD_append_right _ _ _ _ (by omega), List.take_left' a1]
      simp [a2, a3]
  · rw [List.flatMap_append, List.flatMap_singleton, a7, hstart, hnb, List.length_append,
      List.length_singleton, idsByFeature_snoc _ _ _ _ _ a2 a1, hids]
    simp
  · rw [List.flatMap_append, List.flatMap_singleton, a8, hidlp]
    have hn : (st.idlp + (n : Int)).toNat = st.idlp.toNat + n := by omega
    rw [hn, List.range_add, List.map_append, List.map_map]
    congr 1
    have hm := congrArg (List.map Prod.snd) hids
    simp only [List.map_map] at hm
    have hfun : (Prod.snd ∘ LabelPosition.problemIds) = (fun lp : LabelPosition => lp.id) := by
      funext lp; rfl
    rw [hfun] at hm
    rw [hm]
    apply List.map_congr_left
    intro j _
    simp only [Function.comp, Nat.cast_add]
    omega

theorem extractFeature_consistent (env : Collaborators) (obstacles : List Obstacle) (bb : Box)
    (st : FeatureLoop) (feat : Feats) (done : List Feats) (rest : List Feats)
    (hinv : st.consistent done) :
    ∃ f', (extractFeature env obstacles bb done.length { st with features := rest ++ done }
        feat).features = rest ++ (done ++ [f']) ∧
      (extractFeature env obstacles bb done.length { st with features := rest ++ done }
        feat).consistent (done ++ [f']) := by
  simp only [extractFeature]
  generalize env.finalizeCandidatesCosts feat _ obstacles bb = fin
  generalize popExcess fin.2 _ _ _ = popped
  refine ⟨{ fin.1 with candidates := (assignProblemIds (done.length : Int) st.idlp popped.1).1 },
    by simp, ?_⟩
  refine consistent_snoc { st with features := rest ++ done } _ done _ popped.1.length
    hinv ?_ rfl rfl rfl ?_
  · exact (assignProblemIds_spec (done.length : Int) popped.1 st.idlp).2.1
  · exact (assignProblemIds_spec (done.length : Int) popped.1 st.idlp).1

theorem featureLoop_consistent (env : Collaborators) (obstacles : List Obstacle) (bb : Box) :
    ∀ (todo done : List Feats) (st : FeatureLoop),
      st.features = todo ++ done → st.consistent done →
        ∃ done', (featureLoop env obstacles bb todo.length done.length st).features = done' ∧
          (featureLoop env obstacles bb todo.length done.length st).consistent done' ∧
          done'.length = done.length + todo.length := by
  intro todo
  induction todo with
  | nil =>
    intro done st hf hinv
    exact ⟨done, by simpa [featureLoop] using hf, by simpa [featureLoop] using hinv, by simp⟩
  | cons feat rest ih =>
    intro done st hf hinv
    obtain ⟨f', hf', hinv'⟩ := extractFeature_consistent env obstacles bb st feat done rest hinv
    have hstep : featureLoop env obstacles bb (feat :: rest).length done.length st =
        featureLoop env obstacles bb rest.length (done ++ [f']).length
          (extractFeature env obstacles bb done.length { st with features := rest ++ done }
            feat) := by
      rw [List.length_cons, featureLoop, hf]
      simp
    obtain ⟨done', h1, h2, h3⟩ := ih (done ++ [f']) _ hf' hinv'
    refine ⟨done', ?_, ?_, ?_⟩
    · rw [hstep]; exact h1
    · rw [hstep]; exact h2
    · rw [h3]; simp; omega

theorem countOverlaps_frame {β : Type} (g : LabelPosition → β)
    (hg : ∀ (lp : LabelPosition) (c n : Int), g { lp with cost := c, nbOverlap := n } = g lp)
    (env : Collaborators) (candidateIndex : List Nat) (alive : List LabelPosition)
    (lp : LabelPosition) : g (countOverlaps env candidateIndex alive lp) = g lp := by
  have := hg lp lp.cost (lp.nbOverlap + ((List.filter
    (fun c => c.geom.bbox.overlaps lp.geom.bbox && env.isInConflict lp c)
    (List.filterMap (fun a => alive.find? (fun c => c.addr == a)) candidateIndex)).length : Int))
  simpa [countOverlaps] using this

theorem overlapCandidates_frame {β : Type} (g : LabelPosition → β)
    (hg : ∀ (lp : LabelPosition) (c n : Int), g { lp with cost := c, nbOverlap := n } = g lp)
    (env : Collaborators) (candidateIndex : List Nat) (later : List LabelPosition) :
    ∀ (candidates done : List LabelPosition) (nbOverlaps : Int),
      (overlapCandidates env candidateIndex later candidates done nbOverlaps).1.map g =
        done.map g ++ candidates.map g := by
  intro candidates
  induction candidates with
  | nil => intro done nbOverlaps; simp [overlapCandidates]
  | cons candidate rest ih =>
    intro done nbOverlaps
    simp only [overlapCandidates]
    rw [ih, List.map_append, List.map_singleton, countOverlaps_frame g hg]
    have := hg candidate (env.validateCost candidate.cost) 0
    simp only [LabelPosition.resetNumOverlaps] at this ⊢
    rw [this]
    simp

theorem overlapLoop_frame {β : Type} (g : LabelPosition → β)
    (hg : ∀ (lp : LabelPosition) (c n : Int), g { lp with cost := c, nbOverlap := n } = g lp)
    (env : Collaborators) (candidateIndex : List Nat) :
    ∀ (features : List Feats) (polls : Nat) (acc r : List LabelPosition × Int) (last : Nat),
      overlapLoop env candidateIndex features polls acc = (some r, last) →
        r.1.map g = acc.1.map g ++ features.flatMap (fun f => f.candidates.map g) := by
  intro features
  induction features with
  | nil =>
    intro polls acc r last h
    simp only [overlapLoop, Prod.mk.injEq, Option.some.injEq] at h
    simp [h.1]
  | cons feat rest ih =>
    intro polls acc r last h
    unfold overlapLoop at h
    split at h
    · simp at h
    · rw [ih _ _ _ _ h, overlapCandidates_frame g hg]
      simp

theorem filterObstacles_features (env : Collaborators) (candidateIndex : List Nat) :
    ∀ (obstacles : List Obstacle) (polls : Nat) (features : List Feats),
      (filterObstacles env candidateIndex obstacles polls features).1.map (fun f => f.feature) =
        features.map (fun f => f.feature) := by
  intro obstacles
  induction obstacles with
  | nil => intro polls features; simp [filterObstacles]
  | cons o rest ih =>
    intro polls features
    unfold filterObstacles filteringCallback
    by_cases hc : env.isCanceled polls = true
    · simp [hc]
    · simp only [hc, Bool.false_eq_true, if_false]
      rw [ih]
      simp [pruneFeatures]

theorem filterStage_length (pal : Pal) (env : Collaborators) (extent : Box)
    (mapBoundary : MapBoundary) :
    (pal.filterStage env extent mapBoundary).1.length =
      (extractLayers env pal extent mapBoundary).context.features.length := by
  have h := congrArg List.length (filterObstacles_features env
    (extractLayers env pal extent mapBoundary).context.candidateIndex
    (extractLayers env pal extent mapBoundary).context.obstacleIndex 0
    (extractLayers env pal extent mapBoundary).context.features)
  simpa [Pal.filterStage] using h

theorem featureStage_consistent (pal : Pal) (env : Collaborators) (extent : Box)
    (mapBoundary : MapBoundary) :
    (pal.featureStage env extent mapBoundary).consistent
        (pal.featureStage env extent mapBoundary).features ∧
      (pal.featureStage env extent mapBoundary).features.length =
        (extractLayers env pal extent mapBoundary).context.features.length := by
  have hlen := filterStage_length pal env extent mapBoundary
  have hinit : FeatureLoop.consistent
      { features := (pal.filterStage env extent mapBoundary).1,
        candidateIndex := (extractLayers env pal extent mapBoundary).context.candidateIndex,
        max_p := 0, idlp := 0, mFeatStartId := [], mInactiveCost := [], mFeatNbLp := [],
        mTotalCandidates := 0 } [] := by
    refine ⟨rfl, rfl, rfl, rfl, Int.le_refl _, ?_, rfl, rfl⟩
    intro i hi
    simp at hi
  obtain ⟨done', h1, h2, h3⟩ := featureLoop_consistent env
    (extractLayers env pal extent mapBoundary).context.obstacleIndex extent
    (pal.filterStage env extent mapBoundary).1 [] _ (by simp) hinit
  rw [hlen] at h1 h2
  simp only [List.length_nil] at h1 h2 h3
  unfold Pal.featureStage
  simp only []
  rw [h1]
  exact ⟨h2, by omega⟩

/-- Claim C1. For every problem returned by `Pal::extract` with at least one feature that
kept candidates: there is one count and one start offset per feature, the counts add
up to `mTotalCandidates`, which is also `mAllNblp`; the first start offset is 0 and each
further one is the previous offset plus the previous count; the candidates of the
problem carry, feature by feature and in order, the pairs `(i, mFeatStartId[i] + j)`;
and their ids are 0, 1, ..., `mTotalCandidates - 1` in this order, hence pairwise
distinct. -/
theorem extract_candidate_ids (pal : Pal) (env : Collaborators) (extent : Box)
    (mapBoundary : MapBoundary) (prob : Problem)
    (h : pal.extract env extent mapBoundary = some prob) (hfeat : 0 < prob.mFeatureCount) :
    prob.mFeatNbLp.length = prob.mFeatureCount ∧
      prob.mFeatStartId.length = prob.mFeatureCount ∧
      prob.mFeatNbLp.sum = prob.mTotalCandidates ∧
      prob.mAllNblp = prob.mTotalCandidates ∧
      prob.mFeatStartId[0]? = some 0 ∧
      (∀ i, i + 1 < prob.mFeatureCount →
        prob.mFeatStartId.getD (i + 1) 0 =
          prob.mFeatStartId.getD i 0 + prob.mFeatNbLp.getD i 0) ∧
      prob.mLabelPositions.map (fun lp => (lp.probFeat, lp.id)) =
        (List.range prob.mFeatureCount).flatMap (fun (i : Nat) =>
          (List.range (prob.mFeatNbLp.getD i 0).toNat).map (fun (j : Nat) =>
            ((i : Int), prob.mFeatStartId.getD i 0 + (j : Int)))) ∧
      prob.mLabelPositions.map (fun lp => lp.id) =
        (List.range prob.mTotalCandidates.toNat).map (fun (k : Nat) => (k : Int)) ∧
      (prob.mLabelPositions.map (fun lp => lp.id)).Nodup ∧
      (prob.mLabelPositions.length : Int) = prob.mTotalCandidates := by
  cases hne : (extractLayers env pal extent mapBoundary).context.features.isEmpty with
  | true =>
    exfalso
    unfold Pal.extract Pal.extractPolled at h
    simp only [hne, Bool.not_true, Bool.false_eq_true, if_false, Option.some.injEq] at h
    subst h
    simp only [List.isEmpty_iff] at hne
    simp [hne] at hfeat
  | false =>
    obtain ⟨_, positions, nbOverlaps, hloop, hcount, hnb, hstart, htot, hall, _, hpos⟩ :=
      extract_some_shape pal env extent mapBoundary prob h hne
    obtain ⟨⟨a1, a2, a3, a4, a5, a6, a7, a8⟩, hlen⟩ :=
      featureStage_consistent pal env extent mapBoundary
    have hpairs := overlapLoop_frame LabelPosition.problemIds (fun _ _ _ => rfl) env _ _ _ _ _ _
      hloop
    have hids := overlapLoop_frame (fun lp => lp.id) (fun _ _ _ => rfl) env _ _ _ _ _ _ hloop
    simp only [List.map_nil, List.nil_append] at hpairs hids
    rw [hlen] at a1 a2 a6 a7
    rw [← hcount] at a1 a2 a6 a7
    rw [← hnb] at a1 a3 a4 a6 a7
    rw [← hstart] at a2 a6 a7
    rw [← htot] at a4
    have hidl : (pal.featureStage env extent mapBoundary).idlp = prob.mTotalCandidates := by
      rw [a3, a4]
    rw [hidl] at a8
    have hidsEq : prob.mLabelPositions.map (fun lp => lp.id) =
        (List.range prob.mTotalCandidates.toNat).map (fun (k : Nat) => (k : Int)) := by
      rw [hpos, hids, a8]
    refine ⟨a1, a2, a4.symm, by rw [hall, htot], ?_, ?_, ?_, hidsEq, ?_, ?_⟩
    · have h0 := a6 0 hfeat
      cases hs : prob.mFeatStartId with
      | nil => rw [hs] at a2; simp at a2; omega
      | cons s t => rw [hs] at h0; simpa using h0
    · intro i hi
      rw [a6 (i + 1) hi, a6 i (by omega), List.sum_take_succ _ _ (by omega),
        List.getD_eq_getElem _ _ (by omega)]
    · rw [hpos]
      exact hpairs.trans a7
    · rw [hidsEq]
      exact (List.nodup_range _).map (fun a b hab => by simpa using hab)
    · have hl := congrArg List.length hidsEq
      simp only [List.length_map, List.length_range] at hl
      rw [hl]
      rw [hidl] at a5
      omega

/-! ### Candidate limits -/

theorem extractFeature_features (env : Collaborators) (obstacles : List Obstacle) (bb : Box)
    (i : Nat) (st : FeatureLoop) (feat : Feats) :
    ∃ f', (extractFeature env obstacles bb i st feat).features = st.features ++ [f'] ∧
      f'.candidates.map (fun lp => lp.geom) =
        ((env.finalizeCandidatesCosts feat
          (match feat.feature.getGeosType with
            | .point => feat.feature.layer.maximumPointLabelCandidates
            | .linestring => feat.feature.layer.maximumLineLabelCandidates
            | .polygon => feat.feature.layer.maximumPolygonLabelCandidates
            | .other => st.max_p) obstacles bb).1.candidates.take
          (env.finalizeCandidatesCosts feat
            (match feat.feature.getGeosType with
              | .point => feat.feature.layer.maximumPointLabelCandidates
              | .linestring => feat.feature.layer.maximumLineLabelCandidates
              | .polygon => feat.feature.layer.maximumPolygonLabelCandidates
              | .other => st.max_p) obstacles bb).2).map (fun lp => lp.geom) := by
  simp only [extractFeature]
  generalize env.finalizeCandidatesCosts feat _ obstacles bb = fin
  refine ⟨_, rfl, ?_⟩
  simp only []
  rw [(assignProblemIds_spec _ _ _).2.2, popExcess_fst _ _ _ _ (Nat.le_refl _)]

theorem extractFeature_count (env : Collaborators) (hfin : env.finalizeWithinLimit)
    (obstacles : List Obstacle) (bb : Box) (i : Nat) (st : FeatureLoop) (feat : Feats) :
    ∃ n : Int, (extractFeature env obstacles bb i st feat).mFeatNbLp = st.mFeatNbLp ++ [n] ∧
      feat.feature.respectsMaximum n := by
  simp only [extractFeature]
  refine ⟨_, rfl, ?_⟩
  rw [popExcess_fst _ _ _ _ (Nat.le_refl _)]
  have hlen : ∀ (max_p : Nat),
      (((env.finalizeCandidatesCosts feat max_p obstacles bb).1.candidates.take
        (env.finalizeCandidatesCosts feat max_p obstacles bb).2).length : Int) ≤ (max_p : Int) := by
    intro max_p
    have h1 := hfin feat max_p obstacles bb
    have h2 : ((env.finalizeCandidatesCosts feat max_p obstacles bb).1.candidates.take
        (env.finalizeCandidatesCosts feat max_p obstacles bb).2).length ≤
        (env.finalizeCandidatesCosts feat max_p obstacles bb).2 := by
      rw [List.length_take]
      exact Nat.min_le_left _ _
    omega
  refine ⟨?_, ?_, ?_⟩
  · intro ht
    simp only [ht]
    exact hlen _
  · intro ht
    simp only [ht]
    exact hlen _
  · intro ht
    simp only [ht]
    exact hlen _

theorem featureLoop_counts (env : Collaborators) (hfin : env.finalizeWithinLimit)
    (obstacles : List Obstacle) (bb : Box) :
    ∀ (todo done : List Feats) (st : FeatureLoop) (i : Nat), st.features = todo ++ done →
      ∃ ns, (featureLoop env obstacles bb todo.length i st).mFeatNbLp = st.mFeatNbLp ++ ns ∧
        List.Forall₂ (fun f n => f.feature.respectsMaximum n) todo ns := by
  intro todo
  induction todo with
  | nil =>
    intro done st i _
    exact ⟨[], by simp [featureLoop], List.Forall₂.nil⟩
  | cons feat rest ih =>
    intro done st i hf
    obtain ⟨f', hf', _⟩ := extractFeature_features env obstacles bb i
      { st with features := rest ++ done } feat
    obtain ⟨n, hn, hR⟩ := extractFeature_count env hfin obstacles bb i
      { st with features := rest ++ done } feat
    have hf'' : (extractFeature env obstacles bb i { st with features := rest ++ done }
        feat).features = rest ++ (done ++ [f']) := by
      rw [hf']; simp
    obtain ⟨ns, h1, h2⟩ := ih (done ++ [f']) _ (i + 1) hf''
    refine ⟨n :: ns, ?_, List.Forall₂.cons hR h2⟩
    rw [List.length_cons, featureLoop, hf]
    simp only [List.cons_append]
    rw [h1, hn]
    simp

theorem forall2_getElem_some {α β : Type} (R : α → β → Prop) :
    ∀ (l₁ : List α) (l₂ : List β), List.Forall₂ R l₁ l₂ → ∀ (i : Nat) (a : α),
      l₁[i]? = some a → ∃ b, l₂[i]? = some b ∧ R a b := by
  intro l₁ l₂ h
  induction h with
  | nil => intro i a ha; simp at ha
  | cons hR _ ih =>
    intro i a ha
    cases i with
    | zero =>
      simp only [List.getElem?_cons_zero, Option.some.injEq] at ha
      subst ha
      exact ⟨_, by simp, hR⟩
    | succ i =>
      simp only [List.getElem?_cons_succ] at ha ⊢
      exact ih i a ha

/-- Claim C2. When the limit returned by the cost calculator never exceeds the maximum it
was given, every feature that kept candidates ends with a candidate count that is at
most the maximum its layer configures for its geometry type: the point maximum for a
point, the line maximum for a line, the polygon maximum for a polygon. -/
theorem extract_respects_layer_maximum (pal : Pal) (env : Collaborators) (extent : Box)
    (mapBoundary : MapBoundary) (prob : Problem) (hfin : env.finalizeWithinLimit)
    (h : pal.extract env extent mapBoundary = some prob) :
    ∀ (i : Nat) (f : Feats),
      (extractLayers env pal extent mapBoundary).context.features[i]? = some f →
        ∃ n : Int, prob.mFeatNbLp[i]? = some n ∧
          (f.feature.getGeosType = .point →
            n ≤ (f.feature.layer.maximumPointLabelCandidates : Int)) ∧
          (f.feature.getGeosType = .linestring →
            n ≤ (f.feature.layer.maximumLineLabelCandidates : Int)) ∧
          (f.feature.getGeosType = .polygon →
            n ≤ (f.feature.layer.maximumPolygonLabelCandidates : Int)) := by
  intro i f hif
  cases hne : (extractLayers env pal extent mapBoundary).context.features.isEmpty with
  | true =>
    simp only [List.isEmpty_iff] at hne
    simp [hne] at hif
  | false =>
    obtain ⟨_, positions, nbOverlaps, _, _, hnb, _⟩ :=
      extract_some_shape pal env extent mapBoundary prob h hne
    obtain ⟨ns, h1, h2⟩ := featureLoop_counts env hfin
      (extractLayers env pal extent mapBoundary).context.obstacleIndex extent
      (pal.filterStage env extent mapBoundary).1 []
      { features := (pal.filterStage env extent mapBoundary).1,
        candidateIndex := (extractLayers env pal extent mapBoundary).context.candidateIndex,
        max_p := 0, idlp := 0, mFeatStartId := [], mInactiveCost := [], mFeatNbLp := [],
        mTotalCandidates := 0 } 0 (by simp)
    rw [filterStage_length] at h1
    have hstage : (pal.featureStage env extent mapBoundary).mFeatNbLp = ns := by
      unfold Pal.featureStage
      simpa using h1
    have hmap := filterObstacles_features env
      (extractLayers env pal extent mapBoundary).context.candidateIndex
      (extractLayers env pal extent mapBoundary).context.obstacleIndex 0
      (extractLayers env pal extent mapBoundary).context.features
    have hget : ((pal.filterStage env extent mapBoundary).1.map (fun f => f.feature))[i]? =
        some f.feature := by
      unfold Pal.filterStage
      simp only []
      rw [hmap, List.getElem?_map, hif]
      rfl
    rw [List.getElem?_map] at hget
    cases hf2 : (pal.filterStage env extent mapBoundary).1[i]? with
    | none => rw [hf2] at hget; simp at hget
    | some f2 =>
      rw [hf2] at hget
      simp only [Option.map_some', Option.some.injEq] at hget
      obtain ⟨n, hn, hR⟩ := forall2_getElem_some _ _ _ h2 i f2 hf2
      rw [hget] at hR
      exact ⟨n, by rw [hnb, hstage]; exact hn, hR⟩

/-! ### Boundary filter -/

theorem purgeCandidates_eq_filter (pal : Pal) (mapBoundary : MapBoundary)
    (candidates : List LabelPosition) :
    purgeCandidates pal mapBoundary candidates =
      candidates.filter (fun c => pal.admitsGeometry mapBoundary c.geom) := by
  unfold purgeCandidates Pal.admitsGeometry
  apply List.filter_congr
  intro c _
  cases pal.showPartialLabels <;> simp

theorem foldl_invariant {σ α : Type} (Q : σ → Prop) (f : σ → α → σ)
    (hstep : ∀ s a, Q s → Q (f s a)) : ∀ (l : List α) (s : σ), Q s → Q (l.foldl f s) := by
  intro l
  induction l with
  | nil => intro s hs; exact hs
  | cons a t ih => intro s hs; exact ih _ (hstep s a hs)

theorem extractFeatCallback_geometry (pal : Pal) (mapBoundary : MapBoundary)
    (featurePart : FeaturePart) (context : CallBackCtx)
    (h : ∀ f ∈ context.features, ∀ c ∈ f.candidates,
      pal.admitsGeometry mapBoundary c.geom = true) :
    ∀ f ∈ (extractFeatCallback pal mapBoundary featurePart context).features,
      ∀ c ∈ f.candidates, pal.admitsGeometry mapBoundary c.geom = true := by
  unfold extractFeatCallback
  simp only []
  split
  · intro f hf c hc
    rcases List.mem_append.mp hf with hf | hf
    · exact h f hf c hc
    · simp only [List.mem_singleton] at hf
      subst hf
      simp only [sortGrow] at hc
      have hc' := (List.mem_insertionSort _).mp hc
      rw [purgeCandidates_eq_filter] at hc'
      exact (List.mem_filter.mp hc').2
  · split
    · exact h
    · exact h

theorem extractLayers_geometry (env : Collaborators) (pal : Pal) (extent : Box)
    (mapBoundary : MapBoundary) :
    ∀ f ∈ (extractLayers env pal extent mapBoundary).context.features,
      ∀ c ∈ f.candidates, pal.admitsGeometry mapBoundary c.geom = true := by
  unfold extractLayers
  apply foldl_invariant (fun st : LayerLoop => ∀ f ∈ st.context.features,
    ∀ c ∈ f.candidates, pal.admitsGeometry mapBoundary c.geom = true)
  · intro st e hst
    unfold extractLayer
    split
    · exact hst
    · simp only []
      apply foldl_invariant (fun ctx : CallBackCtx => ∀ f ∈ ctx.features,
        ∀ c ∈ f.candidates, pal.admitsGeometry mapBoundary c.geom = true)
      · intro ctx o hctx
        exact hctx
      · apply foldl_invariant (fun ctx : CallBackCtx => ∀ f ∈ ctx.features,
          ∀ c ∈ f.candidates, pal.admitsGeometry mapBoundary c.geom = true)
        · intro ctx fp hctx
          exact extractFeatCallback_geometry pal mapBoundary fp ctx hctx
        · exact hst
  · intro f hf
    simp [LayerLoop.init] at hf

theorem filterObstacles_geometry (env : Collaborators) (candidateIndex : List Nat)
    (P : LabelGeom → Bool) :
    ∀ (obstacles : List Obstacle) (polls : Nat) (features : List Feats),
      (∀ f ∈ features, ∀ c ∈ f.candidates, P c.geom = true) →
        ∀ f ∈ (filterObstacles env candidateIndex obstacles polls features).1,
          ∀ c ∈ f.candidates, P c.geom = true := by
  intro obstacles
  induction obstacles with
  | nil => intro polls features h; simpa [filterObstacles] using h
  | cons o rest ih =>
    intro polls features h
    unfold filterObstacles filteringCallback
    by_cases hcan : env.isCanceled polls = true
    · simpa [hcan] using h
    · simp only [hcan, Bool.false_eq_true, if_false]
      apply ih
      intro f hf c hc
      simp only [pruneFeatures, List.mem_map] at hf
      obtain ⟨f0, hf0, rfl⟩ := hf
      simp only [List.mem_map] at hc
      obtain ⟨c0, hc0, rfl⟩ := hc
      have := h f0 hf0 c0 hc0
      split
      · simpa [pruneCallback] using this
      · exact this

theorem featureLoop_geometry (env : Collaborators) (hkeep : env.finalizeKeepsGeometry)
    (obstacles : List Obstacle) (bb : Box) (P : LabelGeom → Bool) :
    ∀ (count i : Nat) (st : FeatureLoop),
      (∀ f ∈ st.features, ∀ c ∈ f.candidates, P c.geom = true) →
        ∀ f ∈ (featureLoop env obstacles bb count i st).features,
          ∀ c ∈ f.candidates, P c.geom = true := by
  intro count
  induction count with
  | zero => intro i st h; simpa [featureLoop] using h
  | succ count ih =>
    intro i st h
    unfold featureLoop
    split
    · exact h
    · rename_i feat rest hst
      apply ih
      obtain ⟨f', hf', hgeom⟩ := extractFeature_features env obstacles bb i
        { st with features := rest } feat
      rw [hf']
      intro f hf c hc
      rcases List.mem_append.mp hf with hf | hf
      · exact h f (by rw [hst]; exact List.mem_cons_of_mem _ hf) c hc
      · simp only [List.mem_singleton] at hf
        subst hf
        have hmem : c.geom ∈ f.candidates.map (fun lp => lp.geom) :=
          List.mem_map_of_mem _ hc
        rw [hgeom] at hmem
        obtain ⟨c1, hc1, hc1g⟩ := List.mem_map.mp hmem
        obtain ⟨c0, hc0, hc0g⟩ := hkeep _ _ _ _ c1 (List.mem_of_mem_take hc1)
        rw [← hc1g, hc0g]
        exact h feat (by rw [hst]; exact List.mem_cons_self _ _) c0 hc0

theorem extract_geometry (pal : Pal) (env : Collaborators) (extent : Box)
    (mapBoundary : MapBoundary) (hkeep : env.finalizeKeepsGeometry) (prob : Problem)
    (h : pal.extract env extent mapBoundary = some prob) :
    ∀ lp ∈ prob.mLabelPositions, pal.admitsGeometry mapBoundary lp.geom = true := by
  cases hne : (extractLayers env pal extent mapBoundary).context.features.isEmpty with
  | true =>
    unfold Pal.extract Pal.extractPolled at h
    simp only [hne, Bool.not_true, Bool.false_eq_true, if_false, Option.some.injEq] at h
    subst h
    intro lp hlp
    simp at hlp
  | false =>
    obtain ⟨_, positions, nbOverlaps, hloop, _, _, _, _, _, _, hpos⟩ :=
      extract_some_shape pal env extent mapBoundary prob h hne
    have hgeom := overlapLoop_frame (fun lp => lp.geom) (fun _ _ _ => rfl) env _ _ _ _ _ _ hloop
    simp only [List.map_nil, List.nil_append] at hgeom
    have hstage : ∀ f ∈ (pal.featureStage env extent mapBoundary).features,
        ∀ c ∈ f.candidates, pal.admitsGeometry mapBoundary c.geom = true := by
      unfold Pal.featureStage
      apply featureLoop_geometry env hkeep
      unfold Pal.filterStage
      exact filterObstacles_geometry env _ _ _ _ _
        (extractLayers_geometry env pal extent mapBoundary)
    intro lp hlp
    rw [hpos] at hlp
    have hmem : lp.geom ∈ positions.map (fun lp => lp.geom) := List.mem_map_of_mem _ hlp
    rw [hgeom, List.mem_flatMap] at hmem
    obtain ⟨f, hf, hc⟩ := hmem
    obtain ⟨c, hc, hcg⟩ := List.mem_map.mp hc
    rw [← hcg]
    exact hstage f hf c hc

/-- Claim C5. The candidate filter of `extractFeatCallback` keeps, in order, exactly the
candidates for which `within( mapBoundary )` holds when partial labels are off, and
exactly those for which `intersects( mapBoundary )` holds when they are on. As the cost
calculator only hands back geometries it was given, every candidate of a problem
returned by `Pal::extract` lies within the boundary in the first case and intersects it
in the second. -/
theorem partial_label_policy (pal : Pal) (mapBoundary : MapBoundary) :
    (pal.showPartialLabels = false → ∀ candidates,
        purgeCandidates pal mapBoundary candidates =
          candidates.filter (fun c => mapBoundary.within c.geom)) ∧
      (pal.showPartialLabels = true → ∀ candidates,
        purgeCandidates pal mapBoundary candidates =
          candidates.filter (fun c => mapBoundary.intersects c.geom)) ∧
      (∀ (env : Collaborators) (extent : Box) (prob : Problem), env.finalizeKeepsGeometry →
        pal.extract env extent mapBoundary = some prob →
          ∀ lp ∈ prob.mLabelPositions,
            (pal.showPartialLabels = false → mapBoundary.within lp.geom = true) ∧
            (pal.showPartialLabels = true → mapBoundary.intersects lp.geom = true)) := by
  refine ⟨?_, ?_, ?_⟩
  · intro hs candidates
    rw [purgeCandidates_eq_filter]
    simp [Pal.admitsGeometry, hs]
  · intro hs candidates
    rw [purgeCandidates_eq_filter]
    simp [Pal.admitsGeometry, hs]
  · intro env extent prob hkeep h lp hlp
    have := extract_geometry pal env extent mapBoundary hkeep prob h lp hlp
    constructor
    · intro hs
      simpa [Pal.admitsGeometry, hs] using this
    · intro hs
      simpa [Pal.admitsGeometry, hs] using this

/-! ### Evaluations on the sample engine -/

/-- Claim C1 on the sample engine: the problem returned has two features with one
candidate each, start offsets 0 and 1, and candidate ids 0 and 1. -/
theorem extract_candidate_ids_witness :
    sampleEngine.extract sampleEnv sampleExtent sampleBoundary = some sampleProblem ∧
      0 < sampleProblem.mFeatureCount ∧
      sampleProblem.mFeatNbLp.length = sampleProblem.mFeatureCount ∧
      sampleProblem.mFeatStartId.length = sampleProblem.mFeatureCount ∧
      sampleProblem.mFeatNbLp.sum = sampleProblem.mTotalCandidates ∧
      sampleProblem.mAllNblp = sampleProblem.mTotalCandidates ∧
      sampleProblem.mFeatStartId[0]? = some 0 ∧
      (∀ i, i + 1 < sampleProblem.mFeatureCount →
        sampleProblem.mFeatStartId.getD (i + 1) 0 =
          sampleProblem.mFeatStartId.getD i 0 + sampleProblem.mFeatNbLp.getD i 0) ∧
      sampleProblem.mLabelPositions.map (fun lp => (lp.probFeat, lp.id)) =
        (List.range sampleProblem.mFeatureCount).flatMap (fun (i : Nat) =>
          (List.range (sampleProblem.mFeatNbLp.getD i 0).toNat).map (fun (j : Nat) =>
            ((i : Int), sampleProblem.mFeatStartId.getD i 0 + (j : Int)))) ∧
      sampleProblem.mLabelPositions.map (fun lp => lp.id) =
        (List.range sampleProblem.mTotalCandidates.toNat).map (fun (k : Nat) => (k : Int)) ∧
      (sampleProblem.mLabelPositions.map (fun lp => lp.id)).Nodup ∧
      (sampleProblem.mLabelPositions.length : Int) = sampleProblem.mTotalCandidates :=
  ⟨by decide, by decide,
   extract_candidate_ids sampleEngine sampleEnv sampleExtent sampleBoundary sampleProblem
     (by decide) (by decide)⟩

/-- Claim C2 on the sample engine: the sample cost calculator caps the limit it is given,
and the point, whose layer allows one candidate per point, ends with one candidate. -/
theorem extract_respects_layer_maximum_witness :
    sampleEnv.finalizeWithinLimit ∧
      sampleEngine.extract sampleEnv sampleExtent sampleBoundary = some sampleProblem ∧
      (extractLayers sampleEnv sampleEngine sampleExtent sampleBoundary).context.features[0]? =
        some samplePointFeats ∧
      ∃ n : Int, sampleProblem.mFeatNbLp[0]? = some n ∧
        (samplePointFeats.feature.getGeosType = .point →
          n ≤ (samplePointFeats.feature.layer.maximumPointLabelCandidates : Int)) ∧
        (samplePointFeats.feature.getGeosType = .linestring →
          n ≤ (samplePointFeats.feature.layer.maximumLineLabelCandidates : Int)) ∧
        (samplePointFeats.feature.getGeosType = .polygon →
          n ≤ (samplePointFeats.feature.layer.maximumPolygonLabelCandidates : Int)) :=
  ⟨fun _ _ _ _ => Nat.min_le_left _ _, by decide, by decide,
   extract_respects_layer_maximum sampleEngine sampleEnv sampleExtent sampleBoundary
     sampleProblem (fun _ _ _ _ => Nat.min_le_left _ _) (by decide) 0 samplePointFeats
     (by decide)⟩

/-- Claim C5 on the sample engine, where partial labels are off: the filter keeps the two
candidates of the point that lie within the boundary, and both candidates of the
problem lie within it. -/
theorem partial_label_policy_witness :
    sampleEngine.showPartialLabels = false ∧
      purgeCandidates sampleEngine sampleBoundary samplePoint.createCandidates =
        samplePoint.createCandidates.filter (fun c => sampleBoundary.within c.geom) ∧
      sampleEnv.finalizeKeepsGeometry ∧
      sampleEngine.extract sampleEnv sampleExtent sampleBoundary = some sampleProblem ∧
      ∀ lp ∈ sampleProblem.mLabelPositions,
        (sampleEngine.showPartialLabels = false → sampleBoundary.within lp.geom = true) ∧
        (sampleEngine.showPartialLabels = true → sampleBoundary.intersects lp.geom = true) :=
  ⟨by decide,
   (partial_label_policy sampleEngine sampleBoundary).1 (by decide) _,
   fun _ _ _ _ c hc => ⟨c, hc, rfl⟩,
   by decide,
   (partial_label_policy sampleEngine sampleBoundary).2.2 sampleEnv sampleExtent sampleProblem
     (fun _ _ _ _ c hc => ⟨c, hc, rfl⟩) (by decide)⟩

/-! ### Layer contribution tracking -/

theorem extractFeatCallback_fold_counts (pal : Pal) (mapBoundary : MapBoundary) :
    ∀ (parts : List FeaturePart) (ctx : CallBackCtx),
      (parts.foldl (fun ctx featurePart => extractFeatCallback pal mapBoundary featurePart ctx)
          ctx).features.length =
        ctx.features.length + parts.countP
          (fun part => !(purgeCandidates pal mapBoundary part.createCandidates).isEmpty) ∧
      (parts.foldl (fun ctx featurePart => extractFeatCallback pal mapBoundary featurePart ctx)
          ctx).obstacleCount = ctx.obstacleCount := by
  intro parts
  induction parts with
  | nil => intro ctx; simp
  | cons part rest ih =>
    intro ctx
    obtain ⟨h1, h2⟩ := ih (extractFeatCallback pal mapBoundary part ctx)
    rw [List.foldl_cons, h1, h2, List.countP_cons]
    unfold extractFeatCallback
    by_cases hk : purgeCandidates pal mapBoundary part.createCandidates = []
    · simp only [hk, List.isEmpty_nil, Bool.not_true, Bool.false_eq_true, if_false]
      cases part.createCandidatePointOnSurface <;> simp
    · have hne : (purgeCandidates pal mapBoundary part.createCandidates).isEmpty = false := by
        cases hp : purgeCandidates pal mapBoundary part.createCandidates with
        | nil => exact absurd hp hk
        | cons a t => rfl
      simp only [hne, Bool.not_false, if_true, List.length_append, List.length_singleton]
      exact ⟨by omega, trivial⟩

theorem extractObstaclesCallback_fold_counts :
    ∀ (obstacles : List Obstacle) (ctx : CallBackCtx),
      (obstacles.foldl (fun ctx ft_ptr => extractObstaclesCallback ft_ptr ctx) ctx).features =
          ctx.features ∧
        (obstacles.foldl (fun ctx ft_ptr => extractObstaclesCallback ft_ptr ctx)
          ctx).obstacleCount = ctx.obstacleCount + (obstacles.length : Int) := by
  intro obstacles
  induction obstacles with
  | nil => intro ctx; simp
  | cons o rest ih =>
    intro ctx
    obtain ⟨h1, h2⟩ := ih (extractObstaclesCallback o ctx)
    rw [List.foldl_cons, h1, h2]
    simp only [extractObstaclesCallback, List.length_cons, Nat.cast_add, Nat.cast_one]
    exact ⟨trivial, by omega⟩

theorem extractLayer_names (env : Collaborators) (pal : Pal) (extent : Box)
    (mapBoundary : MapBoundary) (st : LayerLoop) (layer : Layer)
    (h1 : st.previousFeatureCount = st.context.features.length)
    (h2 : st.previousObstacleCount = st.context.obstacleCount) :
    (extractLayer env pal extent mapBoundary st layer).layersWithFeaturesInBBox =
        st.layersWithFeaturesInBBox ++
          (if (layer.active && layer.addsRecordOrIndexedObstacle env pal extent mapBoundary) = true then
            [(env.prepareLayer layer).name] else []) ∧
      (extractLayer env pal extent mapBoundary st layer).previousFeatureCount =
        (extractLayer env pal extent mapBoundary st layer).context.features.length ∧
      (extractLayer env pal extent mapBoundary st layer).previousObstacleCount =
        (extractLayer env pal extent mapBoundary st layer).context.obstacleCount := by
  unfold extractLayer
  cases ha : layer.active with
  | false => simp [h1, h2]
  | true =>
    simp only [Bool.not_true, Bool.false_eq_true, if_false, Bool.true_and, and_self, and_true]
    obtain ⟨f1, f2⟩ := extractFeatCallback_fold_counts pal mapBoundary
      (rtreeSearch FeaturePart.bbox (env.prepareLayer layer).mFeatureIndex extent) st.context
    obtain ⟨o1, o2⟩ := extractObstaclesCallback_fold_counts
      (rtreeSearch Obstacle.bbox (env.prepareLayer layer).mObstacleIndex extent)
      ((rtreeSearch FeaturePart.bbox (env.prepareLayer layer).mFeatureIndex extent).foldl
        (fun ctx featurePart => extractFeatCallback pal mapBoundary featurePart ctx) st.context)
    unfold Collaborators.prepareLayer at f1 f2 o1 o2
    rw [o1, o2, f1, f2, h1, h2]
    have hcond : (decide (st.context.features.length +
          (rtreeSearch FeaturePart.bbox (env.chopFeaturesAtRepeatDistance
            (if layer.mergeConnectedLines = true then env.joinConnectedFeatures layer
              else layer)).mFeatureIndex extent).countP
            (fun part => !(purgeCandidates pal mapBoundary part.createCandidates).isEmpty) -
          st.context.features.length > 0) ||
        decide (st.context.obstacleCount +
          ((rtreeSearch Obstacle.bbox (env.chopFeaturesAtRepeatDistance
            (if layer.mergeConnectedLines = true then env.joinConnectedFeatures layer
              else layer)).mObstacleIndex extent).length : Int) > st.context.obstacleCount)) =
        layer.addsRecordOrIndexedObstacle env pal extent mapBoundary := by
      unfold Layer.addsRecordOrIndexedObstacle Collaborators.prepareLayer
      congr 1
      · rw [Nat.add_sub_cancel_left]
        rw [Bool.eq_iff_iff]
        simp only [gt_iff_lt, decide_eq_true_eq, List.countP_pos_iff, List.any_eq_true]
      · rw [Bool.eq_iff_iff]
        simp only [gt_iff_lt, decide_eq_true_eq, Bool.not_eq_true', List.isEmpty_eq_false_iff_exists_mem]
        constructor
        · intro h
          have : 0 < (rtreeSearch Obstacle.bbox (env.chopFeaturesAtRepeatDistance
              (if layer.mergeConnectedLines = true then env.joinConnectedFeatures layer
                else layer)).mObstacleIndex extent).length := by omega
          exact List.exists_mem_of_length_pos this
        · rintro ⟨x, hx⟩
          have := List.length_pos_of_mem hx
          omega
    rw [hcond]
    cases layer.addsRecordOrIndexedObstacle env pal extent mapBoundary <;> simp [Collaborators.prepareLayer]

theorem extractLayers_names (env : Collaborators) (pal : Pal) (extent : Box)
    (mapBoundary : MapBoundary) :
    ∀ (layers : List (Nat × Layer)) (st : LayerLoop),
      st.previousFeatureCount = st.context.features.length →
      st.previousObstacleCount = st.context.obstacleCount →
        (layers.foldl (fun st e => extractLayer env pal extent mapBoundary st e.2)
            st).layersWithFeaturesInBBox =
          st.layersWithFeaturesInBBox ++
            ((layers.map Prod.snd).filter (fun layer =>
              layer.active && layer.addsRecordOrIndexedObstacle env pal extent mapBoundary)).map
                (fun layer => (env.prepareLayer layer).name) := by
  intro layers
  induction layers with
  | nil => intro st _ _; simp
  | cons e rest ih =>
    intro st h1 h2
    obtain ⟨n1, n2, n3⟩ := extractLayer_names env pal extent mapBoundary st e.2 h1 h2
    rw [List.foldl_cons, ih _ n2 n3, n1, List.map_cons, List.filter_cons]
    cases hc : (e.2.active && e.2.addsRecordOrIndexedObstacle env pal extent mapBoundary) <;> simp

theorem extract_some_metadata (pal : Pal) (env : Collaborators) (extent : Box)
    (mapBoundary : MapBoundary) (prob : Problem)
    (h : pal.extract env extent mapBoundary = some prob) :
    prob.labelledLayersName =
        (extractLayers env pal extent mapBoundary).layersWithFeaturesInBBox ∧
      prob.mLayerCount =
        (extractLayers env pal extent mapBoundary).layersWithFeaturesInBBox.length ∧
      prob.mFeatureCount = (extractLayers env pal extent mapBoundary).context.features.length := by
  unfold Pal.extract Pal.extractPolled at h
  simp only [] at h
  split at h
  · split at h
    · simp at h
    · split at h
      · simp at h
      · simp only [Option.some.injEq] at h
        subst h
        exact ⟨rfl, rfl, rfl⟩
  · simp only [Option.some.injEq] at h
    subst h
    exact ⟨rfl, rfl, rfl⟩

theorem addsRecordOrIndexedObstacle_contributes (layer : Layer) (env : Collaborators)
    (pal : Pal) (extent : Box) (mapBoundary : MapBoundary)
    (h : layer.addsRecordOrIndexedObstacle env pal extent mapBoundary = true) :
    layer.contributes env extent = true := by
  unfold Layer.addsRecordOrIndexedObstacle at h
  unfold Layer.contributes Layer.obstaclesInserted
  rw [Bool.or_eq_true] at h ⊢
  rcases h with h | h
  · left
    rw [List.any_eq_true] at h
    obtain ⟨part, hp, _⟩ := h
    cases hs : rtreeSearch FeaturePart.bbox (env.prepareLayer layer).mFeatureIndex extent with
    | nil => rw [hs] at hp; simp at hp
    | cons a t => rfl
  · right
    cases hs : rtreeSearch Obstacle.bbox (env.prepareLayer layer).mObstacleIndex extent with
    | nil => rw [hs] at h; simp at h
    | cons a t =>
      have ha : a ∈ rtreeSearch Obstacle.bbox (env.prepareLayer layer).mObstacleIndex extent := by
        rw [hs]; exact List.mem_cons_self a t
      unfold rtreeSearch at ha
      have hov := (List.mem_filter.mp ha).2
      rw [List.any_eq_true]
      exact ⟨a, by simp, hov⟩

/-- Claim C13 as worded fails on the park engine. The park layer is active; its polygon
overlaps the extent, so the layer has a feature inside the extent; the hole of the
polygon lies inside the extent and enters the obstacle index of the run, so the layer
contributed an obstacle; the polygon keeps no candidate, and its point on surface enters
the positions without candidates of the problem. The problem returned lists "towns"
only: the name of the park layer is not recorded. -/
theorem extract_omits_layer_with_hole_only :
    parkLayer.active = true ∧
      parkLayer.contributes sampleEnv sampleExtent = true ∧
      rtreeSearch FeaturePart.bbox (sampleEnv.prepareLayer parkLayer).mFeatureIndex
        sampleExtent = [samplePolygon] ∧
      parkLayer.obstaclesInserted sampleEnv sampleExtent =
        [{ addr := 202, bbox := { xmin := 96, ymin := 96, xmax := 98, ymax := 98 } }] ∧
      (extractLayers sampleEnv parkEngine sampleExtent sampleBoundary).context.obstacleIndex =
        [{ addr := 202, bbox := { xmin := 96, ymin := 96, xmax := 98, ymax := 98 } }] ∧
      parkEngine.extract sampleEnv sampleExtent sampleBoundary = some parkProblem ∧
      parkProblem.mPositionsWithNoCandidates.map (fun lp => lp.addr) = [129] ∧
      parkProblem.labelledLayersName = ["towns"] ∧
      parkLayer.name ∉ parkProblem.labelledLayersName := by
  decide

/-- Claim C13, amended. In every problem returned by `Pal::extract`, `labelledLayersName`
lists, in the order of the layer loop and once per layer, the names of exactly the layers
that are active and added a feature record or an indexed obstacle: one of the feature
parts of the layer overlapping the extent kept a candidate after the boundary filter, or
an entry of the obstacle index of the layer overlaps the extent. Feature parts left
without a candidate, their positions without candidates and the holes they register do
not count. An inactive layer is therefore never listed, and `mLayerCount` is the number
of names listed. -/
theorem extract_labelled_layers (pal : Pal) (env : Collaborators) (extent : Box)
    (mapBoundary : MapBoundary) (prob : Problem)
    (h : pal.extract env extent mapBoundary = some prob) :
    prob.labelledLayersName =
        ((pal.mLayers.map Prod.snd).filter (fun layer =>
          layer.active && layer.addsRecordOrIndexedObstacle env pal extent mapBoundary)).map
            (fun layer => (env.prepareLayer layer).name) ∧
      prob.mLayerCount = prob.labelledLayersName.length := by
  obtain ⟨h1, h2, _⟩ := extract_some_metadata pal env extent mapBoundary prob h
  have hn := extractLayers_names env pal extent mapBoundary pal.mLayers LayerLoop.init rfl rfl
  refine ⟨?_, by rw [h2, h1]⟩
  rw [h1]
  unfold extractLayers
  rw [hn]
  simp [LayerLoop.init]

/-- Claim C13, amended, on an engine with three layers: the inactive layer, although it holds a
feature and an obstacle inside the extent, and the active layer that has nothing inside
the extent are not listed; the sample layer is listed once. -/
theorem extract_labelled_layers_witness :
    threeLayerEngine.extract sampleEnv sampleExtent sampleBoundary = some sampleProblem ∧
      (threeLayerEngine.mLayers.map Prod.snd).filter (fun layer =>
        layer.active && layer.addsRecordOrIndexedObstacle sampleEnv threeLayerEngine
          sampleExtent sampleBoundary) = [sampleLayer] ∧
      sampleProblem.labelledLayersName =
        ((threeLayerEngine.mLayers.map Prod.snd).filter (fun layer =>
          layer.active && layer.addsRecordOrIndexedObstacle sampleEnv threeLayerEngine
            sampleExtent sampleBoundary)).map (fun layer => (sampleEnv.prepareLayer layer).name) ∧
      sampleProblem.mLayerCount = sampleProblem.labelledLayersName.length :=
  ⟨by decide, by decide,
   extract_labelled_layers threeLayerEngine sampleEnv sampleExtent sampleBoundary sampleProblem
     (by decide)⟩

/-! ### The switch without default branch -/

theorem featureLoop_nil (env : Collaborators) (obstacles : List Obstacle) (bb : Box) :
    ∀ (count i : Nat) (st : FeatureLoop), st.features = [] →
      featureLoop env obstacles bb count i st = st := by
  intro count i st h
  cases count with
  | zero => rfl
  | succ count => simp [featureLoop, h]

theorem featureLoop_succ (env : Collaborators) (obstacles : List Obstacle) (bb : Box) :
    ∀ (count i : Nat) (st : FeatureLoop) (feat : Feats),
      (featureLoop env obstacles bb count i st).features.head? = some feat →
        featureLoop env obstacles bb (count + 1) i st =
          extractFeature env obstacles bb (i + count)
            { featureLoop env obstacles bb count i st with
              features := (featureLoop env obstacles bb count i st).features.tail } feat := by
  intro count
  induction count with
  | zero =>
    intro i st feat h
    simp only [featureLoop] at h ⊢
    cases hf : st.features with
    | nil => rw [hf] at h; simp at h
    | cons a t =>
      rw [hf] at h
      simp only [List.head?_cons, Option.some.injEq] at h
      subst h
      simp [featureLoop]
  | succ count ih =>
    intro i st feat h
    cases hf : st.features with
    | nil =>
      rw [featureLoop_nil env obstacles bb _ _ st hf] at h
      rw [hf] at h
      simp at h
    | cons a t =>
      have hstep : ∀ c, featureLoop env obstacles bb (c + 1) i st =
          featureLoop env obstacles bb c (i + 1)
            (extractFeature env obstacles bb i { st with features := t } a) := by
        intro c
        rw [featureLoop, hf]
      rw [hstep] at h ⊢
      rw [ih (i + 1) _ feat h, hstep count]
      have : i + 1 + count = i + (count + 1) := by omega
      rw [this]

theorem extractFeature_max_p (env : Collaborators) (obstacles : List Obstacle) (bb : Box)
    (i : Nat) (st : FeatureLoop) (feat : Feats) :
    (extractFeature env obstacles bb i st feat).max_p =
      (env.finalizeCandidatesCosts feat (st.limitFor feat) obstacles bb).2 := by
  simp only [extractFeature, FeatureLoop.limitFor]

/-- Claim C14. In the per-feature loop of `Pal::extract`, the limit passed to
`finalizeCandidatesCosts` for a feature whose GEOS type is none of point, line string or
polygon is no maximum of its layer: it is 0 when the feature is the first one processed,
and otherwise the value `finalizeCandidatesCosts` returned for the feature processed just
before. Each iteration runs the loop body on the front feature with the variables the
iteration before left, and the body stores the value `finalizeCandidatesCosts` returns in
`max_p`. -/
theorem switch_without_default (pal : Pal) (env : Collaborators) (extent : Box)
    (mapBoundary : MapBoundary) :
    (∀ feat, (pal.featureStateAt env extent mapBoundary 0).features.head? = some feat →
        feat.feature.getGeosType = .other →
          (pal.featureStateAt env extent mapBoundary 0).limitFor feat = 0) ∧
      (∀ j prev feat,
        (pal.featureStateAt env extent mapBoundary j).features.head? = some prev →
        (pal.featureStateAt env extent mapBoundary (j + 1)).features.head? = some feat →
        feat.feature.getGeosType = .other →
          (pal.featureStateAt env extent mapBoundary (j + 1)).limitFor feat =
            (env.finalizeCandidatesCosts prev
              ((pal.featureStateAt env extent mapBoundary j).limitFor prev)
              (extractLayers env pal extent mapBoundary).context.obstacleIndex extent).2) ∧
      (∀ k feat, (pal.featureStateAt env extent mapBoundary k).features.head? = some feat →
        pal.featureStateAt env extent mapBoundary (k + 1) =
          extractFeature env (extractLayers env pal extent mapBoundary).context.obstacleIndex
            extent k
            { pal.featureStateAt env extent mapBoundary k with
              features := (pal.featureStateAt env extent mapBoundary k).features.tail } feat) ∧
      (∀ obstacles bb i st feat,
        (extractFeature env obstacles bb i st feat).max_p =
          (env.finalizeCandidatesCosts feat (st.limitFor feat) obstacles bb).2) ∧
      pal.featureStage env extent mapBoundary =
        pal.featureStateAt env extent mapBoundary
          (extractLayers env pal extent mapBoundary).context.features.length := by
  have hstep : ∀ k feat,
      (pal.featureStateAt env extent mapBoundary k).features.head? = some feat →
        pal.featureStateAt env extent mapBoundary (k + 1) =
          extractFeature env (extractLayers env pal extent mapBoundary).context.obstacleIndex
            extent k
            { pal.featureStateAt env extent mapBoundary k with
              features := (pal.featureStateAt env extent mapBoundary k).features.tail }
            feat := by
    intro k feat h
    unfold Pal.featureStateAt at h ⊢
    simp only [] at h ⊢
    rw [featureLoop_succ env _ extent k 0 _ feat h, Nat.zero_add]
  refine ⟨?_, ?_, hstep, extractFeature_max_p env, rfl⟩
  · intro feat _ ht
    simp [FeatureLoop.limitFor, ht, Pal.featureStateAt, featureLoop]
  · intro j prev feat hprev _ ht
    rw [hstep j prev hprev]
    simp only [FeatureLoop.limitFor, ht]
    rw [extractFeature_max_p]
    rfl

/-- Claim C14 on two sample engines. With the curve first, its limit is 0; with the
curve second, its limit is 1, the value the sample cost calculator returned for the
point before it, although the layer allows two candidates per line and three per
polygon. -/
theorem switch_without_default_witness :
    ((curveFirstEngine.featureStateAt sampleEnv sampleExtent sampleBoundary 0).features.head? =
        some sampleCurveFeats ∧
      sampleCurveFeats.feature.getGeosType = .other ∧
      (curveFirstEngine.featureStateAt sampleEnv sampleExtent sampleBoundary 0).limitFor
        sampleCurveFeats = 0) ∧
      ((curveSecondEngine.featureStateAt sampleEnv sampleExtent sampleBoundary
          0).features.head? = some samplePointFeats ∧
        (curveSecondEngine.featureStateAt sampleEnv sampleExtent sampleBoundary
          1).features.head? = some sampleCurveFeats ∧
        (curveSecondEngine.featureStateAt sampleEnv sampleExtent sampleBoundary 1).limitFor
          sampleCurveFeats =
            (sampleEnv.finalizeCandidatesCosts samplePointFeats
              ((curveSecondEngine.featureStateAt sampleEnv sampleExtent sampleBoundary
                0).limitFor samplePointFeats)
              (extractLayers sampleEnv curveSecondEngine sampleExtent
                sampleBoundary).context.obstacleIndex sampleExtent).2 ∧
        (sampleEnv.finalizeCandidatesCosts samplePointFeats
            ((curveSecondEngine.featureStateAt sampleEnv sampleExtent sampleBoundary
              0).limitFor samplePointFeats)
            (extractLayers sampleEnv curveSecondEngine sampleExtent
              sampleBoundary).context.obstacleIndex sampleExtent).2 = 1) :=
  ⟨⟨by decide, by decide,
    (switch_without_default curveFirstEngine sampleEnv sampleExtent sampleBoundary).1
      sampleCurveFeats (by decide) (by decide)⟩,
   ⟨by decide, by decide,
    (switch_without_default curveSecondEngine sampleEnv sampleExtent sampleBoundary).2.1 0
      samplePointFeats sampleCurveFeats (by decide) (by decide) (by decide),
    by decide⟩⟩

/-! ### Overlap accounting -/

theorem sum_indicator_eq_countP {α : Type} (p : α → Bool) :
    ∀ l : List α, (l.map (fun x => if p x = true then 1 else 0)).sum = l.countP p := by
  intro l
  induction l with
  | nil => rfl
  | cons a t ih =>
    rw [List.map_cons, List.sum_cons, ih, List.countP_cons]
    omega

theorem even_pair_count {α : Type} (Q : α → α → Bool) (hirr : ∀ x, Q x x = false)
    (hsym : ∀ x y, Q x y = Q y x) :
    ∀ l : List α, Even ((l.map (fun x => l.countP (Q x))).sum) := by
  intro l
  induction l with
  | nil => exact ⟨0, rfl⟩
  | cons a t ih =>
    have hhead : (a :: t).countP (Q a) = t.countP (Q a) := by
      rw [List.countP_cons, hirr]
      simp
    have htail : (t.map (fun x => (a :: t).countP (Q x))).sum =
        (t.map (fun x => t.countP (Q x))).sum + t.countP (Q a) := by
      have h1 : (t.map (fun x => (a :: t).countP (Q x))) =
          t.map (fun x => t.countP (Q x) + (if Q a x = true then 1 else 0)) := by
        apply List.map_congr_left
        intro x _
        rw [List.countP_cons, hsym x a]
      rw [h1, List.sum_map_add, sum_indicator_eq_countP]
    rw [List.map_cons, List.sum_cons, hhead, htail]
    obtain ⟨r, hr⟩ := ih
    exact ⟨r + t.countP (Q a), by omega⟩

theorem filterMap_find_addr (alive : List LabelPosition)
    (hnd : (alive.map (fun lp => lp.addr)).Nodup) :
    (alive.map (fun lp => lp.addr)).filterMap
      (fun a => alive.find? (fun c => c.addr == a)) = alive := by
  rw [List.filterMap_map]
  have h : ∀ x ∈ alive,
      ((fun a => alive.find? (fun c => c.addr == a)) ∘ (fun lp : LabelPosition => lp.addr)) x =
        some x := by
    intro x hx
    exact find_of_nodup_map (fun lp : LabelPosition => lp.addr) alive x hx hnd
  rw [List.filterMap_congr h, List.filterMap_some]

theorem countOverlaps_nbOverlap (env : Collaborators) (candidateIndex : List Nat)
    (alive : List LabelPosition) (lp : LabelPosition)
    (hperm : candidateIndex.Perm (alive.map (fun lp => lp.addr)))
    (hnd : (alive.map (fun lp => lp.addr)).Nodup) :
    (countOverlaps env candidateIndex alive lp).nbOverlap =
      lp.nbOverlap + ((alive.countP (conflictsWith env lp) : Nat) : Int) := by
  have hfound := (hperm.filterMap (fun a => alive.find? (fun c => c.addr == a)))
  rw [filterMap_find_addr alive hnd] at hfound
  have hlen := (hfound.filter (conflictsWith env lp)).length_eq
  simp only [countOverlaps]
  rw [List.countP_eq_length_filter, ← hlen]
  rfl

theorem overlaps_comm (a b : Box) : a.overlaps b = b.overlaps a := by
  unfold Box.overlaps
  rw [Bool.or_comm (decide (a.xmin > b.xmax)), Bool.or_comm (decide (a.ymin > b.ymax))]

theorem isInConflict_frame (env : Collaborators) (hconf : env.conflictIsPairwise)
    (a b : LabelPosition) : env.isInConflict a b = env.isInConflict a.frame b.frame := by
  obtain ⟨hsym, _, hblind⟩ := hconf
  have h1 : env.isInConflict a.frame b = env.isInConflict a b := hblind a b 0 0
  have h2 : env.isInConflict b.frame a.frame = env.isInConflict b a.frame := hblind b a.frame 0 0
  rw [← h1, hsym a.frame b, ← h2, hsym]

theorem conflictsWith_frame (env : Collaborators) (hconf : env.conflictIsPairwise)
    (a b : LabelPosition) : conflictsWith env a b = conflictsWith env a.frame b.frame := by
  unfold conflictsWith
  rw [isInConflict_frame env hconf a b]
  rfl

theorem conflictsWith_irrefl (env : Collaborators) (hconf : env.conflictIsPairwise)
    (a : LabelPosition) : conflictsWith env a a = false := by
  unfold conflictsWith
  rw [hconf.2.1]
  simp

theorem conflictsWith_symm (env : Collaborators) (hconf : env.conflictIsPairwise)
    (a b : LabelPosition) : conflictsWith env a b = conflictsWith env b a := by
  unfold conflictsWith
  rw [hconf.1 a b, overlaps_comm]

theorem countP_conflicts_frame (env : Collaborators) (hconf : env.conflictIsPairwise)
    (alive : List LabelPosition) (lp : LabelPosition) :
    alive.countP (conflictsWith env lp) =
      (alive.map LabelPosition.frame).countP (conflictsWith env lp.frame) := by
  rw [List.countP_map]
  congr 1
  funext c
  exact conflictsWith_frame env hconf lp c

theorem wrapInt32_of_range (x : Int) (h0 : 0 ≤ x) (h1 : x ≤ 2147483647) : wrapInt32 x = x := by
  unfold wrapInt32
  omega

theorem sum_natCast_nonneg {α : Type} (f : α → Nat) :
    ∀ l : List α, (0 : Int) ≤ (l.map (fun a => ((f a : Nat) : Int))).sum := by
  intro l
  induction l with
  | nil => simp
  | cons a t ih =>
    rw [List.map_cons, List.sum_cons]
    have : (0 : Int) ≤ ((f a : Nat) : Int) := Int.ofNat_nonneg _
    omega

theorem frame_addr_map (l : List LabelPosition) :
    (l.map LabelPosition.frame).map (fun lp => lp.addr) = l.map (fun lp => lp.addr) := by
  rw [List.map_map]
  rfl

theorem overlapCandidates_counts (env : Collaborators) (hconf : env.conflictIsPairwise)
    (candidateIndex : List Nat) (later : List LabelPosition) (frames : List LabelPosition)
    (hperm : candidateIndex.Perm (frames.map (fun lp => lp.addr)))
    (hnd : (frames.map (fun lp => lp.addr)).Nodup) :
    ∀ (candidates done : List LabelPosition) (nbOverlaps : Int),
      (done ++ candidates ++ later).map LabelPosition.frame = frames →
        (overlapCandidates env candidateIndex later candidates done nbOverlaps).1.map
            (fun p => (p.frame, p.nbOverlap)) =
          done.map (fun p => (p.frame, p.nbOverlap)) ++
            candidates.map (fun a =>
              (a.frame, ((frames.countP (conflictsWith env a.frame) : Nat) : Int))) ∧
        (0 ≤ nbOverlaps →
          nbOverlaps + (candidates.map (fun a =>
            ((frames.countP (conflictsWith env a.frame) : Nat) : Int))).sum ≤ 2147483647 →
          (overlapCandidates env candidateIndex later candidates done nbOverlaps).2 =
            nbOverlaps + (candidates.map (fun a =>
              ((frames.countP (conflictsWith env a.frame) : Nat) : Int))).sum) := by
  intro candidates
  induction candidates with
  | nil => intro done nbOverlaps _; simp [overlapCandidates]
  | cons candidate rest ih =>
    intro done nbOverlaps hframes
    obtain ⟨lp1, hlp1⟩ : ∃ lp1 : LabelPosition, lp1 = { candidate.resetNumOverlaps with
        cost := env.validateCost candidate.resetNumOverlaps.cost } := ⟨_, rfl⟩
    have hf1 : lp1.frame = candidate.frame := by rw [hlp1]; rfl
    have hz1 : lp1.nbOverlap = 0 := by rw [hlp1]; rfl
    obtain ⟨lp2, hlp2⟩ : ∃ lp2 : LabelPosition,
        lp2 = countOverlaps env candidateIndex (done ++ lp1 :: rest ++ later) lp1 := ⟨_, rfl⟩
    have hunfold : overlapCandidates env candidateIndex later (candidate :: rest) done nbOverlaps =
        overlapCandidates env candidateIndex later rest (done ++ [lp2])
          (wrapInt32 (nbOverlaps + lp2.nbOverlap)) := by
      rw [hlp2, hlp1]
      rfl
    have halive : (done ++ lp1 :: rest ++ later).map LabelPosition.frame = frames := by
      rw [← hframes]
      simp [hf1]
    have haddr : (done ++ lp1 :: rest ++ later).map (fun lp => lp.addr) =
        frames.map (fun lp => lp.addr) := by
      rw [← halive, frame_addr_map]
    have hf2 : lp2.frame = candidate.frame := by
      rw [hlp2, ← hf1]
      rfl
    have hc2 : lp2.nbOverlap =
        ((frames.countP (conflictsWith env candidate.frame) : Nat) : Int) := by
      rw [hlp2, countOverlaps_nbOverlap env candidateIndex _ lp1
        (by rw [haddr]; exact hperm) (by rw [haddr]; exact hnd),
        countP_conflicts_frame env hconf, halive, hf1, hz1, Int.zero_add]
    have hnext : (done ++ [lp2] ++ rest ++ later).map LabelPosition.frame = frames := by
      rw [← hframes]
      simp [hf2]
    obtain ⟨h1, h2⟩ := ih (done ++ [lp2]) (wrapInt32 (nbOverlaps + lp2.nbOverlap)) hnext
    rw [hunfold]
    refine ⟨?_, ?_⟩
    · rw [h1]
      simp [hf2, hc2]
    · intro h0 hmax
      simp only [List.map_cons, List.sum_cons] at hmax ⊢
      have hrest := sum_natCast_nonneg
        (fun a : LabelPosition => frames.countP (conflictsWith env a.frame)) rest
      have hhead : (0 : Int) ≤ ((frames.countP (conflictsWith env candidate.frame) : Nat) : Int) :=
        Int.ofNat_nonneg _
      have hw : wrapInt32 (nbOverlaps + lp2.nbOverlap) = nbOverlaps + lp2.nbOverlap := by
        rw [hc2]
        exact wrapInt32_of_range _ (by omega) (by omega)
      rw [h2 (by rw [hw, hc2]; omega) (by rw [hw, hc2]; omega), hw, hc2]
      omega

theorem overlapLoop_counts (env : Collaborators) (hconf : env.conflictIsPairwise)
    (candidateIndex : List Nat) (frames : List LabelPosition)
    (hperm : candidateIndex.Perm (frames.map (fun lp => lp.addr)))
    (hnd : (frames.map (fun lp => lp.addr)).Nodup) :
    ∀ (features : List Feats) (polls : Nat) (acc r : List LabelPosition × Int) (last : Nat),
      overlapLoop env candidateIndex features polls acc = (some r, last) →
      (acc.1 ++ features.flatMap (fun f => f.candidates)).map LabelPosition.frame = frames →
        r.1.map (fun p => (p.frame, p.nbOverlap)) =
          acc.1.map (fun p => (p.frame, p.nbOverlap)) ++
            (features.flatMap (fun f => f.candidates)).map (fun a =>
              (a.frame, ((frames.countP (conflictsWith env a.frame) : Nat) : Int))) ∧
        (0 ≤ acc.2 →
          acc.2 + ((features.flatMap (fun f => f.candidates)).map (fun a =>
            ((frames.countP (conflictsWith env a.frame) : Nat) : Int))).sum ≤ 2147483647 →
          r.2 = acc.2 + ((features.flatMap (fun f => f.candidates)).map (fun a =>
            ((frames.countP (conflictsWith env a.frame) : Nat) : Int))).sum) := by
  intro features
  induction features with
  | nil =>
    intro polls acc r last h _
    simp only [overlapLoop, Prod.mk.injEq, Option.some.injEq] at h
    simp [h.1]
  | cons feat rest ih =>
    intro polls acc r last h hframes
    unfold overlapLoop at h
    split at h
    · simp at h
    · have hfr : (acc.1 ++ feat.candidates ++ rest.flatMap (fun f => f.candidates)).map
          LabelPosition.frame = frames := by
        rw [← hframes]
        simp
      obtain ⟨c1, c2⟩ := overlapCandidates_counts env hconf candidateIndex
        (rest.flatMap (fun f => f.candidates)) frames hperm hnd feat.candidates acc.1 acc.2 hfr
      have hfr2 : ((overlapCandidates env candidateIndex (rest.flatMap (fun f => f.candidates))
          feat.candidates acc.1 acc.2).1 ++ rest.flatMap (fun f => f.candidates)).map
          LabelPosition.frame = frames := by
        have hfst := congrArg (List.map Prod.fst) c1
        simp only [List.map_map, List.map_append] at hfst
        have e1 : (Prod.fst ∘ fun p : LabelPosition => (p.frame, p.nbOverlap)) =
            LabelPosition.frame := by funext p; rfl
        have e2 : (Prod.fst ∘ fun a : LabelPosition =>
            (a.frame, ((frames.countP (conflictsWith env a.frame) : Nat) : Int))) =
            LabelPosition.frame := by funext p; rfl
        rw [e1, e2] at hfst
        rw [List.map_append, hfst, ← hfr]
        simp
      obtain ⟨i1, i2⟩ := ih _ _ _ _ h hfr2
      refine ⟨?_, ?_⟩
      · rw [i1, c1]
        simp
      · intro h0 hmax
        simp only [List.flatMap_cons, List.map_append, List.sum_append] at hmax ⊢
        have hfeat := sum_natCast_nonneg
          (fun a : LabelPosition => frames.countP (conflictsWith env a.frame)) feat.candidates
        have hrest := sum_natCast_nonneg
          (fun a : LabelPosition => frames.countP (conflictsWith env a.frame))
          (rest.flatMap (fun f => f.candidates))
        have hc := c2 h0 (by omega)
        rw [i2 (by rw [hc]; omega) (by rw [hc]; omega), hc]
        omega

theorem extractFeatCallback_index (pal : Pal) (mapBoundary : MapBoundary)
    (featurePart : FeaturePart) (context : CallBackCtx)
    (h : context.candidateIndex.Perm
      (context.features.flatMap (fun f => f.candidates.map (fun lp => lp.addr)))) :
    (extractFeatCallback pal mapBoundary featurePart context).candidateIndex.Perm
      ((extractFeatCallback pal mapBoundary featurePart context).features.flatMap
        (fun f => f.candidates.map (fun lp => lp.addr))) := by
  unfold extractFeatCallback
  simp only []
  split
  · simp only [List.flatMap_append, List.flatMap_singleton]
    refine List.Perm.append h ?_
    exact ((List.perm_insertionSort _ _).map _).symm
  · split
    · exact h
    · exact h

theorem extractLayers_index (env : Collaborators) (pal : Pal) (extent : Box)
    (mapBoundary : MapBoundary) :
    (extractLayers env pal extent mapBoundary).context.candidateIndex.Perm
      ((extractLayers env pal extent mapBoundary).context.features.flatMap
        (fun f => f.candidates.map (fun lp => lp.addr))) := by
  unfold extractLayers
  apply foldl_invariant (fun st : LayerLoop => st.context.candidateIndex.Perm
    (st.context.features.flatMap (fun f => f.candidates.map (fun lp => lp.addr))))
  · intro st e hst
    unfold extractLayer
    split
    · exact hst
    · simp only []
      apply foldl_invariant (fun ctx : CallBackCtx => ctx.candidateIndex.Perm
        (ctx.features.flatMap (fun f => f.candidates.map (fun lp => lp.addr))))
      · intro ctx o hctx
        exact hctx
      · apply foldl_invariant (fun ctx : CallBackCtx => ctx.candidateIndex.Perm
          (ctx.features.flatMap (fun f => f.candidates.map (fun lp => lp.addr))))
        · intro ctx fp hctx
          exact extractFeatCallback_index pal mapBoundary fp ctx hctx
        · exact hst
  · exact List.Perm.refl _

theorem filterObstacles_addrs (env : Collaborators) (candidateIndex : List Nat) :
    ∀ (obstacles : List Obstacle) (polls : Nat) (features : List Feats),
      (filterObstacles env candidateIndex obstacles polls features).1.flatMap
          (fun f => f.candidates.map (fun lp => lp.addr)) =
        features.flatMap (fun f => f.candidates.map (fun lp => lp.addr)) := by
  intro obstacles
  induction obstacles with
  | nil => intro polls features; simp [filterObstacles]
  | cons o rest ih =>
    intro polls features
    unfold filterObstacles filteringCallback
    by_cases hc : env.isCanceled polls = true
    · simp [hc]
    · simp only [hc, Bool.false_eq_true, if_false]
      rw [ih]
      unfold pruneFeatures
      rw [List.flatMap_map]
      apply List.flatMap_congr
      intro f _
      simp only [List.map_map]
      apply List.map_congr_left
      intro lp _
      simp only [Function.comp]
      split <;> rfl

theorem popExcess_index (max_p : Nat) :
    ∀ (fuel : Nat) (candidates : List LabelPosition) (index others : List Nat),
      candidates.length ≤ fuel →
      index.Perm (others ++ candidates.map (fun lp => lp.addr)) → index.Nodup →
        (popExcess max_p fuel candidates index).2.Perm
            (others ++ (candidates.take max_p).map (fun lp => lp.addr)) ∧
          (popExcess max_p fuel candidates index).2.Nodup := by
  intro fuel
  induction fuel with
  | zero =>
    intro candidates index others h hperm hnd
    have : candidates = [] := List.eq_nil_of_length_eq_zero (by omega)
    subst this
    exact ⟨by simpa [popExcess] using hperm, by simpa [popExcess] using hnd⟩
  | succ fuel ih =>
    intro candidates index others h hperm hnd
    unfold popExcess
    by_cases hgt : candidates.length > max_p
    · rw [if_pos hgt]
      cases hl : candidates.getLast? with
      | none =>
        have : candidates = [] := List.getLast?_eq_none_iff.mp hl
        subst this
        simp at hgt
      | some back =>
        simp only []
        have hsplit : candidates.dropLast ++ [back] = candidates :=
          List.dropLast_append_getLast? back (by rw [hl]; exact rfl)
        have hperm2 : (index.erase back.addr).Perm
            (others ++ candidates.dropLast.map (fun lp => lp.addr)) := by
          have h1 : index.Perm
              (back.addr :: (others ++ candidates.dropLast.map (fun lp => lp.addr))) := by
            refine hperm.trans ?_
            rw [← hsplit, List.map_append, ← List.append_assoc, List.dropLast_concat]
            exact List.perm_append_singleton _ _
          have h2 := h1.erase back.addr
          rwa [List.erase_cons_head] at h2
        obtain ⟨r1, r2⟩ := ih candidates.dropLast (index.erase back.addr) others
          (by rw [List.length_dropLast]; omega) hperm2 (hnd.erase _)
        refine ⟨?_, r2⟩
        have htake : candidates.dropLast.take max_p = candidates.take max_p := by
          rw [List.dropLast_eq_take, List.take_take]
          congr 1
          omega
        rw [htake] at r1
        exact r1
    · rw [if_neg hgt]
      have htake : candidates.take max_p = candidates := List.take_of_length_le (by omega)
      rw [htake]
      exact ⟨hperm, hnd⟩

theorem assignProblemIds_addr (i : Int) :
    ∀ (candidates : List LabelPosition) (idlp : Int),
      (assignProblemIds i idlp candidates).1.map (fun lp => lp.addr) =
        candidates.map (fun lp => lp.addr) := by
  intro candidates
  induction candidates with
  | nil => intro idlp; simp [assignProblemIds]
  | cons lp rest ih =>
    intro idlp
    simp only [assignProblemIds, List.map_cons, ih]
    rfl

theorem extractFeature_index (env : Collaborators) (hkeep : env.finalizeKeepsCandidates)
    (obstacles : List Obstacle) (bb : Box) (i : Nat) (st : FeatureLoop) (feat : Feats)
    (rest : List Feats)
    (hperm : st.candidateIndex.Perm
      ((feat :: rest).flatMap (fun f => f.candidates.map (fun lp => lp.addr))))
    (hnd : st.candidateIndex.Nodup) :
    (extractFeature env obstacles bb i { st with features := rest } feat).candidateIndex.Perm
        ((extractFeature env obstacles bb i { st with features := rest } feat).features.flatMap
          (fun f => f.candidates.map (fun lp => lp.addr))) ∧
      (extractFeature env obstacles bb i { st with features := rest }
        feat).candidateIndex.Nodup := by
  simp only [extractFeature]
  have hk := hkeep feat (st.limitFor feat) obstacles bb
  simp only [FeatureLoop.limitFor] at hk
  generalize env.finalizeCandidatesCosts feat _ obstacles bb = fin at hk ⊢
  have hperm2 : st.candidateIndex.Perm
      (rest.flatMap (fun f => f.candidates.map (fun lp => lp.addr)) ++
        fin.1.candidates.map (fun lp => lp.addr)) := by
    rw [List.flatMap_cons] at hperm
    exact hperm.trans (List.perm_append_comm.trans (List.Perm.append_left _ hk.symm))
  obtain ⟨p1, p2⟩ := popExcess_index fin.2 fin.1.candidates.length fin.1.candidates
    st.candidateIndex _ (Nat.le_refl _) hperm2 hnd
  refine ⟨?_, p2⟩
  rw [List.flatMap_append, List.flatMap_singleton]
  simp only []
  rw [assignProblemIds_addr, popExcess_fst _ _ _ _ (Nat.le_refl _)]
  exact p1

theorem featureLoop_index (env : Collaborators) (hkeep : env.finalizeKeepsCandidates)
    (obstacles : List Obstacle) (bb : Box) :
    ∀ (count i : Nat) (st : FeatureLoop),
      st.candidateIndex.Perm
        (st.features.flatMap (fun f => f.candidates.map (fun lp => lp.addr))) →
      st.candidateIndex.Nodup →
        (featureLoop env obstacles bb count i st).candidateIndex.Perm
            ((featureLoop env obstacles bb count i st).features.flatMap
              (fun f => f.candidates.map (fun lp => lp.addr))) ∧
          (featureLoop env obstacles bb count i st).candidateIndex.Nodup := by
  intro count
  induction count with
  | zero => intro i st h1 h2; exact ⟨h1, h2⟩
  | succ count ih =>
    intro i st h1 h2
    unfold featureLoop
    split
    · exact ⟨h1, h2⟩
    · rename_i feat rest hst
      rw [hst] at h1
      obtain ⟨e1, e2⟩ := extractFeature_index env hkeep obstacles bb i st feat rest h1 h2
      exact ih _ _ e1 e2

theorem featureStage_index (pal : Pal) (env : Collaborators) (extent : Box)
    (mapBoundary : MapBoundary) (hkeep : env.finalizeKeepsCandidates)
    (hfresh : (extractLayers env pal extent mapBoundary).context.candidateIndex.Nodup) :
    (pal.featureStage env extent mapBoundary).candidateIndex.Perm
        ((pal.featureStage env extent mapBoundary).features.flatMap
          (fun f => f.candidates.map (fun lp => lp.addr))) ∧
      (pal.featureStage env extent mapBoundary).candidateIndex.Nodup := by
  unfold Pal.featureStage
  apply featureLoop_index env hkeep
  · simp only [Pal.filterStage]
    rw [filterObstacles_addrs]
    exact extractLayers_index env pal extent mapBoundary
  · exact hfresh

/-- Claim C11. Let the conflict test be symmetric, never report a candidate against itself
and ignore costs and counters; let the cost calculator hand back the candidates it was
given, and let distinct candidates have distinct addresses. Then, in every problem
returned by `Pal::extract` with at least one feature, the overlap counter of each
candidate is the number of candidates of the problem whose box overlaps its own and
that are in conflict with it, and the sum of the counters over all candidates is even;
when that sum does not exceed `INT_MAX`, so that no addition to the 32-bit accumulator
`nbOverlaps` overflows, twice the stored `mNbOverlap` is that sum. -/
theorem extract_overlap_accounting (pal : Pal) (env : Collaborators) (extent : Box)
    (mapBoundary : MapBoundary) (prob : Problem) (hconf : env.conflictIsPairwise)
    (hkeep : env.finalizeKeepsCandidates)
    (hfresh : (extractLayers env pal extent mapBoundary).context.candidateIndex.Nodup)
    (h : pal.extract env extent mapBoundary = some prob) (hfeat : 0 < prob.mFeatureCount) :
    (∀ lp ∈ prob.mLabelPositions,
        lp.nbOverlap = ((prob.mLabelPositions.filter (fun c =>
          c.geom.bbox.overlaps lp.geom.bbox && env.isInConflict lp c)).length : Int)) ∧
      Even ((prob.mLabelPositions.map (fun lp => lp.nbOverlap)).sum) ∧
      ((prob.mLabelPositions.map (fun lp => lp.nbOverlap)).sum ≤ 2147483647 →
        2 * prob.mNbOverlap = (prob.mLabelPositions.map (fun lp => lp.nbOverlap)).sum) := by
  cases hne : (extractLayers env pal extent mapBoundary).context.features.isEmpty with
  | true =>
    exfalso
    obtain ⟨_, _, hcount⟩ := extract_some_metadata pal env extent mapBoundary prob h
    simp only [List.isEmpty_iff] at hne
    rw [hcount, hne] at hfeat
    simp at hfeat
  | false =>
    obtain ⟨_, positions, nbOverlaps, hloop, _, _, _, _, _, hnbo, hpos⟩ :=
      extract_some_shape pal env extent mapBoundary prob h hne
    obtain ⟨i1, i2⟩ := featureStage_index pal env extent mapBoundary hkeep hfresh
    obtain ⟨frames, hframes⟩ : ∃ frames : List LabelPosition, frames =
        ((pal.featureStage env extent mapBoundary).features.flatMap
          (fun f => f.candidates)).map LabelPosition.frame := ⟨_, rfl⟩
    have haddr : frames.map (fun lp => lp.addr) =
        (pal.featureStage env extent mapBoundary).features.flatMap
          (fun f => f.candidates.map (fun lp => lp.addr)) := by
      rw [hframes, frame_addr_map, List.map_flatMap]
    have hperm : (pal.featureStage env extent mapBoundary).candidateIndex.Perm
        (frames.map (fun lp => lp.addr)) := by rw [haddr]; exact i1
    have hnd : (frames.map (fun lp => lp.addr)).Nodup := (hperm.nodup_iff).mp i2
    obtain ⟨c1, c2⟩ := overlapLoop_counts env hconf _ frames hperm hnd _ _ _ _ _ hloop
      (by simp [hframes])
    simp only [List.map_nil, List.nil_append, Int.zero_add] at c1 c2
    have hfr : positions.map LabelPosition.frame = frames := by
      have hfst := congrArg (List.map Prod.fst) c1
      simp only [List.map_map] at hfst
      have e1 : (Prod.fst ∘ fun p : LabelPosition => (p.frame, p.nbOverlap)) =
          LabelPosition.frame := by funext p; rfl
      have e2 : (Prod.fst ∘ fun a : LabelPosition =>
          (a.frame, ((frames.countP (conflictsWith env a.frame) : Nat) : Int))) =
          LabelPosition.frame := by funext p; rfl
      rw [e1, e2] at hfst
      rw [hfst, hframes]
    have hraw : positions.map (fun lp => lp.nbOverlap) =
        (frames.map (fun x => frames.countP (conflictsWith env x))).map (fun (n : Nat) =>
          (n : Int)) := by
      have hsnd := congrArg (List.map Prod.snd) c1
      simp only [List.map_map] at hsnd
      have e1 : (Prod.snd ∘ fun p : LabelPosition => (p.frame, p.nbOverlap)) =
          (fun lp : LabelPosition => lp.nbOverlap) := by funext p; rfl
      rw [e1] at hsnd
      rw [hsnd, hframes, List.map_map, List.map_map]
      rfl
    have hsum : (positions.map (fun lp => lp.nbOverlap)).sum =
        (((frames.map (fun x => frames.countP (conflictsWith env x))).sum : Nat) : Int) := by
      rw [hraw, Nat.cast_list_sum]
    have heven : Even ((positions.map (fun lp => lp.nbOverlap)).sum) := by
      rw [hsum, Int.even_coe_nat]
      exact even_pair_count (conflictsWith env) (conflictsWith_irrefl env hconf)
        (conflictsWith_symm env hconf) frames
    have hsame : (positions.map (fun lp => lp.nbOverlap)).sum =
        (((pal.featureStage env extent mapBoundary).features.flatMap
          (fun f => f.candidates)).map (fun a =>
            ((frames.countP (conflictsWith env a.frame) : Nat) : Int))).sum := by
      rw [hraw, hframes, List.map_map, List.map_map]
      rfl
    have hnb : (positions.map (fun lp => lp.nbOverlap)).sum ≤ 2147483647 →
        nbOverlaps = (positions.map (fun lp => lp.nbOverlap)).sum := by
      intro hbound
      rw [hsame]
      exact c2 (Int.le_refl 0) (by rw [← hsame]; exact hbound)
    rw [hpos]
    refine ⟨?_, heven, ?_⟩
    · intro lp hlp
      have hmem : (lp.frame, lp.nbOverlap) ∈
          positions.map (fun p => (p.frame, p.nbOverlap)) :=
        List.mem_map_of_mem (fun p : LabelPosition => (p.frame, p.nbOverlap)) hlp
      rw [c1] at hmem
      obtain ⟨a, _, ha⟩ := List.mem_map.mp hmem
      simp only [Prod.mk.injEq] at ha
      rw [← ha.2, ha.1, ← hfr, ← countP_conflicts_frame env hconf,
        List.countP_eq_length_filter]
      rfl
    · intro hbound
      rw [hnbo, hnb hbound]
      exact Int.mul_tdiv_cancel' (even_iff_two_dvd.mp heven)

/-- The contract on the conflict test cannot be dropped: with a test that reports a
candidate against itself, the only candidate of the lonely engine finds itself in the
index, the sum of the counters is 1 and `mNbOverlap` is 0. -/
theorem overlap_sum_odd_with_self_conflict :
    (lonelyEngine.extract selfConflictEnv sampleExtent sampleBoundary).map
      (fun prob => (prob.mLabelPositions.map (fun lp => lp.nbOverlap), prob.mNbOverlap)) =
        some ([1], 0) := by
  decide

/-! ### Inactive costs -/

theorem shiftOf_spec : ∀ (fuel n : Nat), n ≤ fuel →
    n < 2 ^ (shiftOf fuel n + 53) ∧ (0 < shiftOf fuel n → 2 ^ (shiftOf fuel n + 52) ≤ n) := by
  intro fuel
  induction fuel with
  | zero =>
    intro n hn
    have : n = 0 := by omega
    subst this
    simp [shiftOf]
  | succ fuel ih =>
    intro n hn
    unfold shiftOf
    by_cases hsmall : n < 2 ^ 53
    · simp only [hsmall, if_true, Nat.zero_add, Nat.lt_irrefl, false_implies, and_true]
    · simp only [hsmall, if_false]
      have h53 : 2 ^ 53 ≤ n := Nat.le_of_not_lt hsmall
      obtain ⟨h1, h2⟩ := ih (n / 2) (by omega)
      have e1 : 2 ^ (shiftOf fuel (n / 2) + 1 + 53) = 2 * 2 ^ (shiftOf fuel (n / 2) + 53) := by
        rw [show shiftOf fuel (n / 2) + 1 + 53 = (shiftOf fuel (n / 2) + 53) + 1 by omega,
          pow_succ]; omega
      have e2 : 2 ^ (shiftOf fuel (n / 2) + 1 + 52) = 2 * 2 ^ (shiftOf fuel (n / 2) + 52) := by
        rw [show shiftOf fuel (n / 2) + 1 + 52 = (shiftOf fuel (n / 2) + 52) + 1 by omega,
          pow_succ]; omega
      refine ⟨by rw [e1]; omega, fun _ => ?_⟩
      rw [e2]
      by_cases hs : 0 < shiftOf fuel (n / 2)
      · have := h2 hs
        omega
      · have hz : shiftOf fuel (n / 2) = 0 := by omega
        rw [hz]
        norm_num
        norm_num at h53
        omega

theorem shiftOf_mono (m n : Nat) (h : m ≤ n) : shiftOf m m ≤ shiftOf n n := by
  obtain ⟨m1, m2⟩ := shiftOf_spec m m (Nat.le_refl m)
  obtain ⟨n1, n2⟩ := shiftOf_spec n n (Nat.le_refl n)
  by_contra hlt
  have hlt : shiftOf n n + 1 ≤ shiftOf m m := by omega
  have hm := m2 (by omega)
  have hpow : 2 ^ (shiftOf n n + 53) ≤ 2 ^ (shiftOf m m + 52) :=
    Nat.pow_le_pow_right (by norm_num) (by omega)
  omega

theorem roundNat_bounds (n : Nat) :
    n / 2 ^ shiftOf n n * 2 ^ shiftOf n n ≤ roundNat n ∧
      roundNat n ≤ (n / 2 ^ shiftOf n n + 1) * 2 ^ shiftOf n n := by
  unfold roundNat
  simp only [Nat.shiftLeft_eq, Nat.one_mul]
  split
  · exact ⟨Nat.le_refl _, Nat.mul_le_mul_right _ (Nat.le_succ _)⟩
  · exact ⟨Nat.mul_le_mul_right _ (Nat.le_succ _), Nat.le_refl _⟩

theorem roundNat_mono (m n : Nat) (h : m ≤ n) : roundNat m ≤ roundNat n := by
  obtain ⟨m1, m2⟩ := shiftOf_spec m m (Nat.le_refl m)
  obtain ⟨n1, n2⟩ := shiftOf_spec n n (Nat.le_refl n)
  obtain ⟨bm1, bm2⟩ := roundNat_bounds m
  obtain ⟨bn1, bn2⟩ := roundNat_bounds n
  have hs := shiftOf_mono m n h
  rcases Nat.lt_or_eq_of_le hs with hlt | heq
  · -- the exponent grows
    have hq : m / 2 ^ shiftOf m m + 1 ≤ 2 ^ 53 := by
      have : m / 2 ^ shiftOf m m < 2 ^ 53 := by
        rw [Nat.div_lt_iff_lt_mul (Nat.pos_pow_of_pos _ (by norm_num))]
        rw [← pow_add, Nat.add_comm]
        exact m1
      omega
    have h1 : roundNat m ≤ 2 ^ (shiftOf m m + 53) := by
      refine Nat.le_trans bm2 ?_
      rw [Nat.add_comm (shiftOf m m) 53, pow_add]
      exact Nat.mul_le_mul_right _ hq
    have h2 : 2 ^ (shiftOf m m + 53) ≤ 2 ^ (shiftOf n n + 52) :=
      Nat.pow_le_pow_right (by norm_num) (by omega)
    have h3 : 2 ^ (shiftOf n n + 52) ≤ roundNat n := by
      refine Nat.le_trans ?_ bn1
      have hq52 : 2 ^ 52 ≤ n / 2 ^ shiftOf n n := by
        rw [Nat.le_div_iff_mul_le (Nat.pos_pow_of_pos _ (by norm_num)), ← pow_add,
          Nat.add_comm]
        exact n2 (by omega)
      rw [Nat.add_comm (shiftOf n n) 52, pow_add]
      exact Nat.mul_le_mul_right _ hq52
    omega
  · -- the same exponent
    have hP : 0 < 2 ^ shiftOf n n := Nat.pos_pow_of_pos _ (by norm_num)
    have hqle : m / 2 ^ shiftOf n n ≤ n / 2 ^ shiftOf n n := Nat.div_le_div_right h
    rw [heq] at bm1 bm2
    rcases Nat.lt_or_eq_of_le hqle with hq | hq
    · exact Nat.le_trans bm2 (Nat.le_trans (Nat.mul_le_mul_right _ hq) bn1)
    · -- the same truncated significand
      have dm := Nat.div_add_mod m (2 ^ shiftOf n n)
      have dn := Nat.div_add_mod n (2 ^ shiftOf n n)
      have hr : m % 2 ^ shiftOf n n ≤ n % 2 ^ shiftOf n n := by
        rw [hq] at dm
        omega
      unfold roundNat
      simp only [Nat.shiftLeft_eq, Nat.one_mul]
      rw [heq, hq]
      by_cases hn : 2 * (n % 2 ^ shiftOf n n) < 2 ^ shiftOf n n ∨
          (2 * (n % 2 ^ shiftOf n n) = 2 ^ shiftOf n n ∧ n / 2 ^ shiftOf n n % 2 = 0)
      · have hm : 2 * (m % 2 ^ shiftOf n n) < 2 ^ shiftOf n n ∨
            (2 * (m % 2 ^ shiftOf n n) = 2 ^ shiftOf n n ∧ n / 2 ^ shiftOf n n % 2 = 0) := by
          rcases hn with hn | ⟨hn, he⟩
          · left; omega
          · rcases Nat.lt_or_eq_of_le hr with h' | h'
            · left; omega
            · right; exact ⟨by omega, he⟩
        rw [if_pos hn, if_pos hm]
      · rw [if_neg hn]
        split
        · exact Nat.mul_le_mul_right _ (Nat.le_succ _)
        · exact Nat.le_refl _

theorem roundDouble_mono (x y : Int) (h : x ≤ y) : roundDouble x ≤ roundDouble y := by
  unfold roundDouble
  by_cases hx : 0 ≤ x
  · have hy : 0 ≤ y := le_trans hx h
    rw [if_pos hx, if_pos hy]
    have := roundNat_mono x.toNat y.toNat (Int.toNat_le_toNat h)
    have h2 : min (roundNat x.toNat) dblInfinity ≤ min (roundNat y.toNat) dblInfinity :=
      min_le_min_right _ this
    exact Int.ofNat_le.mpr h2
  · rw [if_neg hx]
    by_cases hy : 0 ≤ y
    · rw [if_pos hy]
      have a : (0 : Int) ≤ ((min (roundNat (-x).toNat) dblInfinity : Nat) : Int) :=
        Int.ofNat_nonneg _
      have b : (0 : Int) ≤ ((min (roundNat y.toNat) dblInfinity : Nat) : Int) :=
        Int.ofNat_nonneg _
      omega
    · rw [if_neg hy]
      have := roundNat_mono (-y).toNat (-x).toNat (Int.toNat_le_toNat (by omega))
      have h2 : min (roundNat (-y).toNat) dblInfinity ≤ min (roundNat (-x).toNat) dblInfinity :=
        min_le_min_right _ this
      have h3 := Int.ofNat_le.mpr h2
      omega

theorem roundNat_nearest (n : Nat) :
    2 * (roundNat n - n) ≤ 2 ^ shiftOf n n ∧ 2 * (n - roundNat n) ≤ 2 ^ shiftOf n n ∧
      roundNat n % 2 ^ shiftOf n n = 0 := by
  have hP : 0 < 2 ^ shiftOf n n := Nat.pos_pow_of_pos _ (by norm_num)
  have dn := Nat.div_add_mod n (2 ^ shiftOf n n)
  have hr := Nat.mod_lt n hP
  rw [Nat.mul_comm] at dn
  unfold roundNat
  simp only [Nat.shiftLeft_eq, Nat.one_mul]
  split
  · rename_i hdown
    refine ⟨?_, ?_, Nat.mul_mod_left _ _⟩
    · have : n / 2 ^ shiftOf n n * 2 ^ shiftOf n n - n = 0 := by omega
      rw [this]; omega
    · have : n - n / 2 ^ shiftOf n n * 2 ^ shiftOf n n = n % 2 ^ shiftOf n n := by omega
      rw [this]; omega
  · rename_i hup
    have hmul : (n / 2 ^ shiftOf n n + 1) * 2 ^ shiftOf n n =
        n / 2 ^ shiftOf n n * 2 ^ shiftOf n n + 2 ^ shiftOf n n := by
      rw [Nat.add_mul, Nat.one_mul]
    refine ⟨?_, ?_, Nat.mul_mod_left _ _⟩
    · rw [hmul]; omega
    · rw [hmul]
      have : n - (n / 2 ^ shiftOf n n * 2 ^ shiftOf n n + 2 ^ shiftOf n n) = 0 := by omega
      rw [this]; omega

theorem one_shiftLeft_mono (a b : Nat) (h : a ≤ b) : 1 <<< a ≤ 1 <<< b := by
  rw [Nat.shiftLeft_eq, Nat.shiftLeft_eq, Nat.one_mul, Nat.one_mul]
  exact Nat.pow_le_pow_right (by norm_num) h

theorem samplePow2_mono (x y : Int) (h : x ≤ y) : samplePow2 x ≤ samplePow2 y := by
  have hk : x / ((1 <<< 1074 : Nat) : Int) ≤ y / ((1 <<< 1074 : Nat) : Int) :=
    Int.ediv_le_ediv (by decide) h
  unfold samplePow2
  simp only []
  generalize x / ((1 <<< 1074 : Nat) : Int) = kx at hk
  generalize y / ((1 <<< 1074 : Nat) : Int) = ky at hk
  by_cases hx : kx < -1074
  · rw [if_pos hx]
    split
    · exact Int.le_refl 0
    · split
      · exact Int.ofNat_nonneg _
      · exact Int.ofNat_nonneg _
  · have hy : ¬ ky < -1074 := by omega
    rw [if_neg hx, if_neg hy]
    by_cases hx2 : 1024 ≤ kx
    · have hy2 : 1024 ≤ ky := by omega
      rw [if_pos hx2, if_pos hy2]
    · rw [if_neg hx2]
      have hxs : (1 <<< (kx + 1074).toNat : Nat) ≤ dblInfinity :=
        one_shiftLeft_mono _ 2098 (by omega)
      by_cases hy2 : 1024 ≤ ky
      · rw [if_pos hy2]
        exact Int.ofNat_le.mpr hxs
      · rw [if_neg hy2]
        exact Int.ofNat_le.mpr (one_shiftLeft_mono _ _ (by omega))

theorem inactiveCost_antitone (env : Collaborators)
    (hmono : ∀ x y : Int, x ≤ y → env.pow2 x ≤ env.pow2 y) (p q : Int) (h : p ≤ q) :
    inactiveCost env q ≤ inactiveCost env p := by
  unfold inactiveCost subIntDouble mulIntDouble
  have h1 : roundDouble (10 * p) ≤ roundDouble (10 * q) := roundDouble_mono _ _ (by omega)
  exact hmono _ _ (roundDouble_mono _ _ (by omega))

theorem filterObstacles_priorities (env : Collaborators) (candidateIndex : List Nat) :
    ∀ (obstacles : List Obstacle) (polls : Nat) (features : List Feats),
      (filterObstacles env candidateIndex obstacles polls features).1.map (fun f => f.priority) =
        features.map (fun f => f.priority) := by
  intro obstacles
  induction obstacles with
  | nil => intro polls features; simp [filterObstacles]
  | cons o rest ih =>
    intro polls features
    unfold filterObstacles filteringCallback
    by_cases hc : env.isCanceled polls = true
    · simp [hc]
    · simp only [hc, Bool.false_eq_true, if_false]
      rw [ih]
      simp [pruneFeatures]

theorem featureLoop_inactive (env : Collaborators) (obstacles : List Obstacle) (bb : Box) :
    ∀ (todo done : List Feats) (st : FeatureLoop) (i : Nat), st.features = todo ++ done →
      (featureLoop env obstacles bb todo.length i st).mInactiveCost =
        st.mInactiveCost ++ todo.map (fun f => inactiveCost env f.priority) := by
  intro todo
  induction todo with
  | nil => intro done st i _; simp [featureLoop]
  | cons feat rest ih =>
    intro done st i hf
    obtain ⟨f', hf', _⟩ := extractFeature_features env obstacles bb i
      { st with features := rest ++ done } feat
    have hf'' : (extractFeature env obstacles bb i { st with features := rest ++ done }
        feat).features = rest ++ (done ++ [f']) := by
      rw [hf']; simp
    rw [List.length_cons, featureLoop, hf]
    simp only [List.cons_append]
    rw [ih (done ++ [f']) _ (i + 1) hf'']
    simp [extractFeature]

/-- The inactive costs of a problem returned by `Pal::extract` are, feature by feature,
the value of `std::pow( 2, 10 - 10 * priority )` at the priority `calculatePriority()`
gave when the feature record was built. -/
theorem extract_inactive_costs (pal : Pal) (env : Collaborators) (extent : Box)
    (mapBoundary : MapBoundary) (prob : Problem)
    (h : pal.extract env extent mapBoundary = some prob) :
    prob.mInactiveCost =
      (extractLayers env pal extent mapBoundary).context.features.map
        (fun f => inactiveCost env f.priority) := by
  have hstage : (pal.featureStage env extent mapBoundary).mInactiveCost =
      (extractLayers env pal extent mapBoundary).context.features.map
        (fun f => inactiveCost env f.priority) := by
    have hl := featureLoop_inactive env
      (extractLayers env pal extent mapBoundary).context.obstacleIndex extent
      (pal.filterStage env extent mapBoundary).1 []
      { features := (pal.filterStage env extent mapBoundary).1,
        candidateIndex := (extractLayers env pal extent mapBoundary).context.candidateIndex,
        max_p := 0, idlp := 0, mFeatStartId := [], mInactiveCost := [], mFeatNbLp := [],
        mTotalCandidates := 0 } 0 (by simp)
    rw [filterStage_length] at hl
    have hp := filterObstacles_priorities env
      (extractLayers env pal extent mapBoundary).context.candidateIndex
      (extractLayers env pal extent mapBoundary).context.obstacleIndex 0
      (extractLayers env pal extent mapBoundary).context.features
    have hmap : (pal.filterStage env extent mapBoundary).1.map
        (fun f => inactiveCost env f.priority) =
        (extractLayers env pal extent mapBoundary).context.features.map
          (fun f => inactiveCost env f.priority) := by
      have := congrArg (List.map (inactiveCost env)) hp
      simpa [Pal.filterStage, List.map_map] using this
    unfold Pal.featureStage
    simp only [] at hl ⊢
    rw [hl, hmap]
    simp
  unfold Pal.extract Pal.extractPolled at h
  simp only [] at h
  split at h
  · split at h
    · simp at h
    · split at h
      · simp at h
      · simp only [Option.some.injEq] at h
        subst h
        exact hstage
  · rename_i hne
    simp only [Option.some.injEq] at h
    subst h
    simp only [Bool.not_eq_true, Bool.not_eq_false'] at hne
    rw [List.isEmpty_iff.mp hne]
    rfl

/-- Claim C12 as worded fails in `double` arithmetic. The priorities `threeTenths` and
`threeTenthsNext` are two `double` values, one below and one above `0.3`; the product
with 10 rounds to `3.0` for the first and is `3 + 2^-51` for the second, and the
difference from 10 is `7.0` for the first and rounds, a tie that goes to the even
significand, to `7.0` for the second. `std::pow` receives the same exponent twice:
`Pal::extract` stores the same inactive cost for both features, `128` with the sample
`std::pow`, although the second priority is the greater. -/
theorem inactive_cost_not_strictly_decreasing :
    threeTenths < threeTenthsNext ∧
      roundDouble threeTenths = threeTenths ∧ roundDouble threeTenthsNext = threeTenthsNext ∧
      10 * threeTenths < dbl 3 ∧ dbl 3 < 10 * threeTenthsNext ∧
      mulIntDouble 10 threeTenths = dbl 3 ∧
      mulIntDouble 10 threeTenthsNext = dbl 3 + ((1 <<< 1023 : Nat) : Int) ∧
      subIntDouble 10 (mulIntDouble 10 threeTenths) = dbl 7 ∧
      subIntDouble 10 (mulIntDouble 10 threeTenthsNext) = dbl 7 ∧
      (tieEngine.extract sampleEnv sampleExtent sampleBoundary).map
        (fun prob => prob.mInactiveCost) = some [dbl 128, dbl 128] ∧
      ¬ inactiveCost sampleEnv threeTenthsNext < inactiveCost sampleEnv threeTenths := by
  decide

/-- Claim C12, amended. Let `std::pow( 2, y )` be exact at the exponents 0 and 10 and not
decrease when the exponent grows. Then in every problem returned by `Pal::extract` the
inactive cost of each feature is `std::pow( 2, 10 - 10 * priority )` evaluated in
`double` arithmetic at the priority `calculatePriority()` gave for the feature; that
value is 1 for priority `1.0` and 1024 for priority `0.0`; and it never increases with
the priority: for all priorities `p < q`, the cost at `q` is at most the cost at `p`. -/
theorem inactive_cost_non_increasing (pal : Pal) (env : Collaborators) (extent : Box)
    (mapBoundary : MapBoundary) (prob : Problem)
    (h : pal.extract env extent mapBoundary = some prob)
    (hpow : env.powIsExactAndMonotone) :
    prob.mInactiveCost =
        (extractLayers env pal extent mapBoundary).context.features.map
          (fun f => inactiveCost env f.priority) ∧
      inactiveCost env (dbl 1) = dbl 1 ∧
      inactiveCost env (dbl 0) = dbl 1024 ∧
      ∀ p q : Int, p < q → inactiveCost env q ≤ inactiveCost env p := by
  obtain ⟨hzero, hten, hmono⟩ := hpow
  refine ⟨extract_inactive_costs pal env extent mapBoundary prob h, ?_, ?_, ?_⟩
  · have e : subIntDouble 10 (mulIntDouble 10 (dbl 1)) = 0 := by decide
    unfold inactiveCost
    rw [e, hzero]
  · have e : subIntDouble 10 (mulIntDouble 10 (dbl 0)) = dbl 10 := by decide
    unfold inactiveCost
    rw [e, hten]
  · intro p q hpq
    exact inactiveCost_antitone env hmono p q (Int.le_of_lt hpq)

/-- Claim C11 on the crowded engine: the sample conflict test is pairwise, the sample cost
calculator keeps the candidates, the two candidates overlap each other, each counter
is 1, the sum 2 is even and `mNbOverlap` is 1. -/
theorem extract_overlap_accounting_witness :
    sampleEnv.conflictIsPairwise ∧ sampleEnv.finalizeKeepsCandidates ∧
      (extractLayers sampleEnv crowdedEngine sampleExtent
        sampleBoundary).context.candidateIndex.Nodup ∧
      crowdedEngine.extract sampleEnv sampleExtent sampleBoundary = some crowdedProblem ∧
      0 < crowdedProblem.mFeatureCount ∧
      (crowdedProblem.mLabelPositions.map (fun lp => lp.nbOverlap)).sum ≤ 2147483647 ∧
      crowdedProblem.mLabelPositions.map (fun lp => lp.nbOverlap) = [1, 1] ∧
      crowdedProblem.mNbOverlap = 1 ∧
      ((∀ lp ∈ crowdedProblem.mLabelPositions,
          lp.nbOverlap = ((crowdedProblem.mLabelPositions.filter (fun c =>
            c.geom.bbox.overlaps lp.geom.bbox && sampleEnv.isInConflict lp c)).length : Int)) ∧
        Even ((crowdedProblem.mLabelPositions.map (fun lp => lp.nbOverlap)).sum) ∧
        ((crowdedProblem.mLabelPositions.map (fun lp => lp.nbOverlap)).sum ≤ 2147483647 →
          2 * crowdedProblem.mNbOverlap =
            (crowdedProblem.mLabelPositions.map (fun lp => lp.nbOverlap)).sum)) :=
  ⟨⟨fun a b => congrArg not BEq.comm,
      fun a => bne_self_eq_false _, fun _ _ _ _ => rfl⟩,
   fun _ _ _ _ => List.Perm.refl _,
   by decide, by decide, by decide, by decide, by decide, by decide,
   extract_overlap_accounting crowdedEngine sampleEnv sampleExtent sampleBoundary crowdedProblem
     ⟨fun a b => congrArg not BEq.comm,
      fun a => bne_self_eq_false _, fun _ _ _ _ => rfl⟩
     (fun _ _ _ _ => List.Perm.refl _) (by decide) (by decide) (by decide)⟩

/-- Claim C12, amended, on the crowded engine: the sample `std::pow` is exact at 0 and 10
and monotone, the town has priority `1.0` and inactive cost 1, the line has priority
`0.0` and inactive cost 1024. -/
theorem inactive_cost_non_increasing_witness :
    crowdedEngine.extract sampleEnv sampleExtent sampleBoundary = some crowdedProblem ∧
      sampleEnv.powIsExactAndMonotone ∧
      (extractLayers sampleEnv crowdedEngine sampleExtent sampleBoundary).context.features.map
        (fun f => f.priority) = [dbl 1, dbl 0] ∧
      crowdedProblem.mInactiveCost = [dbl 1, dbl 1024] ∧
      (crowdedProblem.mInactiveCost =
          (extractLayers sampleEnv crowdedEngine sampleExtent
            sampleBoundary).context.features.map (fun f => inactiveCost sampleEnv f.priority) ∧
        inactiveCost sampleEnv (dbl 1) = dbl 1 ∧
        inactiveCost sampleEnv (dbl 0) = dbl 1024 ∧
        ∀ p q : Int, p < q → inactiveCost sampleEnv q ≤ inactiveCost sampleEnv p) :=
  ⟨by decide, ⟨by decide, by decide, samplePow2_mono⟩, by decide, by decide,
   inactive_cost_non_increasing crowdedEngine sampleEnv sampleExtent sampleBoundary
     crowdedProblem (by decide) ⟨by decide, by decide, samplePow2_mono⟩⟩

end pal
